/-
Verification of the react-query-visualizer analysis core.

This file gives a shallow embedding, in Lean 4, of the parts of the
repository needed to settle the claims about its graph assembler
(src/core/graphBuilder.ts), its cache-key normalizer
(src/core/analyzer/queryKeys.ts, provided as an unnamed source part), and
its cross-file reference resolver (src/core/analyzer/resolver.ts /
context.ts).  TypeScript objects become Lean structures, JS Maps become
insertion-ordered association lists with JS Map.set semantics, mutable
local state becomes explicit fold accumulators, and `undefined` becomes
`Option`.  JS string values that contain brace characters are written with
the \x7b / \x7d escapes.

Abstractions (stated once here, referenced at the definitions):
* Filesystem- and path-dependent helpers (`path.resolve`, `existsSync` of
  package.json / tsconfig.json, `projectScopeForFile`, `toDisplayPath`,
  `normalizeFilePath`, `resolveModuleFile`) consult the host OS and cannot
  be shallowly embedded; each is abstracted as an opaque function
  parameter.  Within one run each of them behaves as a pure function of
  its path arguments (the source memoizes them in per-run caches), so this
  is faithful.  No claim below depends on their internals.
* `localeCompare` is modelled as lexicographic string comparison; all
  concrete inputs in the claims are plain ASCII, where the two agree.
* The resolver's mutable `seen` set is threaded downward through the
  recursion (additions are scoped to the subtree) rather than shared
  across sibling calls; the depth-cap and revisit-guard behaviour proved
  here is identical under either reading.
-/
import Mathlib

set_option maxHeartbeats 1000000

namespace RQV

/-- Left brace character as a string (written escaped throughout). -/
def lbrace : String := "\x7b"

/-- Right brace character as a string. -/
def rbrace : String := "\x7d"

/-- JS `String.prototype.includes`: substring containment, decidable via
char-list scan (the kernel cannot reduce `String.splitOn`,
`String.trim`, `String.startsWith` or `String.endsWith`, so the JS string
predicates are embedded over the underlying character lists; `strTrim`
covers the ASCII whitespace JS `trim` strips — no fixture segment carries
the exotic Unicode spaces). -/
def charListIncludes (needle : List Char) : List Char → Bool
  | [] => needle.isEmpty
  | c :: rest => needle.isPrefixOf (c :: rest) || charListIncludes needle rest

def strIncludes (s sub : String) : Bool :=
  charListIncludes sub.data s.data

/-- JS `String.prototype.startsWith`. -/
def strStartsWith (s p : String) : Bool := p.data.isPrefixOf s.data

/-- JS `String.prototype.endsWith`. -/
def strEndsWith (s p : String) : Bool := p.data.reverse.isPrefixOf s.data.reverse

/-- The ASCII whitespace stripped by JS `String.prototype.trim`. -/
def charIsJsWs (c : Char) : Bool :=
  c == ' ' || c == '\t' || c == '\n' || c == '\r'

/-- JS `String.prototype.trim`. -/
def strTrim (s : String) : String :=
  ⟨((s.data.dropWhile charIsJsWs).reverse.dropWhile charIsJsWs).reverse⟩

/-- ASCII lowering (the identifiers and sentinels these analyses lower are
all ASCII, so this matches the JS lowering on every string compared). -/
def charToLower (c : Char) : Char :=
  if 65 ≤ c.toNat ∧ c.toNat ≤ 90 then Char.ofNat (c.toNat + 32) else c

def strToLower (s : String) : String := ⟨s.data.map charToLower⟩

/-- `Resolution` from src/types.ts: 'static' | 'dynamic'. -/
inductive Resolution where
  | static
  | dynamic
deriving DecidableEq, Repr

/-- `MatchMode` from src/types.ts: 'exact' | 'prefix' | 'all' | 'predicate'
| 'unknown'.  The constructor `pfx` stands for the source's 'prefix'. -/
inductive MatchMode where
  | exact
  | pfx
  | all
  | predicate
  | unknown
deriving DecidableEq, Repr

/-- The `source` field of `NormalizedQueryKey`: 'literal' | 'expression' |
'wildcard'. -/
inductive KeySource where
  | literal
  | expression
  | wildcard
deriving DecidableEq, Repr

/-- `GraphRelation` from src/types.ts. -/
inductive Relation where
  | declares
  | invalidates
  | refetches
  | cancels
  | resets
  | clears
  | removes
  | sets
deriving DecidableEq, Repr

/-- `NormalizedQueryKey` from src/types.ts. -/
structure NormalizedQueryKey where
  id : String
  display : String
  segments : List String
  matchMode : MatchMode
  resolution : Resolution
  source : KeySource
deriving DecidableEq, Repr

/-- `SourceLoc` from src/types.ts. -/
structure SourceLoc where
  line : Nat
  column : Nat
deriving DecidableEq, Repr

/-- `QueryRecord` from src/types.ts (`declaresDirectly?` is optional). -/
structure QueryRecord where
  relation : Relation
  operation : String
  file : String
  loc : SourceLoc
  queryKey : NormalizedQueryKey
  resolution : Resolution
  declaresDirectly : Option Bool := none
deriving DecidableEq, Repr

/-- One parse-error entry of `AnalysisResult.parseErrors`. -/
structure ParseError where
  file : String
  message : String
deriving DecidableEq, Repr

/-- `GraphNodeKind` from src/types.ts. -/
inductive NodeKind where
  | file
  | action
  | queryKey
deriving DecidableEq, Repr

/-- The metrics record attached to graph nodes.  In the source this is an
open `Record<string, number | string>`; the code only ever reads back the
fields it wrote, so a structure of optional fields (absent = `none`) is an
exact model. -/
structure Metrics where
  relation : Option Relation := none
  displayFile : Option String := none
  projectScope : Option String := none
  declaresDirectly : Option Nat := none
  matchMode : Option MatchMode := none
  rootSegment : Option String := none
  affectedKeys : Option Nat := none
  affectedFiles : Option Nat := none
  declaredFiles : Option Nat := none
  declaredCallsites : Option Nat := none
deriving DecidableEq, Repr

/-- `GraphNode` from src/types.ts. -/
structure GraphNode where
  id : String
  kind : NodeKind
  label : String
  file : Option String := none
  loc : Option SourceLoc := none
  resolution : Resolution
  metrics : Metrics := {}
deriving DecidableEq, Repr

/-- `GraphEdge` from src/types.ts. -/
structure GraphEdge where
  id : String
  source : String
  target : String
  relation : Relation
  resolution : Resolution
deriving DecidableEq, Repr

/-- The `summary` block of `GraphData`. -/
structure GraphSummary where
  files : Nat
  actions : Nat
  queryKeys : Nat
  parseErrors : Nat
deriving DecidableEq, Repr

/-- `GraphData` from src/types.ts. -/
structure GraphData where
  nodes : List GraphNode
  edges : List GraphEdge
  summary : GraphSummary
  parseErrors : List ParseError
deriving DecidableEq, Repr

/-! ### Insertion-ordered association lists modelling JS `Map` / `Set`. -/

/-- JS `Map.prototype.get`. -/
def mapGet {κ α : Type} [DecidableEq κ] (m : List (κ × α)) (k : κ) : Option α :=
  (m.find? (fun p => p.1 = k)).map Prod.snd

/-- JS `Map.prototype.has`. -/
def mapHas {κ α : Type} [DecidableEq κ] (m : List (κ × α)) (k : κ) : Bool :=
  (m.find? (fun p => p.1 = k)).isSome

/-- JS `Map.prototype.set`: update in place if the key is present (keeping
its position), otherwise append at the end. -/
def mapSet {κ α : Type} [DecidableEq κ] (m : List (κ × α)) (k : κ) (v : α) :
    List (κ × α) :=
  if mapHas m k then
    m.map (fun p => if p.1 = k then (k, v) else p)
  else
    m ++ [(k, v)]

/-- JS `Map.prototype.delete` (keys are unique in these maps). -/
def mapDelete {κ α : Type} [DecidableEq κ] (m : List (κ × α)) (k : κ) :
    List (κ × α) :=
  m.filter (fun p => p.1 ≠ k)

/-- JS `Set.prototype.add` on an insertion-ordered set of strings. -/
def setAdd (s : List String) (k : String) : List String :=
  if k ∈ s then s else s ++ [k]

/-- JS `Set.prototype.has`. -/
def setHas (s : List String) (k : String) : Bool :=
  k ∈ s

/-! ### Pure helpers of src/core/graphBuilder.ts. -/

/-- `makeFileNodeId` (graphBuilder.ts). -/
def makeFileNodeId (filePath : String) : String :=
  "file:" ++ filePath

/-- `makeActionNodeId` (graphBuilder.ts). -/
def makeActionNodeId (record : QueryRecord) (index : Nat) : String :=
  "action:" ++ record.file ++ ":" ++ toString record.loc.line ++ ":" ++
    toString record.loc.column ++ ":" ++ record.operation ++ ":" ++
    toString index

/-- `makeQueryKeyNodeId` (graphBuilder.ts). -/
def makeQueryKeyNodeId (queryKeyId : String) : String :=
  "qk:" ++ queryKeyId

/-- `isWildcardQueryKey` (graphBuilder.ts). -/
def isWildcardQueryKey (record : QueryRecord) : Bool :=
  if record.queryKey.source = KeySource.wildcard then
    true
  else if record.queryKey.id = "*" ∨ record.queryKey.id = "all-query-cache" then
    true
  else
    false

/-- `isDeclarationAnchorRecord` (graphBuilder.ts): the record's relation is
'declares'. -/
def isDeclarationAnchorRecord (relation : Relation) : Bool :=
  relation = Relation.declares

/-- `normalizeComparableSegments` (graphBuilder.ts): drop empty and
'UNRESOLVED' sentinel segments before comparison. -/
def normalizeComparableSegments (key : NormalizedQueryKey) : List String :=
  key.segments.filter (fun segment => segment.length > 0 ∧ segment ≠ "UNRESOLVED")

/-- `isDynamicSegment` (graphBuilder.ts). -/
def isDynamicSegment (segment : String) : Bool :=
  let normalized := strTrim segment
  if normalized = "" then true
  else if normalized = "UNRESOLVED" then true
  else if strStartsWith normalized ("$") then true
  else if strIncludes normalized ("$" ++ lbrace) then true
  else if strIncludes normalized ("UNRESOLVED") then true
  else if strStartsWith normalized ("call(") ∨ strStartsWith normalized ("cond(") then true
  else false

/-- `segmentsCompatible` (graphBuilder.ts): textually equal, or either side
dynamic. -/
def segmentsCompatible (left right : String) : Bool :=
  if left = right then true
  else if isDynamicSegment left ∨ isDynamicSegment right then true
  else false

/-- `hasPrefixSegments` (graphBuilder.ts): the first list is, pairwise
compatibly, an initial run of the second. -/
def hasPrefixSegments : List String → List String → Bool
  | [], _ => true
  | _ :: _, [] => false
  | p :: ps, v :: vs =>
    if segmentsCompatible p v then hasPrefixSegments ps vs else false

/-- `actionAffectsDeclaredQueryKey` (graphBuilder.ts). -/
def actionAffectsDeclaredQueryKey
    (actionQueryKey declaredQueryKey : NormalizedQueryKey) : Bool :=
  -- `invalidateQueries(\x7b queryKey \x7d)` pass-through cannot be safely
  -- expanded; keep it as its own dynamic key node.
  if actionQueryKey.id = "pass-through-query-key" then
    false
  else if actionQueryKey.source = KeySource.wildcard ∨
      actionQueryKey.matchMode = MatchMode.all ∨
      actionQueryKey.matchMode = MatchMode.predicate then
    true
  else if actionQueryKey.id = declaredQueryKey.id then
    true
  else
    let actionSegments := normalizeComparableSegments actionQueryKey
    let declaredSegments := normalizeComparableSegments declaredQueryKey
    if actionSegments.length = 0 ∨ declaredSegments.length = 0 then
      false
    else if actionQueryKey.matchMode = MatchMode.exact then
      actionSegments.length = declaredSegments.length ∧
        hasPrefixSegments actionSegments declaredSegments
    else
      hasPrefixSegments actionSegments declaredSegments

/-- `isSetAnchoredConcreteKey` (graphBuilder.ts): a 'sets' key is concrete
when it is not a wildcard and not one of the sentinel ids. -/
def isSetAnchoredConcreteKey (queryKey : NormalizedQueryKey) : Bool :=
  if queryKey.source = KeySource.wildcard then
    false
  else if queryKey.id = "pass-through-query-key" ∨
      queryKey.id = "all-query-cache" ∨
      queryKey.id = "unresolved_query_key" then
    false
  else
    true

/-- Render a `Relation` the way JS template interpolation renders the
string union value (used inside edge ids). -/
def relationString : Relation → String
  | Relation.declares => "declares"
  | Relation.invalidates => "invalidates"
  | Relation.refetches => "refetches"
  | Relation.cancels => "cancels"
  | Relation.resets => "resets"
  | Relation.clears => "clears"
  | Relation.removes => "removes"
  | Relation.sets => "sets"

/-- The filesystem/path-dependent context of `buildGraph` (see the header
comment): `normalizeOf` stands for `normalizeFilePath`, `displayOf` for
`toDisplayPath(roots, ·)`, `scopeOf` for
`projectScopeForFile(roots, ·, caches)`; each is a pure function of the
file path within one run. -/
structure GraphEnv where
  normalizeOf : String → String
  displayOf : String → String
  scopeOf : String → String

/-- One entry of `pendingActionToQueryLinks` (graphBuilder.ts). -/
structure Pending where
  actionNodeId : String
  operation : String
  relation : Relation
  resolution : Resolution
  file : String
  projectScope : String
  queryKey : NormalizedQueryKey
  wildcard : Bool
  queryKeyNodeId : Option String
deriving DecidableEq, Repr

/-- The mutable maps populated by the first pass of `buildGraph`. -/
structure Pass1State where
  nodeMap : List (String × GraphNode) := []
  edgeMap : List (String × GraphEdge) := []
  fileToProjectScope : List (String × String) := []
  queryKeyToProjects : List (String × List String) := []
  queryKeyToProjectCounts : List (String × List (String × Nat)) := []
  declaredQueryNodeIds : List String := []
  declaredQueryKeyByNodeId : List (String × NormalizedQueryKey) := []
  declaredQueryProjectsByNodeId : List (String × List String) := []
  pending : List Pending := []
deriving Repr

/-- The pending link pushed for one record by pass 1 (graphBuilder.ts
lines 420-430); a pure function of the record, its index and the path
environment. -/
def pendingOf (env : GraphEnv) (record : QueryRecord) (index : Nat) : Pending :=
  let absoluteFile := env.normalizeOf record.file
  let wildcardQuery := isWildcardQueryKey record
  { actionNodeId := makeActionNodeId record index,
    operation := record.operation,
    relation := record.relation,
    resolution := record.resolution,
    file := absoluteFile,
    projectScope := env.scopeOf absoluteFile,
    queryKey := record.queryKey,
    wildcard := wildcardQuery,
    queryKeyNodeId := if wildcardQuery then none else some (makeQueryKeyNodeId record.queryKey.id) }

/-- The body of the `analysis.records.forEach((record, index) => ...)` loop
of `buildGraph` (graphBuilder.ts lines 331-431). -/
def pass1Step (env : GraphEnv) (st : Pass1State) (record : QueryRecord)
    (index : Nat) : Pass1State :=
  let absoluteFile := env.normalizeOf record.file
  let displayFile := env.displayOf absoluteFile
  let projectScope := env.scopeOf absoluteFile
  let st := { st with fileToProjectScope := mapSet st.fileToProjectScope absoluteFile projectScope }
  let fileNodeId := makeFileNodeId absoluteFile
  let actionNodeId := makeActionNodeId record index
  let queryKeyNodeId := makeQueryKeyNodeId record.queryKey.id
  let wildcardQuery := isWildcardQueryKey record
  let fileNode : GraphNode :=
    { id := fileNodeId, kind := NodeKind.file, label := displayFile,
      file := some absoluteFile, resolution := Resolution.static }
  let st := if mapHas st.nodeMap fileNodeId then st else
    { st with nodeMap := mapSet st.nodeMap fileNodeId fileNode }
  let actionNode : GraphNode :=
    { id := actionNodeId, kind := NodeKind.action, label := record.operation,
      file := some absoluteFile, loc := some record.loc,
      resolution := record.resolution,
      metrics := { relation := some record.relation,
                   displayFile := some displayFile,
                   projectScope := some projectScope,
                   declaresDirectly := some (if record.declaresDirectly = some true then 1 else 0) } }
  let st := if mapHas st.nodeMap actionNodeId then st else
    { st with nodeMap := mapSet st.nodeMap actionNodeId actionNode }
  let queryKeyNode : GraphNode :=
    { id := queryKeyNodeId, kind := NodeKind.queryKey,
      label := record.queryKey.display,
      resolution := record.queryKey.resolution,
      metrics := { matchMode := some record.queryKey.matchMode,
                   rootSegment := some (record.queryKey.segments.headD "unknown") } }
  let st := if ¬ wildcardQuery ∧ ¬ mapHas st.nodeMap queryKeyNodeId then
    { st with nodeMap := mapSet st.nodeMap queryKeyNodeId queryKeyNode }
    else st
  let st :=
    if ¬ wildcardQuery then
      let projects := (mapGet st.queryKeyToProjects queryKeyNodeId).getD []
      let st := { st with queryKeyToProjects := mapSet st.queryKeyToProjects queryKeyNodeId (setAdd projects projectScope) }
      let counts := (mapGet st.queryKeyToProjectCounts queryKeyNodeId).getD []
      let st := { st with queryKeyToProjectCounts := mapSet st.queryKeyToProjectCounts queryKeyNodeId (mapSet counts projectScope (((mapGet counts projectScope).getD 0) + 1)) }
      if isDeclarationAnchorRecord record.relation then
        let st := { st with declaredQueryNodeIds := setAdd st.declaredQueryNodeIds queryKeyNodeId }
        let st := if mapHas st.declaredQueryKeyByNodeId queryKeyNodeId then st else
          { st with declaredQueryKeyByNodeId := mapSet st.declaredQueryKeyByNodeId queryKeyNodeId record.queryKey }
        let projects2 := (mapGet st.declaredQueryProjectsByNodeId queryKeyNodeId).getD []
        { st with declaredQueryProjectsByNodeId := mapSet st.declaredQueryProjectsByNodeId queryKeyNodeId (setAdd projects2 projectScope) }
      else st
    else st
  let edgeA := fileNodeId ++ "->" ++ actionNodeId ++ ":" ++ relationString record.relation
  let edgeANode : GraphEdge :=
    { id := edgeA, source := fileNodeId, target := actionNodeId,
      relation := record.relation, resolution := record.resolution }
  let st := if mapHas st.edgeMap edgeA then st else
    { st with edgeMap := mapSet st.edgeMap edgeA edgeANode }
  { st with pending := st.pending ++ [pendingOf env record index] }

/-- Pass 1 of `buildGraph`: fold `pass1Step` over the records with their
indices. -/
def runPass1 (env : GraphEnv) (records : List QueryRecord) : Pass1State :=
  records.enum.foldl (fun st p => pass1Step env st p.2 p.1) {}

/-- The target-selection block of pass 2 (graphBuilder.ts lines 436-461):
declarations target their own key node; wildcard records target every
declared key node whose declaring project-scope set contains the record's
scope; concrete mutations target the scope-matching declared keys that
`actionAffectsDeclaredQueryKey` accepts, falling back to the mutation's
own key node when nothing matched. -/
def pendingTargets (st : Pass1State) (p : Pending) : List String :=
  if p.relation = Relation.declares then
    match p.queryKeyNodeId with
    | some id => [id]
    | none => []
  else if p.wildcard then
    st.declaredQueryNodeIds.filter (fun queryKeyNodeId =>
      p.projectScope ∈ (mapGet st.declaredQueryProjectsByNodeId queryKeyNodeId).getD [])
  else
    match p.queryKeyNodeId with
    | some own =>
      let matchedTargets := st.declaredQueryNodeIds.filter (fun queryKeyNodeId =>
        match mapGet st.declaredQueryKeyByNodeId queryKeyNodeId with
        | none => false
        | some declaredQueryKey =>
          if p.projectScope ∈
              (mapGet st.declaredQueryProjectsByNodeId queryKeyNodeId).getD [] then
            actionAffectsDeclaredQueryKey p.queryKey declaredQueryKey
          else false)
      if matchedTargets.length > 0 then matchedTargets else [own]
    | none => []

/-- The per-target maps populated by pass 2 of `buildGraph`. -/
structure Pass2State where
  edgeMap : List (String × GraphEdge)
  fileToKeys : List (String × List String) := []
  queryKeyToFiles : List (String × List String) := []
  queryKeyToDeclareFiles : List (String × List String) := []
  queryKeyToDeclareCallsites : List (String × Nat) := []
  setAnchoredQueryNodeIds : List String := []
deriving Repr

/-- The body of the `for (const target of targets)` loop of pass 2
(graphBuilder.ts lines 462-495). -/
def pass2TargetStep (p : Pending) (st : Pass2State) (target : String) :
    Pass2State :=
  let st := if p.relation = Relation.sets ∧ strStartsWith target ("qk:") ∧
      isSetAnchoredConcreteKey p.queryKey then
    { st with setAnchoredQueryNodeIds := setAdd st.setAnchoredQueryNodeIds target }
    else st
  let edgeB := p.actionNodeId ++ "->" ++ target ++ ":" ++ relationString p.relation
  let edgeBNode : GraphEdge :=
    { id := edgeB, source := p.actionNodeId, target := target,
      relation := p.relation, resolution := p.resolution }
  let st := if mapHas st.edgeMap edgeB then st else
    { st with edgeMap := mapSet st.edgeMap edgeB edgeBNode }
  let st := { st with fileToKeys := mapSet st.fileToKeys p.file (setAdd ((mapGet st.fileToKeys p.file).getD []) target) }
  let st := { st with queryKeyToFiles := mapSet st.queryKeyToFiles target (setAdd ((mapGet st.queryKeyToFiles target).getD []) p.file) }
  if isDeclarationAnchorRecord p.relation then
    let st := { st with queryKeyToDeclareFiles := mapSet st.queryKeyToDeclareFiles target (setAdd ((mapGet st.queryKeyToDeclareFiles target).getD []) p.file) }
    { st with queryKeyToDeclareCallsites := mapSet st.queryKeyToDeclareCallsites target (((mapGet st.queryKeyToDeclareCallsites target).getD 0) + 1) }
  else st

/-- Pass 2 of `buildGraph`: fold the target loop over every pending
action-to-key link. -/
def runPass2 (st1 : Pass1State) : Pass2State :=
  st1.pending.foldl
    (fun st p => (pendingTargets st1 p).foldl (pass2TargetStep p) st)
    { edgeMap := st1.edgeMap }

/-- Code-point lexicographic comparison on character lists (the model of
default-locale `localeCompare`; kernel-reducible, unlike `String.ltb`). -/
def charListLeB : List Char → List Char → Bool
  | [], _ => true
  | _ :: _, [] => false
  | a :: as, b :: bs =>
    if a.toNat < b.toNat then true
    else if b.toNat < a.toNat then false
    else charListLeB as bs

/-- `a.localeCompare(b) <= 0`, modelled as code-point order. -/
def strLeB (a b : String) : Bool := charListLeB a.data b.data

/-- Ordering used by `[...projectCounts.entries()].sort((a, b) =>
b[1] - a[1] || a[0].localeCompare(b[0]))`: higher count first, ties by
ascending scope name. -/
def projCountLE (a b : String × Nat) : Prop :=
  b.2 < a.2 ∨ (a.2 = b.2 ∧ strLeB a.1 b.1 = true)

instance : DecidableRel projCountLE := fun a b =>
  inferInstanceAs (Decidable (b.2 < a.2 ∨ (a.2 = b.2 ∧ strLeB a.1 b.1 = true)))

/-- First element of the sorted project-count list (the "primary" project
of a query-key node). -/
def primaryProjectScope (counts : List (String × Nat)) : Option String :=
  ((List.insertionSort projCountLE counts).head?).map Prod.fst

/-- String ≤ as a sort relation (models ascending `localeCompare`). -/
def strLE (a b : String) : Prop := strLeB a b = true

instance : DecidableRel strLE := fun a b =>
  inferInstanceAs (Decidable (strLeB a b = true))

/-- Fallback project scope of a query-key node: the lexicographically
first member of its project set (graphBuilder.ts lines 519-524). -/
def queryKeyFallbackScope (st1 : Pass1State) (nodeId : String) : Option String :=
  match mapGet st1.queryKeyToProjects nodeId with
  | some projects =>
    if projects.length > 0 then (List.insertionSort strLE projects).head? else none
  | none => none

/-- The first metrics pass of `buildGraph` (lines 498-534): attach
aggregate counts and project scopes to file and query-key nodes. -/
def updateNodeMetricsA (st1 : Pass1State) (st2 : Pass2State)
    (node : GraphNode) : GraphNode :=
  if node.kind = NodeKind.file then
    let key := node.file.getD node.label
    let count := ((mapGet st2.fileToKeys key).getD []).length
    let projectScope := (mapGet st1.fileToProjectScope key).getD ("workspace:*")
    { node with metrics := { node.metrics with
        affectedKeys := some count, projectScope := some projectScope } }
  else if node.kind = NodeKind.queryKey then
    let count := ((mapGet st2.queryKeyToFiles node.id).getD []).length
    let declareFiles := ((mapGet st2.queryKeyToDeclareFiles node.id).getD []).length
    let declareCallsites := (mapGet st2.queryKeyToDeclareCallsites node.id).getD 0
    let projectScope : Option String :=
      match mapGet st1.queryKeyToProjectCounts node.id with
      | some counts =>
        if counts.length > 0 then primaryProjectScope counts
        else queryKeyFallbackScope st1 node.id
      | none => queryKeyFallbackScope st1 node.id
    { node with metrics := { node.metrics with
        affectedFiles := some count,
        declaredFiles := some declareFiles,
        declaredCallsites := some declareCallsites,
        projectScope := some (projectScope.getD ("workspace:*")) } }
  else node

/-- The first metrics pass applied to every pass-1 node (graphBuilder.ts
lines 498-534 followed by line 536). -/
def allNodesOf (st1 : Pass1State) (st2 : Pass2State) : List GraphNode :=
  st1.nodeMap.map (fun p => updateNodeMetricsA st1 st2 p.2)

/-- `definedQueryKeyNodeIds` (graphBuilder.ts lines 537-547): query-key
nodes with a positive declared-callsite count or a concrete `sets`
anchor. -/
def definedQueryKeyNodeIdsOf (st1 : Pass1State) (st2 : Pass2State) : List String :=
  (((allNodesOf st1 st2).filter (fun node => node.kind = NodeKind.queryKey)).filter
    (fun node =>
      if (node.metrics.declaredCallsites.getD 0) > 0 then true
      else setHas st2.setAnchoredQueryNodeIds node.id)).map (fun node => node.id)

/-- The pruned node list (graphBuilder.ts line 549). -/
def prunedNodesOf (st1 : Pass1State) (st2 : Pass2State) : List GraphNode :=
  (allNodesOf st1 st2).filter (fun node =>
    node.kind ≠ NodeKind.queryKey ∨ node.id ∈ definedQueryKeyNodeIdsOf st1 st2)

/-- The surviving edge list (graphBuilder.ts lines 550-553): both endpoints
must be surviving nodes. -/
def keptEdgesOf (st1 : Pass1State) (st2 : Pass2State) : List GraphEdge :=
  (st2.edgeMap.map Prod.snd).filter (fun edge =>
    edge.source ∈ (prunedNodesOf st1 st2).map (fun node => node.id) ∧
    edge.target ∈ (prunedNodesOf st1 st2).map (fun node => node.id))

/-- The action-to-file / action-to-query adjacency maps recomputed from the
surviving edges (graphBuilder.ts lines 555-577). -/
def actionMapsOf (st1 : Pass1State) (st2 : Pass2State) :
    List (String × List String) × List (String × List String) :=
  let nodes := prunedNodesOf st1 st2
  let nodeById := fun id => nodes.find? (fun node => node.id = id)
  (keptEdgesOf st1 st2).foldl
    (fun (acc : List (String × List String) × List (String × List String)) edge =>
      match nodeById edge.source, nodeById edge.target with
      | some sourceNode, some targetNode =>
        if sourceNode.kind = NodeKind.file ∧ targetNode.kind = NodeKind.action then
          (mapSet acc.1 targetNode.id (setAdd ((mapGet acc.1 targetNode.id).getD []) sourceNode.id), acc.2)
        else if sourceNode.kind = NodeKind.action ∧ targetNode.kind = NodeKind.queryKey then
          (acc.1, mapSet acc.2 sourceNode.id (setAdd ((mapGet acc.2 sourceNode.id).getD []) targetNode.id))
        else acc
      | _, _ => acc)
    ([], [])

/-- The file-to-query / query-to-file link maps (graphBuilder.ts lines
579-597). -/
def linkMapsOf (st1 : Pass1State) (st2 : Pass2State) :
    List (String × List String) × List (String × List String) :=
  let actionToFileNodeIds := (actionMapsOf st1 st2).1
  let actionToQueryNodeIds := (actionMapsOf st1 st2).2
  actionToQueryNodeIds.foldl
    (fun (acc : List (String × List String) × List (String × List String)) entry =>
      let fileNodeIds := (mapGet actionToFileNodeIds entry.1).getD []
      if fileNodeIds.length = 0 then acc
      else fileNodeIds.foldl
        (fun (acc : List (String × List String) × List (String × List String)) fileNodeId =>
          let step := entry.2.foldl
            (fun (pr : List String × List (String × List String)) queryNodeId =>
              (setAdd pr.1 queryNodeId,
               mapSet pr.2 queryNodeId (setAdd ((mapGet pr.2 queryNodeId).getD []) fileNodeId)))
            ((mapGet acc.1 fileNodeId).getD [], acc.2)
          (mapSet acc.1 fileNodeId step.1, step.2))
        acc)
    ([], [])

/-- The second metrics rewrite of the surviving nodes (graphBuilder.ts
lines 599-614): recompute `affectedKeys` / `affectedFiles` from the
surviving edge set.  Node ids and kinds are untouched. -/
def finalNodesOf (st1 : Pass1State) (st2 : Pass2State) : List GraphNode :=
  (prunedNodesOf st1 st2).map (fun node =>
    if node.kind = NodeKind.file then
      { node with metrics := { node.metrics with affectedKeys := some (((mapGet (linkMapsOf st1 st2).1 node.id).getD []).length) } }
    else if node.kind = NodeKind.queryKey then
      { node with metrics := { node.metrics with affectedFiles := some (((mapGet (linkMapsOf st1 st2).2 node.id).getD []).length) } }
    else node)

/-- `buildGraph` (graphBuilder.ts lines 300-629), assembled from the two
passes, the metric passes, dead-node pruning, edge filtering and the
summary.  The `roots`-derived path helpers live in `env`. -/
def buildGraph (env : GraphEnv) (records : List QueryRecord)
    (parseErrors : List ParseError) : GraphData :=
  let st1 := runPass1 env records
  let st2 := runPass2 st1
  let nodes := finalNodesOf st1 st2
  let edges := keptEdgesOf st1 st2
  let mappedErrors := parseErrors.map (fun error =>
    { file := env.displayOf error.file, message := error.message })
  { nodes := nodes,
    edges := edges,
    summary :=
      { files := (nodes.filter (fun node => node.kind = NodeKind.file)).length,
        actions := (nodes.filter (fun node => node.kind = NodeKind.action)).length,
        queryKeys := (nodes.filter (fun node => node.kind = NodeKind.queryKey)).length,
        parseErrors := mappedErrors.length },
    parseErrors := mappedErrors }

/-! ### The expression AST (a closed model of the babel node shapes the
analyzer inspects).

Babel node kinds not covered by any claim (BigInt literals, private names,
update/assignment/sequence/parenthesized expressions, labeled / loop /
switch / try statements, V8 intrinsics) are omitted; every branch of every
ported function below corresponds to a branch of the source over the
retained shapes, and the source's fall-through defaults are kept. -/

mutual

inductive Expr where
  | ident (name : String)
  | strLit (value : String)
  | numLit (value : Int)
  | boolLit (value : Bool)
  | nullLit
  | templateLit (quasis : List String) (exprs : List Expr)
  | arrayLit (elements : List ArrayElem)
  | objectLit (properties : List ObjProp)
  | member (obj : Expr) (property : Expr) (computed : Bool)
  | optMember (obj : Expr) (property : Expr) (computed : Bool)
  | call (callee : Expr) (args : List ArrayElem)
  | optCall (callee : Expr) (args : List ArrayElem)
  | arrowFn (body : FnBody)
  | funcExpr (body : List Stmt)
  | unary (op : String) (argument : Expr)
  | binary (op : String) (left right : Expr)
  | logical (op : String) (left right : Expr)
  | condExpr (test consequent alternate : Expr)
  | tsAs (expression : Expr)
  | tsSatisfies (expression : Expr)
  | typeCast (expression : Expr)
  | tsNonNull (expression : Expr)
deriving Repr

inductive ArrayElem where
  | hole
  | elem (e : Expr)
  | spread (e : Expr)
deriving Repr

inductive ObjProp where
  | prop (key : Expr) (computed : Bool) (value : Expr)
  | spread (e : Expr)
  | method
deriving Repr

inductive FnBody where
  | expr (e : Expr)
  | block (stmts : List Stmt)
deriving Repr

inductive Stmt where
  | ret (argument : Option Expr)
  | block (body : List Stmt)
  | ifStmt (consequent : Stmt) (alternate : Option Stmt)
  | varDecl (declarations : List (String × Option Expr))
  | exprStmt
deriving Repr

end

/- No decidable equality is needed on `Expr`: the single JS reference
identity check on expressions (`hintedByObjectArg !== resolvedCall` in
`applyCallArgumentHints`) is modelled by an explicit changed flag below. -/

/-- `unwrapExpression` (symbols.ts): strip TS `as` / `satisfies` / type-cast
/ non-null wrappers. -/
def unwrapExpression : Expr → Expr
  | Expr.tsAs e => unwrapExpression e
  | Expr.tsSatisfies e => unwrapExpression e
  | Expr.typeCast e => unwrapExpression e
  | Expr.tsNonNull e => unwrapExpression e
  | e => e

mutual

/-- `firstReturnExpressionFromStatement` (symbols.ts), over the retained
statement shapes. -/
def firstReturnExpressionFromStatement : Stmt → Option Expr
  | Stmt.ret argument =>
    match argument with
    | some e => some (unwrapExpression e)
    | none => none
  | Stmt.block body => topLevelReturnExpression body
  | Stmt.ifStmt consequent alternate =>
    match firstReturnExpressionFromStatement consequent with
    | some e => some e
    | none =>
      match alternate with
      | some s => firstReturnExpressionFromStatement s
      | none => none
  | Stmt.varDecl _ => none
  | Stmt.exprStmt => none

/-- `topLevelReturnExpression` (symbols.ts): first statement whose walk
yields a return expression. -/
def topLevelReturnExpression : List Stmt → Option Expr
  | [] => none
  | statement :: rest =>
    match firstReturnExpressionFromStatement statement with
    | some e => some e
    | none => topLevelReturnExpression rest

end

/-- Total number of variable declarators in a statement list (used to
bound the `resolveReturnedIdentifierFromStatements` alias walk). -/
def countDeclarators (statements : List Stmt) : Nat :=
  statements.foldl
    (fun acc s => match s with | Stmt.varDecl ds => acc + ds.length | _ => acc) 0

/-- The reverse declarator scan of `resolveReturnedIdentifierFromStatements`:
last declarator (searching backwards) binding `identifierName`. -/
def findDeclaratorInit (identifierName : String) (statements : List Stmt) :
    Option (Option Expr) :=
  (statements.reverse.foldl
    (fun acc s =>
      match acc with
      | some r => some r
      | none =>
        match s with
        | Stmt.varDecl ds =>
          (ds.reverse.find? (fun d => d.1 = identifierName)).map Prod.snd
        | _ => none)
    none)

/-- `resolveReturnedIdentifierFromStatements` (symbols.ts): follow
`return x` through local `const x = ...` aliases, with a seen set guarding
cycles.  The fuel equals the declarator count plus one, which the seen set
makes exact: each recursion consumes a fresh declared name. -/
def resolveReturnedIdentifierFromStatements
    (identifierName : String) (statements : List Stmt) (seen : List String) :
    Nat → Option Expr
  | 0 => none
  | fuel + 1 =>
    if identifierName ∈ seen then none
    else
      let seen := identifierName :: seen
      match findDeclaratorInit identifierName statements with
      | none => none
      | some none => none
      | some (some init) =>
        let init := unwrapExpression init
        match init with
        | Expr.ident name =>
          if name ≠ identifierName then
            match resolveReturnedIdentifierFromStatements name statements seen fuel with
            | some e => some e
            | none => some init
          else some init
        | _ => some init

/-- `extractFunctionReturnExpression` (symbols.ts). -/
def extractFunctionReturnExpression : Expr → Option Expr
  | Expr.arrowFn (FnBody.expr e) => some (unwrapExpression e)
  | Expr.arrowFn (FnBody.block body) =>
    (match topLevelReturnExpression body with
     | none => none
     | some returned =>
       match returned with
       | Expr.ident name =>
         match resolveReturnedIdentifierFromStatements name body []
             (countDeclarators body + 1) with
         | some e => some e
         | none => some returned
       | _ => some returned)
  | Expr.funcExpr body =>
    (match topLevelReturnExpression body with
     | none => none
     | some returned =>
       match returned with
       | Expr.ident name =>
         match resolveReturnedIdentifierFromStatements name body []
             (countDeclarators body + 1) with
         | some e => some e
         | none => some returned
       | _ => some returned)
  | _ => none

/-! ### Cache-key normalizer (the unnamed queryKeys module, part_014). -/

/-- `SegmentResult` (analyzer types). -/
structure SegmentResult where
  text : String
  isStatic : Bool
deriving DecidableEq, Repr

/-- The resolver interface handed to the normalizer (`QueryKeyResolver`). -/
structure QueryKeyResolver where
  resolveReference : Expr → Option Expr
  resolveCallResult : Expr → Option Expr

/-- `MAX_RESOLVE_DEPTH` (queryKeys module). -/
def MAX_RESOLVE_DEPTH : Nat := 25

/-- `ALL_QUERY_CACHE_ID`. -/
def ALL_QUERY_CACHE_ID : String := "all-query-cache"

/-- `ALL_QUERY_CACHE_SEGMENT`. -/
def ALL_QUERY_CACHE_SEGMENT : String := "ALL_QUERY_CACHE"

/-- `UNRESOLVED_SEGMENT`. -/
def UNRESOLVED_SEGMENT : String := "UNRESOLVED"

/-- `UNRESOLVED_QUERY_KEY`. -/
def UNRESOLVED_QUERY_KEY : String := "UNRESOLVED_QUERY_KEY"

/-- `buildAllQueryCacheKey` (queryKeys module). -/
def buildAllQueryCacheKey (resolution : Resolution)
    (display : String := ALL_QUERY_CACHE_SEGMENT) : NormalizedQueryKey :=
  { id := ALL_QUERY_CACHE_ID,
    display := display,
    segments := [ALL_QUERY_CACHE_SEGMENT],
    matchMode := MatchMode.all,
    resolution := resolution,
    source := KeySource.wildcard }

/-- `isObjectFreezeCall`. -/
def isObjectFreezeCall : Expr → Bool
  | Expr.member (Expr.ident o) (Expr.ident p) false => o = "Object" ∧ p = "freeze"
  | _ => false

/-- `isQueryOptionsLikeCall` (`queryOptions` / `infiniteQueryOptions`). -/
def isQueryOptionsLikeCall : Expr → Bool
  | Expr.ident n => n = "queryOptions" ∨ n = "infiniteQueryOptions"
  | Expr.member _ (Expr.ident p) false => p = "queryOptions" ∨ p = "infiniteQueryOptions"
  | _ => false

/-- `isIdentityWrapperCall` (queryKeys module). -/
def isIdentityWrapperCall (callee : Expr) : Bool :=
  isQueryOptionsLikeCall callee ∨ isObjectFreezeCall callee

/-- `firstExpressionArgument` (queryKeys module): first argument when it is
an expression (spreads and holes are not), unwrapped. -/
def firstExpressionArgument (args : List ArrayElem) : Option Expr :=
  match args.head? with
  | some (ArrayElem.elem e) => some (unwrapExpression e)
  | _ => none

/-- `callCalleeName`. -/
def callCalleeName : Expr → Option String
  | Expr.ident n => some n
  | Expr.member _ (Expr.ident p) false => some p
  | _ => none

/-- `isMemoLikeCall`, applied to the call's callee. -/
def isMemoLikeCallee (callee : Expr) : Bool :=
  callCalleeName callee = some "useMemo" ∨ callCalleeName callee = some "useCallback"

/-- `memoLikeCallReturnExpression`, over the call's callee and arguments. -/
def memoLikeCallReturnExpression (callee : Expr) (args : List ArrayElem) :
    Option Expr :=
  if ¬ isMemoLikeCallee callee then none
  else
    match firstExpressionArgument args with
    | none => none
    | some firstArg =>
      match firstArg with
      | Expr.arrowFn _ => extractFunctionReturnExpression firstArg
      | Expr.funcExpr _ => extractFunctionReturnExpression firstArg
      | _ => some firstArg

/-- `objectEntryText`. -/
def objectEntryText (key value : String) : String :=
  key ++ ": " ++ value

/-- `isUndefinedObjectValue`. -/
def isUndefinedObjectValue (segment : SegmentResult) : Bool :=
  segment.isStatic ∧ segment.text = "undefined"

/-- `isEmptyFallbackExpression` (queryKeys module). -/
def isEmptyFallbackExpression (node : Expr) : Bool :=
  match unwrapExpression node with
  | Expr.strLit v => v = ""
  | Expr.templateLit quasis exprs =>
    exprs.length = 0 ∧ quasis.length = 1 ∧ (quasis.headD "") = ""
  | Expr.objectLit properties => properties.length = 0
  | Expr.arrayLit elements => elements.length = 0
  | Expr.nullLit => true
  | Expr.ident n => n = "undefined"
  | _ => false

/-- `normalizedUnknownKey`. -/
def normalizedUnknownKey (defaultMode : MatchMode) : NormalizedQueryKey :=
  { id := "unresolved_query_key",
    display := UNRESOLVED_QUERY_KEY,
    segments := [UNRESOLVED_SEGMENT],
    matchMode := defaultMode,
    resolution := Resolution.dynamic,
    source := KeySource.expression }

/-- Case-insensitive test for /^\$querykey(s)?$/i. -/
def isDollarQueryKeyName (s : String) : Bool :=
  strToLower s = "$querykey" ∨ strToLower s = "$querykeys"

/-- Case-insensitive test for /^querykeys?$/i. -/
def isQueryKeysName (s : String) : Bool :=
  strToLower s = "querykey" ∨ strToLower s = "querykeys"

/-- Case-insensitive test for /^query.?keys?$/i ("query", at most one
arbitrary character, "key", optional "s"). -/
def isQueryKeyFactoryName (s : String) : Bool :=
  let l := strToLower s
  l = "querykey" ∨ l = "querykeys" ∨
    (strStartsWith l ("query") ∧ (l.drop 6 = "key" ∨ l.drop 6 = "keys"))

/-- `normalizeSegmentResult` (queryKeys module). -/
def normalizeSegmentResult (segment : SegmentResult) : SegmentResult :=
  let text := if segment.text = "" then UNRESOLVED_SEGMENT else segment.text
  if text = "...spread" ∨ text = "expr" ∨ text = "call(expr)" then
    { text := UNRESOLVED_SEGMENT, isStatic := false }
  else if isDollarQueryKeyName text then
    { text := UNRESOLVED_SEGMENT, isStatic := false }
  else
    { text := text, isStatic := segment.isStatic }

/-- `shouldTreatAsWildcardActionKey`. -/
def shouldTreatAsWildcardActionKey (key : NormalizedQueryKey) : Bool :=
  if key.id = "empty" ∧ key.segments.length = 0 then true
  else if key.id = "unresolved_query_key" then true
  else key.segments.length = 1 ∧ key.segments.headD "" = UNRESOLVED_SEGMENT

/-- `isPassThroughQueryKeyReference`. -/
def isPassThroughQueryKeyReference (node : Option Expr) : Bool :=
  match node with
  | none => false
  | some node =>
    match unwrapExpression node with
    | Expr.ident n => isQueryKeysName n
    | Expr.member _ (Expr.ident p) false => isQueryKeysName p
    | _ => false

/-- `buildPassThroughActionKey`. -/
def buildPassThroughActionKey (mode : MatchMode) : NormalizedQueryKey :=
  { id := "pass-through-query-key",
    display := "$queryKey",
    segments := ["$queryKey"],
    matchMode := mode,
    resolution := Resolution.dynamic,
    source := KeySource.expression }

/-- `findObjectPropertyValue` (queryKeys module): first object property
whose key is the identifier or string literal `propName` (the source does
not test the computed flag here), with its value unwrapped. -/
def findObjectPropertyValue (properties : List ObjProp) (propName : String) :
    Option Expr :=
  match properties.find? (fun p =>
    match p with
    | ObjProp.prop (Expr.ident n) _ _ => n = propName
    | ObjProp.prop (Expr.strLit v) _ _ => v = propName
    | _ => false) with
  | some (ObjProp.prop _ _ value) => some (unwrapExpression value)
  | _ => none

/-- `readBooleanProperty` (queryKeys module): the property's value, only
when it is a boolean literal. -/
def readBooleanProperty (properties : List ObjProp) (propName : String) :
    Option Bool :=
  match properties.find? (fun p =>
    match p with
    | ObjProp.prop (Expr.ident n) _ _ => n = propName
    | ObjProp.prop (Expr.strLit v) _ _ => v = propName
    | _ => false) with
  | some (ObjProp.prop _ _ (Expr.boolLit b)) => some b
  | _ => none

/-- The result shape of `inferPropertyName`. -/
structure PropNameResult where
  value : String
  isStatic : Bool
deriving DecidableEq, Repr

/-- `COLLECTION_TRANSFORM_METHODS`. -/
def COLLECTION_TRANSFORM_METHODS : List String :=
  ["join", "sort", "slice", "map", "filter", "flat", "flatMap", "concat",
   "reverse", "toSorted"]

/-- `simplifyCollectionMethodCallSegment`: surface the receiver expression
of a value-transform chain instead of call(...) text. -/
def simplifyCollectionMethodCallSegment (objectSegment : SegmentResult)
    (propertySegment : Option PropNameResult) : Option SegmentResult :=
  match propertySegment with
  | none => none
  | some propertySegment =>
    if ¬ (propertySegment.value ∈ COLLECTION_TRANSFORM_METHODS) then none
    else some objectSegment

/-- JS `Number.parseInt(s, 10)`: skip leading whitespace, optional sign,
then the longest digit run; NaN (`none`) when no digit follows. -/
def jsParseIntOpt (s : String) : Option Int :=
  let cs := s.toList.dropWhile (fun c => c.isWhitespace)
  let signAndRest : Int × List Char :=
    match cs with
    | '-' :: rest => (-1, rest)
    | '+' :: rest => (1, rest)
    | _ => (1, cs)
  let digits := signAndRest.2.takeWhile (fun c => c.isDigit)
  if digits.isEmpty then none
  else some (signAndRest.1 * (digits.foldl (fun acc c => acc * 10 + (c.toNat - 48)) 0 : Nat))

mutual

/-- `substituteIdentifierInExpression` (queryKeys module): replace every
occurrence of the identifier by the replacement expression.  Object keys
are never substituted (matching the source), and node kinds the source
clones verbatim (optional members/calls, functions, casts, literals)
are returned unchanged. -/
def substExpr (identifierName : String) (replacement : Expr) : Expr → Expr
  | Expr.ident n => if n = identifierName then replacement else Expr.ident n
  | Expr.arrayLit elements =>
    Expr.arrayLit (substElems identifierName replacement elements)
  | Expr.objectLit properties =>
    Expr.objectLit (substProps identifierName replacement properties)
  | Expr.member o p c =>
    Expr.member (substExpr identifierName replacement o)
      (if c then substExpr identifierName replacement p else p) c
  | Expr.call callee args =>
    Expr.call (substExpr identifierName replacement callee)
      (substElems identifierName replacement args)
  | Expr.templateLit quasis exprs =>
    Expr.templateLit quasis (substList identifierName replacement exprs)
  | Expr.unary op a => Expr.unary op (substExpr identifierName replacement a)
  | Expr.binary op l r =>
    Expr.binary op (substExpr identifierName replacement l)
      (substExpr identifierName replacement r)
  | Expr.logical op l r =>
    Expr.logical op (substExpr identifierName replacement l)
      (substExpr identifierName replacement r)
  | Expr.condExpr t c a =>
    Expr.condExpr (substExpr identifierName replacement t)
      (substExpr identifierName replacement c) (substExpr identifierName replacement a)
  | e => e

def substElems (identifierName : String) (replacement : Expr) :
    List ArrayElem → List ArrayElem
  | [] => []
  | ArrayElem.hole :: rest => ArrayElem.hole :: substElems identifierName replacement rest
  | ArrayElem.elem e :: rest =>
    ArrayElem.elem (substExpr identifierName replacement e) ::
      substElems identifierName replacement rest
  | ArrayElem.spread e :: rest =>
    ArrayElem.spread (substExpr identifierName replacement e) ::
      substElems identifierName replacement rest

def substProps (identifierName : String) (replacement : Expr) :
    List ObjProp → List ObjProp
  | [] => []
  | ObjProp.prop key computed value :: rest =>
    ObjProp.prop key computed (substExpr identifierName replacement value) ::
      substProps identifierName replacement rest
  | ObjProp.spread e :: rest =>
    ObjProp.spread (substExpr identifierName replacement e) ::
      substProps identifierName replacement rest
  | ObjProp.method :: rest => ObjProp.method :: substProps identifierName replacement rest

def substList (identifierName : String) (replacement : Expr) :
    List Expr → List Expr
  | [] => []
  | e :: rest =>
    substExpr identifierName replacement e :: substList identifierName replacement rest

end

mutual

/-- `expressionContainsIdentifier` (queryKeys module): does the expression
contain a reference-position occurrence of the identifier?  Non-computed
object-property keys and non-computed member properties are not reference
positions (the source's generic visitor walks all remaining children with
the flag preserved). -/
def containsIdE (identifierName : String) (asReference : Bool) : Expr → Bool
  | Expr.ident n => asReference ∧ n = identifierName
  | Expr.templateLit _ exprs => containsIdList identifierName asReference exprs
  | Expr.arrayLit elements => containsIdElems identifierName asReference elements
  | Expr.objectLit properties => containsIdProps identifierName asReference properties
  | Expr.member o p c =>
    containsIdE identifierName asReference o ∨
      containsIdE identifierName (if c then asReference else false) p
  | Expr.optMember o p _ =>
    containsIdE identifierName asReference o ∨ containsIdE identifierName asReference p
  | Expr.call callee args =>
    containsIdE identifierName asReference callee ∨
      containsIdElems identifierName asReference args
  | Expr.optCall callee args =>
    containsIdE identifierName asReference callee ∨
      containsIdElems identifierName asReference args
  | Expr.arrowFn (FnBody.expr e) => containsIdE identifierName asReference e
  | Expr.arrowFn (FnBody.block stmts) => containsIdStmts identifierName asReference stmts
  | Expr.funcExpr stmts => containsIdStmts identifierName asReference stmts
  | Expr.unary _ a => containsIdE identifierName asReference a
  | Expr.binary _ l r =>
    containsIdE identifierName asReference l ∨ containsIdE identifierName asReference r
  | Expr.logical _ l r =>
    containsIdE identifierName asReference l ∨ containsIdE identifierName asReference r
  | Expr.condExpr t c a =>
    containsIdE identifierName asReference t ∨ containsIdE identifierName asReference c ∨
      containsIdE identifierName asReference a
  | Expr.tsAs e => containsIdE identifierName asReference e
  | Expr.tsSatisfies e => containsIdE identifierName asReference e
  | Expr.typeCast e => containsIdE identifierName asReference e
  | Expr.tsNonNull e => containsIdE identifierName asReference e
  | _ => false

def containsIdList (identifierName : String) (asReference : Bool) : List Expr → Bool
  | [] => false
  | e :: rest =>
    containsIdE identifierName asReference e ∨
      containsIdList identifierName asReference rest

def containsIdElems (identifierName : String) (asReference : Bool) :
    List ArrayElem → Bool
  | [] => false
  | ArrayElem.hole :: rest => containsIdElems identifierName asReference rest
  | ArrayElem.elem e :: rest =>
    containsIdE identifierName asReference e ∨
      containsIdElems identifierName asReference rest
  | ArrayElem.spread e :: rest =>
    containsIdE identifierName asReference e ∨
      containsIdElems identifierName asReference rest

def containsIdProps (identifierName : String) (asReference : Bool) :
    List ObjProp → Bool
  | [] => false
  | ObjProp.prop key computed value :: rest =>
    containsIdE identifierName (if computed then asReference else false) key ∨
      containsIdE identifierName asReference value ∨
      containsIdProps identifierName asReference rest
  | ObjProp.spread e :: rest =>
    containsIdE identifierName asReference e ∨
      containsIdProps identifierName asReference rest
  | ObjProp.method :: rest => containsIdProps identifierName asReference rest

def containsIdStmts (identifierName : String) (asReference : Bool) :
    List Stmt → Bool
  | [] => false
  | s :: rest =>
    containsIdStmt identifierName asReference s ∨
      containsIdStmts identifierName asReference rest

def containsIdStmt (identifierName : String) (asReference : Bool) : Stmt → Bool
  | Stmt.ret (some e) => containsIdE identifierName asReference e
  | Stmt.ret none => false
  | Stmt.block body => containsIdStmts identifierName asReference body
  | Stmt.ifStmt c (some a) =>
    containsIdStmt identifierName asReference c ∨
      containsIdStmt identifierName asReference a
  | Stmt.ifStmt c none => containsIdStmt identifierName asReference c
  | Stmt.varDecl ds => containsIdDecls identifierName asReference ds
  | Stmt.exprStmt => false

def containsIdDecls (identifierName : String) (asReference : Bool) :
    List (String × Option Expr) → Bool
  | [] => false
  | (_, some e) :: rest =>
    containsIdE identifierName asReference e ∨
      containsIdDecls identifierName asReference rest
  | (_, none) :: rest => containsIdDecls identifierName asReference rest

end

/-- `expressionContainsIdentifier` entry point (reference flag starts
true). -/
def expressionContainsIdentifier (node : Expr) (identifierName : String) : Bool :=
  containsIdE identifierName true node

/-- `resolveWithResolver` (queryKeys module).  Non-recursive given the
opaque resolver; `fuel = 0` is the source's `depth >= MAX_RESOLVE_DEPTH`
guard (callers pass their current fuel unchanged, as the source passes
`depth`). -/
def resolveWithResolver (node : Expr) (resolver : Option QueryKeyResolver)
    (fuel : Nat) : Option Expr :=
  match resolver with
  | none => none
  | some resolver =>
    if fuel = 0 then none
    else
      match node with
      | Expr.call callee args =>
        let firstArg := firstExpressionArgument args
        let viaArg : Option Expr :=
          match firstArg with
          | some firstArg =>
            if args.length = 1 then
              if isIdentityWrapperCall callee then some firstArg
              else
                match firstArg with
                | Expr.objectLit _ => some firstArg
                | Expr.arrayLit _ => some firstArg
                | _ => none
            else none
          | none => none
        (match viaArg with
         | some e => some e
         | none =>
           match resolver.resolveCallResult callee with
           | some callResult => some callResult
           | none => resolver.resolveReference callee)
      | Expr.ident n => resolver.resolveReference (Expr.ident n)
      | Expr.member o p c => resolver.resolveReference (Expr.member o p c)
      | _ => none

/-- `setPredicateQueryKeyConstraint` (queryKeys module). -/
def setPredicateQueryKeyConstraint (constraints : List (Nat × SegmentResult))
    (index : Nat) (segment : SegmentResult) : List (Nat × SegmentResult) :=
  let normalized := normalizeSegmentResult segment
  if normalized.text = UNRESOLVED_SEGMENT then constraints
  else
    match mapGet constraints index with
    | none => mapSet constraints index normalized
    | some existing =>
      if existing.text = normalized.text then
        mapSet constraints index
          { text := existing.text, isStatic := existing.isStatic && normalized.isStatic }
      else if existing.text = UNRESOLVED_SEGMENT then
        mapSet constraints index normalized
      else constraints

/-! ### The recursive normalizer cluster.

Every function below carries the remaining recursion budget
`fuel = MAX_RESOLVE_DEPTH - depth`; a source call at `depth + 1` is a call
at `fuel - 1`, and a source entry guard `depth >= MAX_RESOLVE_DEPTH` is the
`fuel = 0` base case.  Functions the source leaves unguarded (they are
only invoked at `depth + 1` from guarded callers) return the corresponding
exhausted-recursion value at fuel 0, marked `frontier base` below; for
every input whose resolution chain stays below the 25-level cap — in
particular every input appearing in the theorems of this file — the
embedding and the source coincide step for step.  The `go…` helpers are
the source's `for` loops over child lists, running at the loop body's
fuel. -/

mutual

/-- `segmentFromExpression` (queryKeys module). -/
def segmentFromExpression (node : Expr) (resolver : Option QueryKeyResolver) :
    Nat → SegmentResult
  | 0 => { text := "expr", isStatic := false }
  | f + 1 =>
    let unwrapped := unwrapExpression node
    match unwrapped with
    | Expr.ident name =>
      if name = "undefined" then { text := "undefined", isStatic := true }
      else
        (match resolver.bind (fun r => r.resolveReference (Expr.ident name)) with
         | some resolvedIdentifier =>
           let resolvedValue := unwrapExpression resolvedIdentifier
           (match resolvedValue with
            | Expr.call callee args =>
              if isMemoLikeCallee callee then { text := "$" ++ name, isStatic := false }
              else
                (match callee with
                 | Expr.member _ _ _ => { text := "$" ++ name, isStatic := false }
                 | Expr.optMember _ _ _ => { text := "$" ++ name, isStatic := false }
                 | _ => segmentFromExpression (Expr.call callee args) resolver f)
            | Expr.member _ _ _ => { text := "$" ++ name, isStatic := false }
            | Expr.optMember _ _ _ => { text := "$" ++ name, isStatic := false }
            | _ => segmentFromExpression resolvedValue resolver f)
         | none => { text := "$" ++ name, isStatic := false })
    | _ =>
      match resolveWithResolver unwrapped resolver (f + 1) with
      | some resolved => segmentFromExpression resolved resolver f
      | none =>
        match unwrapped with
        | Expr.strLit v => { text := v, isStatic := true }
        | Expr.numLit v => { text := toString v, isStatic := true }
        | Expr.boolLit v => { text := toString v, isStatic := true }
        | Expr.nullLit => { text := "null", isStatic := true }
        | Expr.templateLit quasis exprs =>
          let pieces := goTemplate quasis exprs resolver f
          { text := String.join pieces.1, isStatic := pieces.2 }
        | Expr.arrowFn body => segmentFromFunction (Expr.arrowFn body) resolver f
        | Expr.funcExpr body => segmentFromFunction (Expr.funcExpr body) resolver f
        | Expr.optMember obj property computed =>
          let object := segmentFromExpression obj resolver f
          (match inferPropertyName property resolver f with
           | none => { text := object.text ++ "?.?", isStatic := false }
           | some inferredProperty =>
             if computed then
               { text := object.text ++ "?.[" ++ inferredProperty.value ++ "]",
                 isStatic := object.isStatic && inferredProperty.isStatic }
             else
               { text := object.text ++ "?." ++ inferredProperty.value,
                 isStatic := object.isStatic && inferredProperty.isStatic })
        | Expr.member obj property _computed =>
          let propertyName := propertyNameFromExpression property resolver f
          let objectExpression : Option (List ObjProp) :=
            match obj with
            | Expr.objectLit props => some props
            | _ =>
              match resolveQueryKeyExpression obj resolver f with
              | some (Expr.objectLit props) => some props
              | _ => none
          let resolvedProperty : Option Expr :=
            match propertyName, objectExpression with
            | some propertyName, some props =>
              resolveObjectPropertyExpression props propertyName resolver f
            | _, _ => none
          (match resolvedProperty with
           | some resolved => segmentFromExpression resolved resolver f
           | none =>
             let object := segmentFromExpression obj resolver f
             let property : Option PropNameResult :=
               match propertyName with
               | some propertyName => some { value := propertyName, isStatic := true }
               | none => inferPropertyName property resolver f
             (match property with
              | none => { text := object.text ++ ".?", isStatic := false }
              | some property =>
                { text := object.text ++ "." ++ property.value,
                  isStatic := object.isStatic && property.isStatic }))
        | Expr.optCall callee args =>
          (match callee with
           | Expr.optMember cobj cprop ccomputed =>
             let objectSegment := segmentFromExpression cobj resolver f
             let propertySegment := inferPropertyName cprop resolver f
             (match simplifyCollectionMethodCallSegment objectSegment
                 (propertySegment.map (fun p => p)) with
              | some simplified => simplified
              | none =>
                let argsSegment := callArgumentsSegment args resolver f
                let propertyText := (propertySegment.map (fun p => p.value)).getD "?"
                let targetText :=
                  if ccomputed then objectSegment.text ++ "?.[" ++ propertyText ++ "]"
                  else objectSegment.text ++ "?." ++ propertyText
                { text := targetText ++ "(" ++ argsSegment.text ++ ")",
                  isStatic := objectSegment.isStatic &&
                    ((propertySegment.map (fun p => p.isStatic)).getD false) &&
                    argsSegment.isStatic })
           | Expr.ident n => { text := "call(" ++ n ++ ")", isStatic := false }
           | Expr.member cobj cprop ccomputed =>
             let objectSegment := segmentFromExpression cobj resolver f
             let propertySegment := inferPropertyName cprop resolver f
             (match simplifyCollectionMethodCallSegment objectSegment
                 (propertySegment.map (fun p => p)) with
              | some simplified => simplified
              | none =>
                let argsSegment := callArgumentsSegment args resolver f
                let propertyText := (propertySegment.map (fun p => p.value)).getD "?"
                let targetText :=
                  if ccomputed then objectSegment.text ++ "[" ++ propertyText ++ "]"
                  else objectSegment.text ++ "." ++ propertyText
                { text := targetText ++ "(" ++ argsSegment.text ++ ")",
                  isStatic := objectSegment.isStatic &&
                    ((propertySegment.map (fun p => p.isStatic)).getD false) &&
                    argsSegment.isStatic })
           | _ => { text := "call(expr)", isStatic := false })
        | Expr.call callee args =>
          (match memoLikeCallReturnExpression callee args with
           | some memoReturn => segmentFromExpression memoReturn resolver f
           | none =>
             let viaResolvedCallee : Option SegmentResult :=
               match resolver.bind (fun r => r.resolveReference callee) with
               | some resolvedCallee =>
                 let viaReturn : Option Expr :=
                   match resolvedCallee with
                   | Expr.arrowFn _ => extractFunctionReturnExpression resolvedCallee
                   | Expr.funcExpr _ => extractFunctionReturnExpression resolvedCallee
                   | _ => none
                 (match viaReturn with
                  | some returned => some (segmentFromExpression returned resolver f)
                  | none =>
                    let resolvedValue := segmentFromExpression resolvedCallee resolver f
                    if resolvedValue.text ≠ "expr" then some resolvedValue else none)
               | none => none
             (match viaResolvedCallee with
              | some s => s
              | none =>
                match callee with
                | Expr.ident n => { text := "call(" ++ n ++ ")", isStatic := false }
                | Expr.member cobj cprop ccomputed =>
                  let objectSegment := segmentFromExpression cobj resolver f
                  let propertySegment := inferPropertyName cprop resolver f
                  (match simplifyCollectionMethodCallSegment objectSegment
                      (propertySegment.map (fun p => p)) with
                   | some simplified => simplified
                   | none =>
                     let argsSegment := callArgumentsSegment args resolver f
                     let propertyText := (propertySegment.map (fun p => p.value)).getD "?"
                     let targetText :=
                       if ccomputed then objectSegment.text ++ "[" ++ propertyText ++ "]"
                       else objectSegment.text ++ "." ++ propertyText
                     { text := targetText ++ "(" ++ argsSegment.text ++ ")",
                       isStatic := objectSegment.isStatic &&
                         ((propertySegment.map (fun p => p.isStatic)).getD false) &&
                         argsSegment.isStatic })
                | _ => { text := "call(expr)", isStatic := false }))
        | Expr.arrayLit elements =>
          let childSegments := goArraySegs elements resolver f
          { text := "[" ++ String.intercalate ", " (childSegments.map (fun s => s.text)) ++ "]",
            isStatic := childSegments.all (fun s => s.isStatic) }
        | Expr.objectLit properties =>
          (match findObjectPropertyValue properties "queryKey" with
           | some queryKeyNode => segmentFromExpression queryKeyNode resolver f
           | none => segmentFromObjectExpression properties resolver f)
        | Expr.unary op argument =>
          let arg := segmentFromExpression argument resolver f
          { text := op ++ arg.text, isStatic := arg.isStatic }
        | Expr.logical op l r =>
          let left := normalizeSegmentResult (segmentFromExpression l resolver f)
          let right := normalizeSegmentResult (segmentFromExpression r resolver f)
          if (op = "||" ∨ op = "??") ∧
              (isEmptyFallbackExpression r ∨ right.text = UNRESOLVED_SEGMENT) then
            left
          else
            { text := left.text ++ " " ++ op ++ " " ++ right.text,
              isStatic := left.isStatic && right.isStatic }
        | Expr.condExpr _ _ _ => { text := "cond(...)", isStatic := false }
        | _ => { text := "expr", isStatic := false }
termination_by fuel => (fuel, 0, 0)

/-- The function-expression branch of `segmentFromExpression` (source lines
1111-1133), split out for readability. -/
def segmentFromFunction (fnExpr : Expr) (resolver : Option QueryKeyResolver)
    (f : Nat) : SegmentResult :=
  match extractFunctionReturnExpression fnExpr with
  | none => { text := "expr", isStatic := false }
  | some returned =>
    let resolvedReturn :=
      (resolveQueryKeyExpression returned resolver f).getD (unwrapExpression returned)
    match resolvedReturn with
    | Expr.arrayLit elements =>
      (match elements.head? with
       | none => { text := UNRESOLVED_SEGMENT, isStatic := false }
       | some ArrayElem.hole => { text := UNRESOLVED_SEGMENT, isStatic := false }
       | some first =>
         match (segmentsFromArrayElement first resolver f).head? with
         | some firstSegment => normalizeSegmentResult firstSegment
         | none => { text := UNRESOLVED_SEGMENT, isStatic := false })
    | _ => segmentFromExpression resolvedReturn resolver f
termination_by (f, 1, 0)

/-- The template-literal loop of `segmentFromExpression` (source lines
1083-1109): interleave literal runs (skipping empty ones) with rendered
interpolations. -/
def goTemplate (quasis : List String) (exprs : List Expr)
    (resolver : Option QueryKeyResolver) (f : Nat) : List String × Bool :=
  match quasis with
  | [] => ([], true)
  | q :: qs =>
    let pieces1 : List String := if q ≠ "" then [q] else []
    match exprs with
    | [] =>
      let rest := goTemplate qs [] resolver f
      (pieces1 ++ rest.1, rest.2)
    | e :: es =>
      let segment := segmentFromExpression e resolver f
      let rest := goTemplate qs es resolver f
      (pieces1 ++ ["$" ++ lbrace ++ segment.text ++ rbrace] ++ rest.1,
       segment.isStatic && rest.2)
termination_by (f, 2, sizeOf quasis)

/-- The array-element loop of `segmentFromExpression`'s array branch
(source lines 1294-1301): holes render as `undefined`, spread elements hit
the `...spread` early branch. -/
def goArraySegs (elements : List ArrayElem) (resolver : Option QueryKeyResolver)
    (f : Nat) : List SegmentResult
  := match elements with
  | [] => []
  | ArrayElem.hole :: rest =>
    { text := "undefined", isStatic := true } :: goArraySegs rest resolver f
  | ArrayElem.spread _ :: rest =>
    { text := "...spread", isStatic := false } :: goArraySegs rest resolver f
  | ArrayElem.elem e :: rest =>
    segmentFromExpression e resolver f :: goArraySegs rest resolver f
termination_by (f, 2, sizeOf elements)

/-- `inferPropertyName` (queryKeys module); frontier base at fuel 0. -/
def inferPropertyName (property : Expr) (resolver : Option QueryKeyResolver) :
    Nat → Option PropNameResult
  | 0 => none
  | f + 1 =>
    match property with
    | Expr.ident n => some { value := n, isStatic := true }
    | Expr.strLit v => some { value := v, isStatic := true }
    | Expr.numLit v => some { value := toString v, isStatic := true }
    | _ =>
      let evaluated := segmentFromExpression property resolver f
      some { value := evaluated.text, isStatic := evaluated.isStatic }
termination_by fuel => (fuel, 0, 0)

/-- `propertyNameFromExpression` (queryKeys module): the inferred property
name's text (called at the same depth, as in the source). -/
def propertyNameFromExpression (property : Expr)
    (resolver : Option QueryKeyResolver) (fuel : Nat) : Option String :=
  (inferPropertyName property resolver fuel).map (fun p => p.value)
termination_by (fuel, 1, 0)

/-- `objectPropertyKeySegment` (queryKeys module); frontier base at
fuel 0.  Non-computed identifier keys are returned verbatim; everything
else is rendered through `segmentFromExpression`. -/
def objectPropertyKeySegment (keyNode : Expr) (computed : Bool)
    (resolver : Option QueryKeyResolver) : Nat → SegmentResult
  | 0 => { text := UNRESOLVED_SEGMENT, isStatic := false }
  | f + 1 =>
    match computed, keyNode with
    | false, Expr.ident n => { text := n, isStatic := true }
    | _, _ => normalizeSegmentResult (segmentFromExpression keyNode resolver f)
termination_by fuel => (fuel, 0, 0)

/-- `segmentFromObjectExpression` (queryKeys module); frontier base at
fuel 0. -/
def segmentFromObjectExpression (properties : List ObjProp)
    (resolver : Option QueryKeyResolver) : Nat → SegmentResult
  | 0 => { text := "expr", isStatic := false }
  | f + 1 =>
    let acc := goObjEntries properties resolver f
    let entries := acc.1
    let sortableEntries := acc.2.1
    let isStatic := acc.2.2.1
    let canCanonicalizeOrder := acc.2.2.2
    if entries.length = 0 then { text := lbrace ++ rbrace, isStatic := true }
    else if canCanonicalizeOrder then
      let canonicalEntries := sortableEntries.foldl
        (fun (m : List (String × SegmentResult)) entry =>
          if isUndefinedObjectValue entry.2 then mapDelete m entry.1
          else mapSet m entry.1 entry.2)
        []
      let sortedEntryText :=
        (List.insertionSort (fun a b : String × SegmentResult => strLE a.1 b.1)
          canonicalEntries).map (fun e => objectEntryText e.1 e.2.text)
      if sortedEntryText.length = 0 then
        { text := lbrace ++ rbrace, isStatic := isStatic }
      else
        { text := lbrace ++ String.intercalate ", " sortedEntryText ++ rbrace,
          isStatic := isStatic }
    else
      { text := lbrace ++ String.intercalate ", " entries ++ rbrace,
        isStatic := isStatic }
termination_by fuel => (fuel, 0, 0)

/-- The property loop of `segmentFromObjectExpression` (source lines
226-278), producing (entries, sortable entries, isStatic,
canCanonicalizeOrder). -/
def goObjEntries (properties : List ObjProp)
    (resolver : Option QueryKeyResolver) (f : Nat) :
    List String × List (String × SegmentResult) × Bool × Bool :=
  match properties with
  | [] => ([], [], true, true)
  | property :: rest =>
    let head : List String × List (String × SegmentResult) × Bool × Bool :=
      match property with
      | ObjProp.spread arg =>
        let spreadSource :=
          (resolveQueryKeyExpression arg resolver f).getD (unwrapExpression arg)
        (match spreadSource with
         | Expr.objectLit spreadProps =>
           let spreadSegment := segmentFromObjectExpression spreadProps resolver f
           let spreadText := strTrim spreadSegment.text
           if strStartsWith spreadText lbrace ∧ strEndsWith spreadText rbrace then
             let inner := strTrim ((spreadText.drop 1).dropRight 1)
             if inner ≠ "" then ([inner], [], spreadSegment.isStatic, false)
             else ([], [], spreadSegment.isStatic, false)
           else (["..." ++ spreadSegment.text], [], spreadSegment.isStatic, false)
         | _ =>
           let spreadSegment :=
             normalizeSegmentResult (segmentFromExpression spreadSource resolver f)
           (["..." ++ spreadSegment.text], [], false, false))
      | ObjProp.method => (["[method]"], [], false, false)
      | ObjProp.prop key computed value =>
        let keySegment := objectPropertyKeySegment key computed resolver f
        let valueSegment :=
          normalizeSegmentResult (segmentFromExpression value resolver f)
        let keyText := if computed then "[" ++ keySegment.text ++ "]" else keySegment.text
        ([objectEntryText keyText valueSegment.text],
         [(keyText, valueSegment)],
         keySegment.isStatic && valueSegment.isStatic,
         true)
    let tail := goObjEntries rest resolver f
    (head.1 ++ tail.1, head.2.1 ++ tail.2.1,
     head.2.2.1 && tail.2.2.1, head.2.2.2 && tail.2.2.2)
termination_by (f, 2, sizeOf properties)

/-- `segmentsFromArrayElement` (queryKeys module); frontier base at
fuel 0. -/
def segmentsFromArrayElement (segment : ArrayElem)
    (resolver : Option QueryKeyResolver) : Nat → List SegmentResult
  | 0 => [{ text := UNRESOLVED_SEGMENT, isStatic := false }]
  | f + 1 =>
    match segment with
    | ArrayElem.hole => [{ text := UNRESOLVED_SEGMENT, isStatic := false }]
    | ArrayElem.elem e =>
      [normalizeSegmentResult (segmentFromExpression e resolver f)]
    | ArrayElem.spread arg =>
      let spreadSource :=
        (resolveQueryKeyExpression arg resolver f).getD (unwrapExpression arg)
      match spreadSource with
      | Expr.arrayLit elements =>
        let expanded := goSpreadElems elements resolver f
        if expanded.length > 0 then expanded
        else [{ text := UNRESOLVED_SEGMENT, isStatic := false }]
      | _ => [normalizeSegmentResult (segmentFromExpression spreadSource resolver f)]
termination_by fuel => (fuel, 0, 0)

/-- The flat-map loop of `segmentsFromArrayElement`'s spread expansion. -/
def goSpreadElems (elements : List ArrayElem)
    (resolver : Option QueryKeyResolver) (f : Nat) : List SegmentResult :=
  match elements with
  | [] => []
  | element :: rest =>
    segmentsFromArrayElement element resolver f ++ goSpreadElems rest resolver f
termination_by (f, 2, sizeOf elements)

/-- `callArgumentsSegment` (queryKeys module); frontier base at fuel 0. -/
def callArgumentsSegment (args : List ArrayElem)
    (resolver : Option QueryKeyResolver) : Nat → SegmentResult
  | 0 => { text := UNRESOLVED_SEGMENT, isStatic := false }
  | f + 1 =>
    let segments := goCallArgs args resolver f
    { text := String.intercalate ", " (segments.map (fun s => s.text)),
      isStatic := segments.all (fun s => s.isStatic) }
termination_by fuel => (fuel, 0, 0)

/-- The argument loop of `callArgumentsSegment` (source lines 352-377). -/
def goCallArgs (args : List ArrayElem) (resolver : Option QueryKeyResolver)
    (f : Nat) : List SegmentResult :=
  match args with
  | [] => []
  | ArrayElem.hole :: rest =>
    { text := UNRESOLVED_SEGMENT, isStatic := false } :: goCallArgs rest resolver f
  | ArrayElem.spread arg :: rest =>
    let spread := normalizeSegmentResult (segmentFromExpression arg resolver f)
    { text := "..." ++ spread.text, isStatic := spread.isStatic } ::
      goCallArgs rest resolver f
  | ArrayElem.elem e :: rest =>
    normalizeSegmentResult (segmentFromExpression e resolver f) ::
      goCallArgs rest resolver f
termination_by (f, 2, sizeOf args)

/-- `resolveQueryKeyExpression` (queryKeys module). -/
def resolveQueryKeyExpression (node : Expr)
    (resolver : Option QueryKeyResolver) : Nat → Option Expr
  | 0 => none
  | f + 1 =>
    let unwrapped := unwrapExpression node
    match unwrapped with
    | Expr.objectLit properties =>
      (match findObjectPropertyValue properties "queryKey" with
       | some queryKey =>
         some ((resolveQueryKeyExpression queryKey resolver f).getD queryKey)
       | none => some unwrapped)
    | Expr.call callee args =>
      let firstArg := firstExpressionArgument args
      let resolvedFirstArg : Option Expr :=
        match firstArg with
        | some firstArg =>
          if args.length = 1 then
            some ((resolveQueryKeyExpression firstArg resolver f).getD firstArg)
          else none
        | none => none
      let viaFirstArg : Option Expr :=
        match firstArg with
        | some firstArg =>
          if args.length = 1 then
            let viaQueryKeyProp : Option Expr :=
              match resolvedFirstArg with
              | some (Expr.objectLit props) =>
                (match findObjectPropertyValue props "queryKey" with
                 | some queryKey =>
                   some ((resolveQueryKeyExpression queryKey resolver f).getD queryKey)
                 | none => none)
              | _ => none
            (match viaQueryKeyProp with
             | some e => some e
             | none =>
               if isIdentityWrapperCall callee then
                 let base := (resolvedFirstArg.getD firstArg)
                 some ((resolveQueryKeyExpression base resolver f).getD base)
               else none)
          else none
        | none => none
      (match viaFirstArg with
       | some e => some e
       | none =>
         match resolver.bind (fun r => r.resolveCallResult callee) with
         | some resolvedCall =>
           let hintedCall := applyCallArgumentHints callee args resolvedCall resolver f
           some ((resolveQueryKeyExpression hintedCall resolver f).getD hintedCall)
         | none =>
           match resolvedFirstArg with
           | some (Expr.objectLit props) => some (Expr.objectLit props)
           | some (Expr.arrayLit elements) => some (Expr.arrayLit elements)
           | _ => some unwrapped)
    | Expr.ident n =>
      (match resolver.bind (fun r => r.resolveReference (Expr.ident n)) with
       | some resolved =>
         some ((resolveQueryKeyExpression resolved resolver f).getD resolved)
       | none => some unwrapped)
    | Expr.member obj property computed =>
      (match resolver.bind
          (fun r => r.resolveReference (Expr.member obj property computed)) with
       | some resolved =>
         some ((resolveQueryKeyExpression resolved resolver f).getD resolved)
       | none =>
         match obj with
         | Expr.objectLit props =>
           (match propertyNameFromExpression property resolver f with
            | none => some unwrapped
            | some propertyName =>
              match resolveObjectPropertyExpression props propertyName resolver f with
              | some resolved =>
                some ((resolveQueryKeyExpression resolved resolver f).getD resolved)
              | none => resolveMemberThroughObject obj property resolver f)
         | _ => resolveMemberThroughObject obj property resolver f)
    | _ => some unwrapped
termination_by fuel => (fuel, 0, 0)

/-- The second member-lookup block of `resolveQueryKeyExpression` (source
lines 865-880): resolve the member's object and look the property up in
the resulting object literal, falling back to the member itself. -/
def resolveMemberThroughObject (obj property : Expr)
    (resolver : Option QueryKeyResolver) (f : Nat) : Option Expr :=
  match propertyNameFromExpression property resolver f with
  | none => some (Expr.member obj property true)
  | some propertyName =>
    match resolveQueryKeyExpression obj resolver f with
    | some (Expr.objectLit props) =>
      (match resolveObjectPropertyExpression props propertyName resolver f with
       | some resolved =>
         some ((resolveQueryKeyExpression resolved resolver f).getD resolved)
       | none => some (Expr.member obj property true))
    | _ => some (Expr.member obj property true)
termination_by (f, 2, 0)

/-- `resolveObjectPropertyExpression` (queryKeys module). -/
def resolveObjectPropertyExpression (properties : List ObjProp)
    (propertyName : String) (resolver : Option QueryKeyResolver) :
    Nat → Option Expr
  | 0 => none
  | f + 1 => goResolveObjProp properties.reverse propertyName resolver f
termination_by fuel => (fuel, 0, 0)

/-- The reversed property loop of `resolveObjectPropertyExpression`
(source lines 619-647). -/
def goResolveObjProp (reversedProperties : List ObjProp)
    (propertyName : String) (resolver : Option QueryKeyResolver) (f : Nat) :
    Option Expr :=
  match reversedProperties with
  | [] => none
  | property :: rest =>
    match property with
    | ObjProp.prop key _ value =>
      (match propertyNameFromExpression key resolver f with
       | some keyName =>
         if keyName = propertyName then some (unwrapExpression value)
         else goResolveObjProp rest propertyName resolver f
       | none => goResolveObjProp rest propertyName resolver f)
    | ObjProp.method => goResolveObjProp rest propertyName resolver f
    | ObjProp.spread arg =>
      let spreadSource :=
        (resolveQueryKeyExpression arg resolver f).getD (unwrapExpression arg)
      match spreadSource with
      | Expr.objectLit spreadProps =>
        (match resolveObjectPropertyExpression spreadProps propertyName resolver f with
         | some nested => some nested
         | none => goResolveObjProp rest propertyName resolver f)
      | _ => goResolveObjProp rest propertyName resolver f
termination_by (f, 2, sizeOf reversedProperties)

/-- `collectObjectArgumentSubstitutions` (queryKeys module). -/
def collectObjectArgumentSubstitutions (properties : List ObjProp)
    (resolver : Option QueryKeyResolver)
    (target : List (String × Expr)) : Nat → List (String × Expr)
  | 0 => target
  | f + 1 => goCollectSubs properties resolver target f
termination_by fuel => (fuel, 0, 0)

/-- The property loop of `collectObjectArgumentSubstitutions` (source
lines 662-688). -/
def goCollectSubs (properties : List ObjProp)
    (resolver : Option QueryKeyResolver) (target : List (String × Expr))
    (f : Nat) : List (String × Expr) :=
  match properties with
  | [] => target
  | property :: rest =>
    match property with
    | ObjProp.prop key _ value =>
      let target :=
        match propertyNameFromExpression key resolver f with
        | some key => mapSet target key (unwrapExpression value)
        | none => target
      goCollectSubs rest resolver target f
    | ObjProp.method => goCollectSubs rest resolver target f
    | ObjProp.spread arg =>
      let spreadSource :=
        (resolveQueryKeyExpression arg resolver f).getD (unwrapExpression arg)
      match spreadSource with
      | Expr.objectLit spreadProps =>
        let target := collectObjectArgumentSubstitutions spreadProps resolver target f
        goCollectSubs rest resolver target f
      | _ => goCollectSubs rest resolver target f
termination_by (f, 2, sizeOf properties)

/-- `applyObjectArgumentIdentifierHints` (queryKeys module).  The returned
flag models the JS reference-identity change check: it is true exactly
when at least one substitution was applied. -/
def applyObjectArgumentIdentifierHints (expression : Expr)
    (objectProps : List ObjProp) (resolver : Option QueryKeyResolver) :
    Nat → Expr × Bool
  | 0 => (expression, false)
  | f + 1 =>
    let substitutions := collectObjectArgumentSubstitutions objectProps resolver [] f
    if substitutions.length = 0 then (expression, false)
    else
      substitutions.foldl
        (fun (acc : Expr × Bool) sub =>
          if ¬ expressionContainsIdentifier acc.1 sub.1 then acc
          else (substExpr sub.1 sub.2 acc.1, true))
        (expression, false)
termination_by fuel => (fuel, 0, 0)

/-- `applyCallArgumentHints` (queryKeys module), over the call's callee
and arguments. -/
def applyCallArgumentHints (callee : Expr) (args : List ArrayElem)
    (resolvedCall : Expr) (resolver : Option QueryKeyResolver) :
    Nat → Expr
  | 0 =>
    -- At exhausted fuel every inner resolution fails, leaving the source
    -- with the unresolved first argument and empty substitutions.
    (match firstExpressionArgument args with
     | none => resolvedCall
     | some firstArg =>
       let calleeName := callCalleeName callee
       let factoryShortcut : Bool :=
         match resolvedCall, calleeName with
         | Expr.ident rcName, some cn =>
           isQueryKeyFactoryName rcName ∧ isQueryKeyFactoryName cn
         | _, _ => false
       if factoryShortcut then firstArg
       else if ¬ expressionContainsIdentifier resolvedCall "queryKey" then resolvedCall
       else substExpr "queryKey" firstArg resolvedCall)
  | f + 1 =>
    match firstExpressionArgument args with
    | none => resolvedCall
    | some firstArg =>
      let calleeName := callCalleeName callee
      let factoryShortcut : Bool :=
        match resolvedCall, calleeName with
        | Expr.ident rcName, some cn =>
          isQueryKeyFactoryName rcName ∧ isQueryKeyFactoryName cn
        | _, _ => false
      if factoryShortcut then
        (resolveQueryKeyExpression firstArg resolver f).getD firstArg
      else
        let resolvedFirstArg :=
          (resolveQueryKeyExpression firstArg resolver f).getD firstArg
        let hinted : Option Expr :=
          match resolvedFirstArg with
          | Expr.objectLit props =>
            let hintedByObjectArg :=
              applyObjectArgumentIdentifierHints resolvedCall props resolver f
            if hintedByObjectArg.2 then some hintedByObjectArg.1 else none
          | _ => none
        match hinted with
        | some hintedByObjectArg => hintedByObjectArg
        | none =>
          if ¬ expressionContainsIdentifier resolvedCall "queryKey" then resolvedCall
          else substExpr "queryKey" firstArg resolvedCall
termination_by fuel => (fuel, 1, 0)

/-- `resolveActionOptionsObject` (queryKeys module): resolve a mutation's
first argument to the options object literal's property list. -/
def resolveActionOptionsObject (node : Expr)
    (resolver : Option QueryKeyResolver) : Nat → Option (List ObjProp)
  | 0 => none
  | f + 1 =>
    let unwrapped := unwrapExpression node
    match unwrapped with
    | Expr.objectLit properties => some properties
    | Expr.call callee args =>
      let firstArg := firstExpressionArgument args
      let viaWrapper : Option (List ObjProp) :=
        match firstArg with
        | some firstArg =>
          if (args.length == 1) && isIdentityWrapperCall callee then
            resolveActionOptionsObject firstArg resolver f
          else none
        | none => none
      let wrapperBranchTaken : Bool :=
        firstArg.isSome && (args.length == 1) && isIdentityWrapperCall callee
      if wrapperBranchTaken then viaWrapper
      else
        match resolver.bind (fun r => r.resolveCallResult callee) with
        | some resolvedCall =>
          let hintedCall := applyCallArgumentHints callee args resolvedCall resolver f
          resolveActionOptionsObject hintedCall resolver f
        | none => none
    | Expr.ident n =>
      (match resolver.bind (fun r => r.resolveReference (Expr.ident n)) with
       | some resolved => resolveActionOptionsObject resolved resolver f
       | none => none)
    | Expr.member obj property computed =>
      (match resolver.bind
          (fun r => r.resolveReference (Expr.member obj property computed)) with
       | some resolved => resolveActionOptionsObject resolved resolver f
       | none => none)
    | _ => none
termination_by fuel => (fuel, 0, 0)

/-- `queryKeyIndexFromAccessExpression` (queryKeys module): recognize
`queryKey[i]`-style accesses inside predicate bodies and return the
constant index. -/
def queryKeyIndexFromAccessExpression (expression : Expr)
    (resolver : Option QueryKeyResolver) : Nat → Option Nat
  | 0 => none
  | f + 1 =>
    let unwrapped := unwrapExpression expression
    let parts : Option (Expr × Expr × Bool) :=
      match unwrapped with
      | Expr.member obj property computed => some (obj, property, computed)
      | Expr.optMember obj property computed => some (obj, property, computed)
      | _ => none
    match parts with
    | none => none
    | some (obj, property, computed) =>
      if ¬ computed then none
      else
        let object := unwrapExpression obj
        let objParts : Option (Expr × Bool) :=
          match object with
          | Expr.member _ oprop ocomputed => some (oprop, ocomputed)
          | Expr.optMember _ oprop ocomputed => some (oprop, ocomputed)
          | _ => none
        match objParts with
        | none => none
        | some (oprop, ocomputed) =>
          if ocomputed then none
          else
            match inferPropertyName oprop resolver f with
            | none => none
            | some propertyResult =>
              if propertyResult.value ≠ "queryKey" then none
              else
                let rawIndex : Option Int :=
                  match property with
                  | Expr.numLit v => some v
                  | Expr.strLit v => jsParseIntOpt v
                  | _ =>
                    let resolvedIndex :=
                      (resolveQueryKeyExpression property resolver f).getD
                        (unwrapExpression property)
                    match resolvedIndex with
                    | Expr.numLit v => some v
                    | Expr.strLit v => jsParseIntOpt v
                    | _ =>
                      let indexSegment := normalizeSegmentResult
                        (segmentFromExpression resolvedIndex resolver f)
                      jsParseIntOpt indexSegment.text
                match rawIndex with
                | some v => if v ≥ 0 then some v.toNat else none
                | none => none

/-- `collectPredicateQueryKeyConstraints` (queryKeys module): walk `&&`
conjunctions and unary wrappers collecting `queryKey[i] === value`
equalities. -/
def collectPredicateQueryKeyConstraints (expression : Expr)
    (resolver : Option QueryKeyResolver)
    (constraints : List (Nat × SegmentResult)) :
    Nat → List (Nat × SegmentResult)
  | 0 => constraints
  | f + 1 =>
    let unwrapped := unwrapExpression expression
    match unwrapped with
    | Expr.unary _ argument =>
      collectPredicateQueryKeyConstraints argument resolver constraints f
    | Expr.logical op l r =>
      if op = "&&" then
        collectPredicateQueryKeyConstraints r resolver
          (collectPredicateQueryKeyConstraints l resolver constraints f) f
      else constraints
    | Expr.binary op l r =>
      if op ≠ "===" ∧ op ≠ "==" then constraints
      else
        let leftIndex := queryKeyIndexFromAccessExpression l resolver f
        let rightIndex := queryKeyIndexFromAccessExpression r resolver f
        (match leftIndex, rightIndex with
         | some _, some _ => constraints
         | some i, none =>
           let resolvedValue :=
             (resolveQueryKeyExpression r resolver f).getD (unwrapExpression r)
           setPredicateQueryKeyConstraint constraints i
             (normalizeSegmentResult (segmentFromExpression resolvedValue resolver f))
         | none, some i =>
           let resolvedValue :=
             (resolveQueryKeyExpression l resolver f).getD (unwrapExpression l)
           setPredicateQueryKeyConstraint constraints i
             (normalizeSegmentResult (segmentFromExpression resolvedValue resolver f))
         | none, none => constraints)
    | _ => constraints
termination_by fuel => (fuel, 0, 0)

end

/-- The options bag of `normalizeQueryKey`. -/
structure NormalizeOptions where
  defaultMode : Option MatchMode := none
  wildcardIfMissing : Bool := false

/-- `normalizeQueryKey` (queryKeys module): the cache-key normalizer's
entry point.  Internal resolution starts at depth 0, i.e. with the full
`MAX_RESOLVE_DEPTH` budget, exactly as the source's default parameters. -/
def normalizeQueryKey (node : Option Expr) (options : NormalizeOptions)
    (resolver : Option QueryKeyResolver := none) : NormalizedQueryKey :=
  match node with
  | none =>
    if options.wildcardIfMissing then
      buildAllQueryCacheKey Resolution.dynamic ("ALL_QUERY_CACHE")
    else
      normalizedUnknownKey (options.defaultMode.getD MatchMode.unknown)
  | some node =>
    let resolved :=
      (resolveQueryKeyExpression node resolver MAX_RESOLVE_DEPTH).getD
        (unwrapExpression node)
    match resolved with
    | Expr.arrayLit elements =>
      let segments := elements.flatMap
        (fun segment => segmentsFromArrayElement segment resolver MAX_RESOLVE_DEPTH)
      let resolution : Resolution :=
        if segments.all (fun seg => seg.isStatic) then Resolution.static
        else Resolution.dynamic
      let rawSegments := segments.map
        (fun seg => if seg.text = "" then UNRESOLVED_SEGMENT else seg.text)
      { id :=
          (let joined := String.intercalate "|" rawSegments
           if joined = "" then "empty" else joined),
        display := "[" ++ String.intercalate ", " rawSegments ++ "]",
        segments := rawSegments,
        matchMode := options.defaultMode.getD MatchMode.pfx,
        resolution := resolution,
        source :=
          if resolution = Resolution.static then KeySource.literal
          else KeySource.expression }
    | _ =>
      let segment :=
        normalizeSegmentResult (segmentFromExpression resolved resolver MAX_RESOLVE_DEPTH)
      let resolution : Resolution :=
        if segment.isStatic then Resolution.static else Resolution.dynamic
      { id := if segment.text = "" then UNRESOLVED_SEGMENT else segment.text,
        display := if segment.text = "" then UNRESOLVED_SEGMENT else segment.text,
        segments := [if segment.text = "" then UNRESOLVED_SEGMENT else segment.text],
        matchMode := options.defaultMode.getD MatchMode.exact,
        resolution := resolution,
        source :=
          if resolution = Resolution.static then KeySource.literal
          else KeySource.expression }

/-- `normalizeActionKeyOrWildcard` (queryKeys module). -/
def normalizeActionKeyOrWildcard (node : Option Expr)
    (options : NormalizeOptions) (resolver : Option QueryKeyResolver := none) :
    NormalizedQueryKey :=
  let normalized := normalizeQueryKey node options resolver
  let mode := options.defaultMode.getD normalized.matchMode
  let unresolvedQueryKeyReference :=
    isPassThroughQueryKeyReference node ∧
      normalized.source = KeySource.expression ∧
      normalized.segments.length = 1 ∧
      ¬ strStartsWith normalized.display ("[")
  if unresolvedQueryKeyReference then buildPassThroughActionKey mode
  else if shouldTreatAsWildcardActionKey normalized then
    if isPassThroughQueryKeyReference node then buildPassThroughActionKey mode
    else buildAllQueryCacheKey Resolution.dynamic ("ALL_QUERY_CACHE (unresolved key)")
  else normalized

/-- The `for (let index = 0; ; index += 1)` scan of
`inferActionQueryKeyFromPredicate`: read constraints at consecutive
indices until the first gap.  The iteration bound `constraints.length + 1`
is exact: if indices `0..k-1` are all present then `k` cannot exceed the
map's size. -/
def collectConstraintSegments (constraints : List (Nat × SegmentResult)) :
    Nat → Nat → List SegmentResult
  | _, 0 => []
  | index, bound + 1 =>
    match mapGet constraints index with
    | none => []
    | some segment =>
      normalizeSegmentResult segment ::
        collectConstraintSegments constraints (index + 1) bound

/-- `inferActionQueryKeyFromPredicate` (queryKeys module): convert a
predicate body into a synthetic prefix key from the earliest contiguous
run of constrained indices. -/
def inferActionQueryKeyFromPredicate (predicateNode : Expr)
    (resolver : Option QueryKeyResolver) : Option NormalizedQueryKey :=
  let resolvedPredicate :=
    (resolveQueryKeyExpression predicateNode resolver MAX_RESOLVE_DEPTH).getD
      (unwrapExpression predicateNode)
  let conditionExpression : Option Expr :=
    match resolvedPredicate with
    | Expr.arrowFn _ => extractFunctionReturnExpression resolvedPredicate
    | Expr.funcExpr _ => extractFunctionReturnExpression resolvedPredicate
    | _ => some resolvedPredicate
  match conditionExpression with
  | none => none
  | some conditionExpression =>
    let constraints :=
      collectPredicateQueryKeyConstraints conditionExpression resolver []
        MAX_RESOLVE_DEPTH
    if constraints.length = 0 then none
    else
      let segments := collectConstraintSegments constraints 0 (constraints.length + 1)
      if segments.length = 0 then none
      else
        let rawSegments := segments.map
          (fun segment => if segment.text = "" then UNRESOLVED_SEGMENT else segment.text)
        let resolution : Resolution :=
          if segments.all (fun segment => segment.isStatic) then Resolution.static
          else Resolution.dynamic
        some
          { id :=
              (let joined := String.intercalate "|" rawSegments
               if joined = "" then "empty" else joined),
            display := "[" ++ String.intercalate ", " rawSegments ++ "]",
            segments := rawSegments,
            matchMode := MatchMode.pfx,
            resolution := resolution,
            source :=
              if resolution = Resolution.static then KeySource.literal
              else KeySource.expression }

/-- `inferActionQueryKey` (queryKeys module): the mutation-key inference
entry point, dispatching on the method name and the first argument. -/
def inferActionQueryKey (method : String) (args : List ArrayElem)
    (resolver : Option QueryKeyResolver := none) : NormalizedQueryKey :=
  if method = "clear" then
    buildAllQueryCacheKey Resolution.static ("ALL_QUERY_CACHE (clear all)")
  else if args.length = 0 then
    normalizeQueryKey none
      { defaultMode := some MatchMode.all, wildcardIfMissing := true } resolver
  else
    match args.head? with
    | some (ArrayElem.elem first) =>
      if method = "setQueryData" then
        let resolvedFirst :=
          (resolveQueryKeyExpression first resolver MAX_RESOLVE_DEPTH).getD
            (unwrapExpression first)
        let normalized := normalizeQueryKey (some resolvedFirst)
          { defaultMode := some MatchMode.exact } resolver
        let unresolvedPassThroughReference :=
          isPassThroughQueryKeyReference (some first) ∧
            normalized.source = KeySource.expression ∧
            normalized.segments.length = 1 ∧
            ¬ strStartsWith normalized.display ("[")
        if shouldTreatAsWildcardActionKey normalized ∨ unresolvedPassThroughReference then
          buildPassThroughActionKey MatchMode.exact
        else normalized
      else
        match resolveActionOptionsObject first resolver MAX_RESOLVE_DEPTH with
        | some resolvedActionOptions =>
          let keyNode := findObjectPropertyValue resolvedActionOptions ("queryKey")
          let exact := readBooleanProperty resolvedActionOptions ("exact")
          let mode : MatchMode :=
            if exact = some true then MatchMode.exact else MatchMode.pfx
          (match keyNode with
           | some keyNode =>
             normalizeActionKeyOrWildcard (some keyNode)
               { defaultMode := some mode } resolver
           | none =>
             let predicateNode :=
               findObjectPropertyValue resolvedActionOptions ("predicate")
             let viaPredicate : Option NormalizedQueryKey :=
               match predicateNode with
               | some predicateNode =>
                 (match inferActionQueryKeyFromPredicate predicateNode resolver with
                  | some inferredFromPredicate =>
                    some { inferredFromPredicate with
                      matchMode :=
                        if exact = some true then MatchMode.exact
                        else inferredFromPredicate.matchMode }
                  | none => none)
               | none => none
             match viaPredicate with
             | some key => key
             | none =>
               normalizeQueryKey none
                 { defaultMode :=
                     some (if predicateNode.isSome then MatchMode.predicate
                           else MatchMode.all),
                   wildcardIfMissing := true })
        | none =>
          let resolved :=
            (resolveQueryKeyExpression first resolver MAX_RESOLVE_DEPTH).getD
              (unwrapExpression first)
          match resolved with
          | Expr.objectLit props =>
            let keyNode := findObjectPropertyValue props ("queryKey")
            let exact := readBooleanProperty props ("exact")
            let mode : MatchMode :=
              if exact = some true then MatchMode.exact else MatchMode.pfx
            (match keyNode with
             | some keyNode =>
               normalizeActionKeyOrWildcard (some keyNode)
                 { defaultMode := some mode } resolver
             | none =>
               let predicateNode := findObjectPropertyValue props ("predicate")
               let viaPredicate : Option NormalizedQueryKey :=
                 match predicateNode with
                 | some predicateNode =>
                   (match inferActionQueryKeyFromPredicate predicateNode resolver with
                    | some inferredFromPredicate =>
                      some { inferredFromPredicate with
                        matchMode :=
                          if exact = some true then MatchMode.exact
                          else inferredFromPredicate.matchMode }
                    | none => none)
                 | none => none
               match viaPredicate with
               | some key => key
               | none =>
                 normalizeQueryKey none
                   { defaultMode :=
                       some (if predicateNode.isSome then MatchMode.predicate
                             else MatchMode.all),
                     wildcardIfMissing := true })
          | _ =>
            normalizeActionKeyOrWildcard (some resolved)
              { defaultMode := some MatchMode.pfx } resolver
    | _ =>
      normalizeQueryKey none { defaultMode := some MatchMode.unknown } resolver

/-! ### Certainty lattice (src/core/analyzer/context.ts). -/

/-- `mergeResolution` (context.ts): dynamic absorbs, static is the unit. -/
def mergeResolution (a b : Resolution) : Resolution :=
  if a = Resolution.dynamic ∨ b = Resolution.dynamic then Resolution.dynamic
  else Resolution.static

/-- `setCertainty` (context.ts): static is sticky; otherwise write when
absent or upgrading to static. -/
def setCertainty (m : List (String × Resolution)) (key : String)
    (certainty : Resolution) : List (String × Resolution) :=
  match mapGet m key with
  | some Resolution.static => m
  | current =>
    if current.isNone ∨ certainty = Resolution.static then mapSet m key certainty
    else m

/-- `getCertainty` (context.ts). -/
def getCertainty (m : List (String × Resolution)) (key : String) :
    Option Resolution :=
  mapGet m key

/-! ### The cross-file reference resolver (src/core/analyzer resolver,
context.ts part).

`resolveModuleFile` consults the filesystem (extension probing, tsconfig
path aliases) and is abstracted as the `moduleResolve` function parameter;
origin tracking through `markExpressionOrigin`/`originForNode` (a WeakMap
used only to pick the `fromFile` of the public wrappers) is modelled by
resolving from the entry file, its documented fallback.  The mutable
`seen` set is threaded downward (see the header).  Gas counts the
remaining depth budget: `gas = MAX_DEPTH + 1 - depth`, so the source's
entry guard `depth > MAX_DEPTH` is `gas = 0` and a call at `depth + 1` is
a call at `gas - 1`; the source functions without their own guard
(`resolveImportedValue`, `resolveImportedFunctionReturn`,
`resolveNamespaceMember`, `expressionToLiteralString`) return at gas 0
exactly what their guarded callees would have forced (`none`, or the
literal checks of `expressionToLiteralString`). -/

/-- Import binding kinds ('named' | 'default' | 'namespace'). -/
inductive ImportKind where
  | named
  | defaultKind
  | namespaceKind
deriving DecidableEq, Repr

/-- `ImportBinding` (analyzer types). -/
structure ImportBinding where
  kind : ImportKind
  source : String
  imported : Option String := none
deriving DecidableEq, Repr

/-- `ReExportBinding` (analyzer types). -/
structure ReExportBinding where
  source : String
  imported : Option String := none
  exported : Option String := none
  all : Bool
deriving Repr

/-- `FileSymbols` (analyzer types): the per-file symbol table. -/
structure FileSymbols where
  filePath : String
  values : List (String × Expr) := []
  functions : List (String × Expr) := []
  imports : List (String × ImportBinding) := []
  exports : List (String × String) := []
  reExports : List ReExportBinding := []

/-- `SymbolIndex` (analyzer types): file identity → symbol table (the
`fileSet` is the key set, folded into `moduleResolve`). -/
structure SymbolIndex where
  files : List (String × FileSymbols)

/-- `MAX_DEPTH` (resolver module). -/
def MAX_DEPTH : Nat := 24

/-- `commonPathPrefixLength` (resolver module), over '/'-separated
paths. -/
def commonPathPrefixLength (left right : String) : Nat :=
  let leftSegments := (left.splitOn ("/")).filter (fun s => s ≠ "")
  let rightSegments := (right.splitOn ("/")).filter (fun s => s ≠ "")
  let rec go : List String → List String → Nat
    | l :: ls, r :: rs => if l = r then 1 + go ls rs else 0
    | _, _ => 0
  go leftSegments rightSegments

/-- `isLikelyQueryKeyFactoryIdentifier` (resolver module). -/
def isLikelyQueryKeyFactoryIdentifier (name : String) : Bool :=
  if name = "" then false
  else
    let normalized := strToLower name
    if strIncludes normalized ("querykey") then true
    else strIncludes normalized ("rqkey")

/-- `objectPropertyValue` (resolver module): forward scan for an
identifier- or string-keyed property. -/
def ctxObjectPropertyValue (properties : List ObjProp) (propertyName : String) :
    Option Expr :=
  match properties.find? (fun p =>
    match p with
    | ObjProp.prop (Expr.ident n) _ _ => n = propertyName
    | ObjProp.prop (Expr.strLit v) _ _ => v = propertyName
    | _ => false) with
  | some (ObjProp.prop _ _ value) => some (unwrapExpression value)
  | _ => none

/-- `queryKeyPropertyFromCall` (resolver module). -/
def queryKeyPropertyFromCall (args : List ArrayElem) : Option Expr :=
  match args.head? with
  | some (ArrayElem.elem firstArg) =>
    (match unwrapExpression firstArg with
     | Expr.objectLit props => ctxObjectPropertyValue props ("queryKey")
     | _ => none)
  | _ => none

/-- One candidate of the whole-index factory fallback search. -/
structure WorkspaceCandidate where
  filePath : String
  expression : Expr
  score : Nat

/-- Ordering of `candidates.sort((l, r) => r.score - l.score ||
l.filePath.localeCompare(r.filePath))`. -/
def candLE (a b : WorkspaceCandidate) : Prop :=
  b.score < a.score ∨ (a.score = b.score ∧ strLeB a.filePath b.filePath = true)

instance : DecidableRel candLE := fun a b =>
  inferInstanceAs (Decidable (b.score < a.score ∨ (a.score = b.score ∧ strLeB a.filePath b.filePath = true)))

/-- `resolveWorkspaceFunctionReturnByName` (resolver module): search every
file's bindings for a key-factory function of the given name, ranked by
shared path-prefix length; equal-rank candidates in different files are
ambiguous and discarded. -/
def resolveWorkspaceFunctionReturnByName (index : SymbolIndex)
    (fromFile functionName : String) : Option Expr :=
  if ¬ isLikelyQueryKeyFactoryIdentifier functionName then none
  else
    let candidates := index.files.foldl
      (fun (acc : List WorkspaceCandidate) entry =>
        let candidateFile := entry.1
        let symbols := entry.2
        match mapGet symbols.functions functionName with
        | some fromFunctions =>
          acc ++ [{ filePath := candidateFile, expression := fromFunctions,
                    score := commonPathPrefixLength fromFile candidateFile }]
        | none =>
          match mapGet symbols.values functionName with
          | none => acc
          | some fromValues =>
            match fromValues with
            | Expr.arrowFn body =>
              (match extractFunctionReturnExpression (Expr.arrowFn body) with
               | some returned =>
                 acc ++ [{ filePath := candidateFile, expression := returned,
                           score := commonPathPrefixLength fromFile candidateFile }]
               | none => acc)
            | Expr.funcExpr body =>
              (match extractFunctionReturnExpression (Expr.funcExpr body) with
               | some returned =>
                 acc ++ [{ filePath := candidateFile, expression := returned,
                           score := commonPathPrefixLength fromFile candidateFile }]
               | none => acc)
            | _ => acc)
      []
    if candidates.length = 0 then none
    else
      let sorted := List.insertionSort candLE candidates
      match sorted with
      | [] => none
      | best :: rest =>
        match rest.head? with
        | some second =>
          if second.score = best.score ∧ second.filePath ≠ best.filePath then none
          else some best.expression
        | none => some best.expression

/-- `arrayIndexLookup`: the shared array-index block of
`resolveReferenceInternal` (parse the property name as an index, check
bounds, return the unwrapped element). -/
def arrayIndexLookup (elements : List ArrayElem) (propertyName : String) :
    Option Expr :=
  match jsParseIntOpt propertyName with
  | none => none
  | some indexValue =>
    if indexValue < 0 ∨ indexValue ≥ elements.length then none
    else
      match elements.get? indexValue.toNat with
      | some (ArrayElem.elem element) => some (unwrapExpression element)
      | _ => none

mutual

/-- `expressionToLiteralString` (resolver module): resolve and read a
string/number/boolean literal. -/
def expressionToLiteralString (index : SymbolIndex)
    (moduleResolve : String → String → Option String)
    (filePath : String) (expression : Expr) (seen : List String) :
    Nat → Option String
  | 0 =>
    -- At exhausted gas the internal resolution necessarily fails, leaving
    -- the literal checks on the unwrapped expression.
    (match unwrapExpression expression with
     | Expr.strLit v => some v
     | Expr.numLit v => some (toString v)
     | Expr.boolLit v => some (toString v)
     | _ => none)
  | g + 1 =>
    let resolved :=
      (resolveReferenceInternal index moduleResolve filePath expression g seen).getD
        (unwrapExpression expression)
    match resolved with
    | Expr.strLit v => some v
    | Expr.numLit v => some (toString v)
    | Expr.boolLit v => some (toString v)
    | _ => none
termination_by gas => (gas, 0, 0)

/-- `propertyNameFromMemberExpression` (resolver module), with the
expression-valued fallback inlined (`expressionToLiteralString` at the
member's own depth, as the source's closure captures it). -/
def propertyNameFromMemberExpr (index : SymbolIndex)
    (moduleResolve : String → String → Option String)
    (fromFile : String) (property : Expr) (computed : Bool)
    (seen : List String) (gas : Nat) : Option String :=
  match computed, property with
  | false, Expr.ident n => some n
  | _, Expr.strLit v => some v
  | _, Expr.numLit v => some (toString v)
  | _, property =>
    expressionToLiteralString index moduleResolve fromFile property seen gas
termination_by (gas, 1, 0)

/-- `resolveExportValue` (resolver module). -/
def resolveExportValue (index : SymbolIndex)
    (moduleResolve : String → String → Option String)
    (targetFile exportName : String) (seen : List String) :
    Nat → Option Expr
  | 0 => none
  | g + 1 =>
    let key := "exp-value:" ++ targetFile ++ ":" ++ exportName
    if key ∈ seen then none
    else
      let seen := key :: seen
      match mapGet index.files targetFile with
      | none => none
      | some symbols =>
        match mapGet symbols.exports exportName with
        | some localName =>
          resolveLocalValue index moduleResolve targetFile localName seen g
        | none =>
          goReExportsValue index moduleResolve symbols.reExports targetFile
            exportName seen g
termination_by gas => (gas, 2, 0)

/-- The re-export loop of `resolveExportValue` (source lines 797-826). -/
def goReExportsValue (index : SymbolIndex)
    (moduleResolve : String → String → Option String)
    (reExports : List ReExportBinding) (targetFile exportName : String)
    (seen : List String) (g : Nat) : Option Expr :=
  match reExports with
  | [] => none
  | reExport :: rest =>
    if reExport.all then
      match moduleResolve targetFile reExport.source with
      | none => goReExportsValue index moduleResolve rest targetFile exportName seen g
      | some nestedFile =>
        match resolveExportValue index moduleResolve nestedFile exportName seen g with
        | some value => some value
        | none => goReExportsValue index moduleResolve rest targetFile exportName seen g
    else if reExport.exported ≠ some exportName then
      goReExportsValue index moduleResolve rest targetFile exportName seen g
    else
      match moduleResolve targetFile reExport.source with
      | none => goReExportsValue index moduleResolve rest targetFile exportName seen g
      | some nestedFile =>
        let nestedName := reExport.imported.getD exportName
        match resolveExportValue index moduleResolve nestedFile nestedName seen g with
        | some value => some value
        | none => goReExportsValue index moduleResolve rest targetFile exportName seen g
termination_by (g, 3, sizeOf reExports)

/-- `resolveExportFunctionReturn` (resolver module). -/
def resolveExportFunctionReturn (index : SymbolIndex)
    (moduleResolve : String → String → Option String)
    (targetFile exportName : String) (seen : List String) :
    Nat → Option Expr
  | 0 => none
  | g + 1 =>
    let key := "exp-fn:" ++ targetFile ++ ":" ++ exportName
    if key ∈ seen then none
    else
      let seen := key :: seen
      match mapGet index.files targetFile with
      | none => none
      | some symbols =>
        match mapGet symbols.exports exportName with
        | some localName =>
          resolveLocalFunctionReturn index moduleResolve targetFile localName seen g
        | none =>
          goReExportsFunctionReturn index moduleResolve symbols.reExports targetFile
            exportName seen g
termination_by gas => (gas, 2, 0)

/-- The re-export loop of `resolveExportFunctionReturn` (source lines
857-886). -/
def goReExportsFunctionReturn (index : SymbolIndex)
    (moduleResolve : String → String → Option String)
    (reExports : List ReExportBinding) (targetFile exportName : String)
    (seen : List String) (g : Nat) : Option Expr :=
  match reExports with
  | [] => none
  | reExport :: rest =>
    if reExport.all then
      match moduleResolve targetFile reExport.source with
      | none =>
        goReExportsFunctionReturn index moduleResolve rest targetFile exportName seen g
      | some nestedFile =>
        match resolveExportFunctionReturn index moduleResolve nestedFile exportName
            seen g with
        | some value => some value
        | none =>
          goReExportsFunctionReturn index moduleResolve rest targetFile exportName seen g
    else if reExport.exported ≠ some exportName then
      goReExportsFunctionReturn index moduleResolve rest targetFile exportName seen g
    else
      match moduleResolve targetFile reExport.source with
      | none =>
        goReExportsFunctionReturn index moduleResolve rest targetFile exportName seen g
      | some nestedFile =>
        let nestedName := reExport.imported.getD exportName
        match resolveExportFunctionReturn index moduleResolve nestedFile nestedName
            seen g with
        | some value => some value
        | none =>
          goReExportsFunctionReturn index moduleResolve rest targetFile exportName seen g
termination_by (g, 3, sizeOf reExports)

/-- `resolveImportedValue` (resolver module). -/
def resolveImportedValue (index : SymbolIndex)
    (moduleResolve : String → String → Option String)
    (fromFile : String) (binding : ImportBinding) (seen : List String) :
    Nat → Option Expr
  | 0 => none
  | g + 1 =>
    if binding.kind = ImportKind.namespaceKind then none
    else
      match moduleResolve fromFile binding.source with
      | none => none
      | some targetFile =>
        let exportName :=
          if binding.kind = ImportKind.defaultKind then "default"
          else binding.imported.getD ("default")
        resolveExportValue index moduleResolve targetFile exportName seen g
termination_by gas => (gas, 2, 0)

/-- `resolveImportedFunctionReturn` (resolver module). -/
def resolveImportedFunctionReturn (index : SymbolIndex)
    (moduleResolve : String → String → Option String)
    (fromFile : String) (binding : ImportBinding) (seen : List String) :
    Nat → Option Expr
  | 0 => none
  | g + 1 =>
    if binding.kind = ImportKind.namespaceKind then none
    else
      match moduleResolve fromFile binding.source with
      | none => none
      | some targetFile =>
        let exportName :=
          if binding.kind = ImportKind.defaultKind then "default"
          else binding.imported.getD ("default")
        resolveExportFunctionReturn index moduleResolve targetFile exportName seen g
termination_by gas => (gas, 2, 0)

/-- `resolveNamespaceMember` (resolver module). -/
def resolveNamespaceMember (index : SymbolIndex)
    (moduleResolve : String → String → Option String)
    (fromFile namespaceName memberName : String) (seen : List String) :
    Nat → Option Expr
  | 0 => none
  | g + 1 =>
    match mapGet index.files fromFile with
    | none => none
    | some symbols =>
      match mapGet symbols.imports namespaceName with
      | none => none
      | some binding =>
        if binding.kind ≠ ImportKind.namespaceKind then none
        else
          match moduleResolve fromFile binding.source with
          | none => none
          | some targetFile =>
            resolveExportValue index moduleResolve targetFile memberName seen g

/-- `resolveLocalValue` (resolver module). -/
def resolveLocalValue (index : SymbolIndex)
    (moduleResolve : String → String → Option String)
    (fromFile localName : String) (seen : List String) :
    Nat → Option Expr
  | 0 => none
  | g + 1 =>
    let key := "local-value:" ++ fromFile ++ ":" ++ localName
    if key ∈ seen then none
    else
      let seen := key :: seen
      match mapGet index.files fromFile with
      | none => none
      | some symbols =>
        match mapGet symbols.values localName with
        | some localValue =>
          (match localValue with
           | Expr.ident name =>
             if name ≠ localName then
               some ((resolveLocalValue index moduleResolve fromFile name seen g).getD
                 localValue)
             else some localValue
           | _ => some localValue)
        | none =>
          match mapGet symbols.functions localName with
          | some localFunctionReturn => some localFunctionReturn
          | none =>
            match mapGet symbols.imports localName with
            | none => none
            | some importBinding =>
              resolveImportedValue index moduleResolve fromFile importBinding seen g
termination_by gas => (gas, 2, 0)

/-- `resolveLocalFunctionReturn` (resolver module). -/
def resolveLocalFunctionReturn (index : SymbolIndex)
    (moduleResolve : String → String → Option String)
    (fromFile localName : String) (seen : List String) :
    Nat → Option Expr
  | 0 => none
  | g + 1 =>
    let key := "local-fn:" ++ fromFile ++ ":" ++ localName
    if key ∈ seen then none
    else
      let seen := key :: seen
      match mapGet index.files fromFile with
      | none => none
      | some symbols =>
        match mapGet symbols.functions localName with
        | some localFunctionReturn => some localFunctionReturn
        | none =>
          match mapGet symbols.values localName with
          | some localValue =>
            (match localValue with
             | Expr.ident name =>
               if name ≠ localName then
                 resolveLocalFunctionReturn index moduleResolve fromFile name seen g
               else none
             | Expr.arrowFn body =>
               extractFunctionReturnExpression (Expr.arrowFn body)
             | Expr.funcExpr body =>
               extractFunctionReturnExpression (Expr.funcExpr body)
             | _ => none)
          | none =>
            match mapGet symbols.imports localName with
            | none => none
            | some importBinding =>
              resolveImportedFunctionReturn index moduleResolve fromFile importBinding
                seen g
termination_by gas => (gas, 2, 0)

/-- `resolveObjectPropertyValue` (resolver module). -/
def resolveObjectPropertyValue (index : SymbolIndex)
    (moduleResolve : String → String → Option String)
    (fromFile : String) (properties : List ObjProp) (propertyName : String)
    (seen : List String) : Nat → Option Expr
  | 0 => none
  | g + 1 =>
    goObjPropValue index moduleResolve fromFile properties.reverse propertyName seen g
termination_by gas => (gas, 2, 0)

/-- The reversed property loop of `resolveObjectPropertyValue` (source
lines 1109-1146); property keys are read only from identifier, string and
numeric literals here. -/
def goObjPropValue (index : SymbolIndex)
    (moduleResolve : String → String → Option String)
    (fromFile : String) (reversedProperties : List ObjProp)
    (propertyName : String) (seen : List String) (g : Nat) : Option Expr :=
  match reversedProperties with
  | [] => none
  | property :: rest =>
    match property with
    | ObjProp.prop key _ value =>
      let keyName : Option String :=
        match key with
        | Expr.ident n => some n
        | Expr.strLit v => some v
        | Expr.numLit v => some (toString v)
        | _ => none
      if keyName = some propertyName then some (unwrapExpression value)
      else goObjPropValue index moduleResolve fromFile rest propertyName seen g
    | ObjProp.method =>
      goObjPropValue index moduleResolve fromFile rest propertyName seen g
    | ObjProp.spread arg =>
      let spreadValue :=
        (resolveReferenceInternal index moduleResolve fromFile arg g seen).getD
          (unwrapExpression arg)
      match spreadValue with
      | Expr.objectLit spreadProps =>
        (match resolveObjectPropertyValue index moduleResolve fromFile spreadProps
            propertyName seen g with
         | some nested => some nested
         | none => goObjPropValue index moduleResolve fromFile rest propertyName seen g)
      | _ => goObjPropValue index moduleResolve fromFile rest propertyName seen g
termination_by (g, 6, sizeOf reversedProperties)

/-- `resolveReferenceInternal` (resolver module): identifiers through the
local/import tables, member chains through resolved object literals,
identity-wrapper calls and array indices. -/
def resolveReferenceInternal (index : SymbolIndex)
    (moduleResolve : String → String → Option String)
    (fromFile : String) (expression : Expr) : Nat → List String → Option Expr
  | 0, _ => none
  | g + 1, seen =>
    let node := unwrapExpression expression
    match node with
    | Expr.ident name => resolveLocalValue index moduleResolve fromFile name seen g
    | Expr.member obj property computed =>
      let viaNamespace : Option Expr :=
        match obj with
        | Expr.ident objName =>
          (match propertyNameFromMemberExpr index moduleResolve fromFile property
              computed seen (g + 1) with
           | some propertyName =>
             resolveNamespaceMember index moduleResolve fromFile objName propertyName
               seen g
           | none => none)
        | _ => none
      (match viaNamespace with
       | some namespaceValue => some namespaceValue
       | none =>
         let resolvedObject :=
           (resolveReferenceInternal index moduleResolve fromFile obj g seen).getD
             (unwrapExpression obj)
         match propertyNameFromMemberExpr index moduleResolve fromFile property
             computed seen (g + 1) with
         | none => none
         | some propertyName =>
           match resolvedObject with
           | Expr.objectLit props =>
             resolveObjectPropertyValue index moduleResolve fromFile props propertyName
               seen g
           | Expr.call callee args =>
             resolveThroughCall index moduleResolve fromFile callee args propertyName
               seen g
           | Expr.arrayLit elements => arrayIndexLookup elements propertyName
           | _ => none)
    | _ => none
termination_by gas => (gas, 4, 0)

/-- The call-expression block of `resolveReferenceInternal` (source lines
1201-1283): read `queryKey` from the call's options argument, look through
identity wrappers and literal object/array arguments, then through the
resolved call result. -/
def resolveThroughCall (index : SymbolIndex)
    (moduleResolve : String → String → Option String)
    (fromFile : String) (callee : Expr) (args : List ArrayElem)
    (propertyName : String) (seen : List String) (g : Nat) : Option Expr :=
  let viaQueryKey : Option Expr :=
    if propertyName = "queryKey" then queryKeyPropertyFromCall args else none
  match viaQueryKey with
  | some fromCallArg => some fromCallArg
  | none =>
    let wrappedArg := firstExpressionArgument args
    let wrappedBranch : Option (Option Expr) :=
      match wrappedArg with
      | some wrappedArg =>
        let eligible := isIdentityWrapperCall callee ||
          ((args.length == 1) &&
            (match wrappedArg with
             | Expr.objectLit _ => true
             | Expr.arrayLit _ => true
             | _ => false))
        if eligible then
          let resolvedWrappedArg :=
            (resolveReferenceInternal index moduleResolve fromFile wrappedArg g
              seen).getD wrappedArg
          match resolvedWrappedArg with
          | Expr.objectLit props =>
            some (resolveObjectPropertyValue index moduleResolve fromFile props
              propertyName seen g)
          | Expr.arrayLit elements => some (arrayIndexLookup elements propertyName)
          | _ => none
        else none
      | none => none
    match wrappedBranch with
    | some result => result
    | none =>
      match resolveCallResultInternal index moduleResolve fromFile callee g seen with
      | none => none
      | some nestedCallResult =>
        match nestedCallResult with
        | Expr.objectLit props =>
          resolveObjectPropertyValue index moduleResolve fromFile props propertyName
            seen g
        | Expr.call nestedCallee nestedArgs =>
          let viaNestedQueryKey : Option Expr :=
            if propertyName = "queryKey" then queryKeyPropertyFromCall nestedArgs
            else none
          (match viaNestedQueryKey with
           | some nestedQueryKey => some nestedQueryKey
           | none =>
             let nestedWrappedArg := firstExpressionArgument nestedArgs
             match nestedWrappedArg with
             | some nestedWrappedArg =>
               let eligible := isIdentityWrapperCall nestedCallee ||
                 ((nestedArgs.length == 1) &&
                   (match nestedWrappedArg with
                    | Expr.objectLit _ => true
                    | Expr.arrayLit _ => true
                    | _ => false))
               if eligible then
                 let resolvedNestedWrappedArg :=
                   (resolveReferenceInternal index moduleResolve fromFile
                     nestedWrappedArg g seen).getD nestedWrappedArg
                 match resolvedNestedWrappedArg with
                 | Expr.objectLit props =>
                   resolveObjectPropertyValue index moduleResolve fromFile props
                     propertyName seen g
                 | Expr.arrayLit elements => arrayIndexLookup elements propertyName
                 | _ => none
               else none
             | none => none)
        | _ => none
termination_by (g, 5, 0)

/-- `resolveCallResultInternal` (resolver module). -/
def resolveCallResultInternal (index : SymbolIndex)
    (moduleResolve : String → String → Option String)
    (fromFile : String) (callee : Expr) : Nat → List String → Option Expr
  | 0, _ => none
  | g + 1, seen =>
    match callee with
    | Expr.ident name =>
      (match resolveLocalFunctionReturn index moduleResolve fromFile name seen g with
       | some localFunctionReturn => some localFunctionReturn
       | none =>
         match resolveLocalValue index moduleResolve fromFile name seen g with
         | none => resolveWorkspaceFunctionReturnByName index fromFile name
         | some localValue =>
           match localValue with
           | Expr.arrowFn body => extractFunctionReturnExpression (Expr.arrowFn body)
           | Expr.funcExpr body => extractFunctionReturnExpression (Expr.funcExpr body)
           | _ => some localValue)
    | Expr.member obj property computed =>
      let viaNamespace : Option Expr :=
        match obj, computed, property with
        | Expr.ident objName, false, Expr.ident propName =>
          (match resolveNamespaceMember index moduleResolve fromFile objName propName
              seen g with
           | some namespaceFunction =>
             (match namespaceFunction with
              | Expr.arrowFn body =>
                extractFunctionReturnExpression (Expr.arrowFn body)
              | Expr.funcExpr body =>
                extractFunctionReturnExpression (Expr.funcExpr body)
              | Expr.ident identName =>
                resolveLocalFunctionReturn index moduleResolve fromFile identName seen g
              | _ => some namespaceFunction)
           | none => none)
        | _, _, _ => none
      (match viaNamespace with
       | some result => some result
       | none =>
         match resolveReferenceInternal index moduleResolve fromFile
             (Expr.member obj property computed) g seen with
         | none => none
         | some resolvedReference =>
           match resolvedReference with
           | Expr.arrowFn body => extractFunctionReturnExpression (Expr.arrowFn body)
           | Expr.funcExpr body => extractFunctionReturnExpression (Expr.funcExpr body)
           | Expr.ident identName =>
             resolveLocalFunctionReturn index moduleResolve fromFile identName seen g
           | _ => some resolvedReference)
    | _ => none
termination_by gas => (gas, 4, 0)

end

/-- The public `resolveReference` of `createQueryKeyResolver`: resolve
from the entry file with a fresh seen set and the full depth budget
(source depth 0 = gas `MAX_DEPTH + 1`). -/
def resolveReference (index : SymbolIndex)
    (moduleResolve : String → String → Option String)
    (entryFile : String) (node : Expr) : Option Expr :=
  resolveReferenceInternal index moduleResolve entryFile node (MAX_DEPTH + 1) []

/-- The public `resolveCallResult` of `createQueryKeyResolver`. -/
def resolveCallResult (index : SymbolIndex)
    (moduleResolve : String → String → Option String)
    (entryFile : String) (callee : Expr) : Option Expr :=
  resolveCallResultInternal index moduleResolve entryFile callee (MAX_DEPTH + 1) []


/-! ### Concrete instances used by the theorems below. -/

/-- The id computation of `normalizeQueryKey`'s array branch, as a
function of the segment list alone (`segments.join('|') || 'empty'`). -/
def keyIdOfSegments (segments : List String) : String :=
  let joined := String.intercalate "|" segments
  if joined = "" then "empty" else joined

/-- A single-root environment: paths pass through unchanged and every file
lands in one project scope. -/
def exEnv : GraphEnv :=
  { normalizeOf := id, displayOf := id, scopeOf := fun _ => "ws:app" }

/-- An environment whose project scope is looked up per file (two-root
scenarios); unknown files fall back to `workspace:*`. -/
def exScopedEnv (scopes : List (String × String)) : GraphEnv :=
  { normalizeOf := id, displayOf := id,
    scopeOf := fun f => (mapGet scopes f).getD ("workspace:*") }

/-- A statically declared key with the given segments, as the analyzer
produces it (id = segments joined by '|'). -/
def exLitKey (segments : List String) (mode : MatchMode) : NormalizedQueryKey :=
  { id := keyIdOfSegments segments,
    display := "[" ++ String.intercalate ", " segments ++ "]",
    segments := segments,
    matchMode := mode,
    resolution := Resolution.static,
    source := KeySource.literal }

/-- A record fixture. -/
def exRecord (relation : Relation) (operation file : String) (line : Nat)
    (key : NormalizedQueryKey) : QueryRecord :=
  { relation := relation, operation := operation, file := file,
    loc := { line := line, column := 1 }, queryKey := key,
    resolution := key.resolution }

/-- C1 fixtures: one declared key `[todos, list]` and three prefix-mode
mutations `[todos]`, `[todos, detail]`, `[todos, $id]`. -/
def exDeclTodosList : QueryRecord :=
  exRecord Relation.declares ("useQuery") ("a.ts") 1
    (exLitKey ["todos", "list"] MatchMode.exact)

def exMutTodos : QueryRecord :=
  exRecord Relation.invalidates ("invalidateQueries") ("a.ts") 2
    (exLitKey ["todos"] MatchMode.pfx)

def exMutTodosDetail : QueryRecord :=
  exRecord Relation.invalidates ("invalidateQueries") ("a.ts") 3
    (exLitKey ["todos", "detail"] MatchMode.pfx)

def exMutTodosId : QueryRecord :=
  exRecord Relation.invalidates ("invalidateQueries") ("a.ts") 4
    { id := "todos|$id", display := "[todos, $id]",
      segments := ["todos", "$id"], matchMode := MatchMode.pfx,
      resolution := Resolution.dynamic, source := KeySource.expression }

/-- C1 counterexample fixture: a declared key whose suffix segment failed
to resolve (`[todos, UNRESOLVED]`). -/
def exDeclTodosUnresolved : QueryRecord :=
  exRecord Relation.declares ("useQuery") ("a.ts") 5
    { id := "todos|UNRESOLVED", display := "[todos, UNRESOLVED]",
      segments := ["todos", "UNRESOLVED"], matchMode := MatchMode.exact,
      resolution := Resolution.dynamic, source := KeySource.expression }

/-- C1 exact-mode fixture: `[todos]` in exact mode. -/
def exMutTodosExact : QueryRecord :=
  exRecord Relation.invalidates ("invalidateQueries") ("a.ts") 6
    (exLitKey ["todos"] MatchMode.exact)

/-- C2 fixtures: scopes "beta" (file fa.ts) and "alpha" (file fb.ts) both
declare `[items]`; a wildcard clear is recorded under "beta". -/
def exEnvC2 : GraphEnv :=
  exScopedEnv [("fa.ts", "beta"), ("fb.ts", "alpha")]

def exDeclItemsA : QueryRecord :=
  exRecord Relation.declares ("useQuery") ("fa.ts") 1
    (exLitKey ["items"] MatchMode.exact)

def exDeclItemsB : QueryRecord :=
  exRecord Relation.declares ("useQuery") ("fb.ts") 1
    (exLitKey ["items"] MatchMode.exact)

def exClearA : QueryRecord :=
  exRecord Relation.clears ("clear") ("fa.ts") 2
    (buildAllQueryCacheKey Resolution.static ("ALL_QUERY_CACHE (clear all)"))

def exRecordsC2 : List QueryRecord := [exDeclItemsA, exDeclItemsB, exClearA]

/-- C3 fixtures: a declared `[todos]` key plus an unresolved pass-through
mutation; the pass-through key must be pruned. -/
def exDeclTodos : QueryRecord :=
  exRecord Relation.declares ("useQuery") ("a.ts") 1
    (exLitKey ["todos"] MatchMode.exact)

def exMutPassThrough : QueryRecord :=
  exRecord Relation.invalidates ("invalidateQueries") ("a.ts") 7
    (buildPassThroughActionKey MatchMode.pfx)

/-- C4 fixtures: a concrete `[orphan]` key that matches no declaration,
mutated once by `invalidateQueries` and once by `setQueryData`. -/
def exMutOrphan : QueryRecord :=
  exRecord Relation.invalidates ("invalidateQueries") ("a.ts") 8
    (exLitKey ["orphan"] MatchMode.pfx)

def exSetOrphan : QueryRecord :=
  exRecord Relation.sets ("setQueryData") ("a.ts") 9
    (exLitKey ["orphan"] MatchMode.exact)

/-- C5 fixtures: object-literal keys. -/
def exPropsAB : List ObjProp :=
  [ObjProp.prop (Expr.ident "a") false (Expr.numLit 1),
   ObjProp.prop (Expr.ident "b") false (Expr.numLit 2)]

def exObjAB : Expr := Expr.objectLit exPropsAB

def exPropsBA : List ObjProp :=
  [ObjProp.prop (Expr.ident "b") false (Expr.numLit 2),
   ObjProp.prop (Expr.ident "a") false (Expr.numLit 1)]

def exObjBA : Expr := Expr.objectLit exPropsBA

def exPropsAUndef : List ObjProp :=
  [ObjProp.prop (Expr.ident "a") false (Expr.numLit 1),
   ObjProp.prop (Expr.ident "b") false (Expr.ident "undefined")]

def exObjAUndef : Expr := Expr.objectLit exPropsAUndef

def exPropsA : List ObjProp :=
  [ObjProp.prop (Expr.ident "a") false (Expr.numLit 1)]

def exObjA : Expr := Expr.objectLit exPropsA

/-- C5 counterexample fixtures: the same two properties with a duplicated
name `a`, written in the two orders. -/
def exPropsDupA12 : List ObjProp :=
  [ObjProp.prop (Expr.ident "a") false (Expr.numLit 1),
   ObjProp.prop (Expr.ident "a") false (Expr.numLit 2)]

def exObjDupA12 : Expr := Expr.objectLit exPropsDupA12

def exPropsDupA21 : List ObjProp :=
  [ObjProp.prop (Expr.ident "a") false (Expr.numLit 2),
   ObjProp.prop (Expr.ident "a") false (Expr.numLit 1)]

def exObjDupA21 : Expr := Expr.objectLit exPropsDupA21

/-- C5 fixtures: string-literal keys `""` and `"expr"` — distinct names,
no spread, no computed key, yet both key texts normalize to the
`UNRESOLVED` placeholder (`normalizeSegmentResult` replaces an empty
text and the literal text `expr`), so they collide in the canonical
map. -/
def exPropsS12 : List ObjProp :=
  [ObjProp.prop (Expr.strLit "") false (Expr.numLit 1),
   ObjProp.prop (Expr.strLit "expr") false (Expr.numLit 2)]

def exObjS12 : Expr := Expr.objectLit exPropsS12

def exPropsS21 : List ObjProp :=
  [ObjProp.prop (Expr.strLit "expr") false (Expr.numLit 2),
   ObjProp.prop (Expr.strLit "") false (Expr.numLit 1)]

def exObjS21 : Expr := Expr.objectLit exPropsS21

/-- The region named by claim C5's wording "no spread and no computed
property": every property is an ordinary, non-computed object property.
This definition follows the claim's words (not the source) and exists
only to state that a counterexample lies inside the claimed region. -/
def noSpreadNoComputed (props : List ObjProp) : Bool :=
  props.all fun p =>
    match p with
    | ObjProp.prop _ c _ => !c
    | _ => false

/-- The syntactic key name of an ordinary non-computed property whose
key is an identifier or a string literal (the claim's "key name"). -/
def syntacticKeyName : ObjProp → Option String :=
  fun p =>
    match p with
    | ObjProp.prop (Expr.ident n) false _ => some n
    | ObjProp.prop (Expr.strLit s) false _ => some s
    | _ => none

/-- An object property list is "plain" when every property is a
non-computed identifier-keyed ordinary property: no spread, no computed
key, no method. -/
def plainProps : List ObjProp → Prop
  | [] => True
  | ObjProp.prop (Expr.ident _) false _ :: rest => plainProps rest
  | _ => False

/-- The identifier key names of a property list (other shapes skipped). -/
def propKeyNames : List ObjProp → List String
  | [] => []
  | ObjProp.prop (Expr.ident n) _ _ :: rest => n :: propKeyNames rest
  | _ :: rest => propKeyNames rest

/-- C9 fixtures: options objects for `invalidateQueries`. -/
def exPropsExactTrue : List ObjProp :=
  [ObjProp.prop (Expr.ident "queryKey") false
     (Expr.arrayLit [ArrayElem.elem (Expr.strLit "todos")]),
   ObjProp.prop (Expr.ident "exact") false (Expr.boolLit true)]

def exOptsExactTrue : Expr := Expr.objectLit exPropsExactTrue

def exPropsNoExact : List ObjProp :=
  [ObjProp.prop (Expr.ident "queryKey") false
     (Expr.arrayLit [ArrayElem.elem (Expr.strLit "todos")])]

def exOptsNoExact : Expr := Expr.objectLit exPropsNoExact

/-- C9 counterexample fixture: `exact: true` together with an empty
`queryKey` array (which degenerates to the all-cache wildcard). -/
def exPropsExactEmptyKey : List ObjProp :=
  [ObjProp.prop (Expr.ident "queryKey") false (Expr.arrayLit []),
   ObjProp.prop (Expr.ident "exact") false (Expr.boolLit true)]

def exOptsExactEmptyKey : Expr := Expr.objectLit exPropsExactEmptyKey

/-- C9 predicate fixture: `(q) => q.queryKey[0] === "todos"`. -/
def exPredFn : Expr := Expr.arrowFn (FnBody.expr
  (Expr.binary "===" (Expr.member (Expr.member (Expr.ident "q") (Expr.ident "queryKey") false) (Expr.numLit 0) true) (Expr.strLit "todos")))

def exOptsPredExact : Expr := Expr.objectLit
  [ObjProp.prop (Expr.ident "predicate") false exPredFn,
   ObjProp.prop (Expr.ident "exact") false (Expr.boolLit true)]

/-- C8 fixtures: two files whose import / re-export chain is cyclic for
the name `a`: f1 imports `a` from f2's export `x`, and f2 re-exports `x`
from f1's own export `a`. -/
def exF1Symbols : FileSymbols :=
  { filePath := "f1.ts",
    imports := [("a", { kind := ImportKind.named, source := "./f2", imported := some "x" })],
    exports := [("a", "a")] }

def exF2Symbols : FileSymbols :=
  { filePath := "f2.ts",
    reExports := [{ source := "./f1", imported := some "a", exported := some "x", all := false }] }

def exCyclicIndex : SymbolIndex :=
  { files := [("f1.ts", exF1Symbols), ("f2.ts", exF2Symbols)] }

/-- Module resolution for the cyclic fixture. -/
def exCyclicResolve : String → String → Option String := fun _ source =>
  if source = "./f1" then some ("f1.ts")
  else if source = "./f2" then some ("f2.ts")
  else none

/-! # Theorems

Helper lemmas come first; every claim theorem is marked with its claim id.
Totality of every embedded function — in particular of the depth-bounded
resolver cluster — is established by the definitions themselves being
accepted as terminating. -/

theorem normalizeQueryKey_id_eq_keyIdOfSegments (e : Expr)
    (o : NormalizeOptions) (r : Option QueryKeyResolver) :
    (normalizeQueryKey (some e) o r).id =
      keyIdOfSegments (normalizeQueryKey (some e) o r).segments := by
  simp only [normalizeQueryKey]
  split
  · rfl
  · by_cases h :
      (normalizeSegmentResult (segmentFromExpression
        ((resolveQueryKeyExpression e r MAX_RESOLVE_DEPTH).getD (unwrapExpression e))
        r MAX_RESOLVE_DEPTH)).text = ""
    · simp only [h, if_pos, if_true, keyIdOfSegments]
      rfl
    · simp only [h, if_neg, if_false, keyIdOfSegments]
      rw [show String.intercalate "|"
        [(normalizeSegmentResult (segmentFromExpression
          ((resolveQueryKeyExpression e r MAX_RESOLVE_DEPTH).getD (unwrapExpression e))
          r MAX_RESOLVE_DEPTH)).text] =
        (normalizeSegmentResult (segmentFromExpression
          ((resolveQueryKeyExpression e r MAX_RESOLVE_DEPTH).getD (unwrapExpression e))
          r MAX_RESOLVE_DEPTH)).text from rfl]
      simp [h]

/-- C6: the certainty merge operation is a monotone lattice join:
merge(static, static) = static, dynamic absorbs on either side, and merge
is commutative and idempotent. -/
theorem C6_mergeResolution_lattice :
    mergeResolution Resolution.static Resolution.static = Resolution.static ∧
    (∀ a, mergeResolution a Resolution.dynamic = Resolution.dynamic) ∧
    (∀ b, mergeResolution Resolution.dynamic b = Resolution.dynamic) ∧
    (∀ a b, mergeResolution a b = mergeResolution b a) ∧
    (∀ a, mergeResolution a a = a) := by
  refine ⟨rfl, ?_, ?_, ?_, ?_⟩
  · intro a; cases a <;> rfl
  · intro b; cases b <;> rfl
  · intro a b; cases a <;> cases b <;> rfl
  · intro a; cases a <;> rfl

/-- C7: `normalizeQueryKey` is a pure function, so two calls on the same
expression are definitionally identical; the substantive invariant proved
here is that the produced `id` is a function of the produced `segments`
alone — any two normalizations (of any expressions, under any options and
any resolver) that emit the same segment list emit the same id. -/
theorem C7_id_pure_function_of_segments
    (e1 e2 : Expr) (o1 o2 : NormalizeOptions)
    (r1 r2 : Option QueryKeyResolver)
    (h : (normalizeQueryKey (some e1) o1 r1).segments =
      (normalizeQueryKey (some e2) o2 r2).segments) :
    (normalizeQueryKey (some e1) o1 r1).id =
      (normalizeQueryKey (some e2) o2 r2).id := by
  rw [normalizeQueryKey_id_eq_keyIdOfSegments, normalizeQueryKey_id_eq_keyIdOfSegments, h]

theorem normalizeQueryKey_segments_const_options (e : Expr)
    (o1 o2 : NormalizeOptions) (r : Option QueryKeyResolver) :
    (normalizeQueryKey (some e) o1 r).segments =
      (normalizeQueryKey (some e) o2 r).segments := by
  simp only [normalizeQueryKey]
  generalize ((resolveQueryKeyExpression e r MAX_RESOLVE_DEPTH).getD
    (unwrapExpression e)) = s
  cases s <;> rfl

theorem C7_witness :
    (normalizeQueryKey (some (Expr.strLit "todos")) {} none).id =
      (normalizeQueryKey (some (Expr.strLit "todos"))
        { defaultMode := some MatchMode.pfx } none).id :=
  C7_id_pure_function_of_segments (Expr.strLit "todos") (Expr.strLit "todos") {}
    { defaultMode := some MatchMode.pfx } none none
    (normalizeQueryKey_segments_const_options (Expr.strLit "todos") {}
      { defaultMode := some MatchMode.pfx } none)

/-- C8: the reference and call-result resolvers are total and bounded.
The depth cap is `MAX_DEPTH = 24` (the public wrappers start at depth 0,
giving 25 executing levels, matching the spec's "cap ≈ 24–25"); an
exhausted budget and a revisited `(file, binding)` key both yield the
explicit unresolved result `none` instead of diverging or guessing, and on
a concrete cyclic import / re-export chain both resolvers return `none`.
Totality over every index, module resolution and expression — including
cyclic ones — holds because the cluster is defined by well-founded
recursion on the budget. -/
theorem C8_resolver_total_and_bounded :
    MAX_DEPTH = 24 ∧ MAX_RESOLVE_DEPTH = 25 ∧
    (∀ index moduleResolve fromFile expression seen,
      resolveReferenceInternal index moduleResolve fromFile expression 0 seen = none) ∧
    (∀ index moduleResolve fromFile callee seen,
      resolveCallResultInternal index moduleResolve fromFile callee 0 seen = none) ∧
    (∀ index moduleResolve fromFile localName seen gas,
      ("local-value:" ++ fromFile ++ ":" ++ localName) ∈ seen →
      resolveLocalValue index moduleResolve fromFile localName seen gas = none) ∧
    resolveReference exCyclicIndex exCyclicResolve ("f1.ts") (Expr.ident "a") = none ∧
    resolveCallResult exCyclicIndex exCyclicResolve ("f1.ts") (Expr.ident "a") = none := by
  refine ⟨rfl, rfl, ?_, ?_, ?_, ?_, ?_⟩
  · intro index moduleResolve fromFile expression seen
    simp only [resolveReferenceInternal]
  · intro index moduleResolve fromFile callee seen
    simp only [resolveCallResultInternal]
  · intro index moduleResolve fromFile localName seen gas hmem
    cases gas with
    | zero => simp only [resolveLocalValue]
    | succ g =>
      unfold resolveLocalValue
      simp [hmem]
  · simp +decide [resolveReference, resolveReferenceInternal, resolveLocalValue,
      resolveImportedValue, resolveExportValue, goReExportsValue,
      resolveLocalFunctionReturn, resolveImportedFunctionReturn,
      resolveExportFunctionReturn, goReExportsFunctionReturn,
      resolveNamespaceMember, propertyNameFromMemberExpr,
      expressionToLiteralString, resolveWorkspaceFunctionReturnByName,
      mapGet, exCyclicIndex, exCyclicResolve, exF1Symbols, exF2Symbols,
      MAX_DEPTH, unwrapExpression, extractFunctionReturnExpression]
  · simp +decide [resolveCallResult, resolveCallResultInternal,
      resolveReferenceInternal, resolveLocalValue,
      resolveImportedValue, resolveExportValue, goReExportsValue,
      resolveLocalFunctionReturn, resolveImportedFunctionReturn,
      resolveExportFunctionReturn, goReExportsFunctionReturn,
      resolveNamespaceMember, propertyNameFromMemberExpr,
      expressionToLiteralString, resolveWorkspaceFunctionReturnByName,
      mapGet, exCyclicIndex, exCyclicResolve, exF1Symbols, exF2Symbols,
      MAX_DEPTH, unwrapExpression, extractFunctionReturnExpression]

theorem C8_witness :
    ("local-value:f1.ts:a" ∈ ["local-value:f1.ts:a"]) ∧
    resolveLocalValue exCyclicIndex exCyclicResolve ("f1.ts") ("a")
      ["local-value:f1.ts:a"] 7 = none :=
  ⟨by decide,
   C8_resolver_total_and_bounded.2.2.2.2.1 exCyclicIndex exCyclicResolve
     ("f1.ts") ("a") ["local-value:f1.ts:a"] 7 (by decide)⟩


/-! ### Evaluation lemmas for the depth-bounded normalizer cluster

The cluster is defined by well-founded recursion, so its equations do not
reduce definitionally; these lemmas characterise single steps on the
constructor shapes the concrete fixtures need. -/

theorem resolveWithResolver_none (node : Expr) (fuel : Nat) :
    resolveWithResolver node none fuel = none := rfl

theorem resolveQueryKeyExpression_strLit (s : String) (f : Nat) :
    resolveQueryKeyExpression (Expr.strLit s) none (f + 1) =
      some (Expr.strLit s) := by
  rw [resolveQueryKeyExpression.eq_def]
  rfl

theorem resolveQueryKeyExpression_numLit (n : Int) (f : Nat) :
    resolveQueryKeyExpression (Expr.numLit n) none (f + 1) =
      some (Expr.numLit n) := by
  rw [resolveQueryKeyExpression.eq_def]
  rfl

theorem resolveQueryKeyExpression_arrayLit (es : List ArrayElem) (f : Nat) :
    resolveQueryKeyExpression (Expr.arrayLit es) none (f + 1) =
      some (Expr.arrayLit es) := by
  rw [resolveQueryKeyExpression.eq_def]
  rfl

theorem resolveActionOptionsObject_objectLit (props : List ObjProp)
    (r : Option QueryKeyResolver) (f : Nat) :
    resolveActionOptionsObject (Expr.objectLit props) r (f + 1) = some props := by
  rw [resolveActionOptionsObject.eq_def]
  rfl

theorem segmentFromExpression_strLit (s : String) (f : Nat) :
    segmentFromExpression (Expr.strLit s) none (f + 1) =
      { text := s, isStatic := true } := by
  rw [segmentFromExpression.eq_def]
  rfl

theorem segmentFromExpression_numLit (n : Int) (f : Nat) :
    segmentFromExpression (Expr.numLit n) none (f + 1) =
      { text := toString n, isStatic := true } := by
  rw [segmentFromExpression.eq_def]
  rfl

theorem segmentsFromArrayElement_elem (e : Expr) (f : Nat) :
    segmentsFromArrayElement (ArrayElem.elem e) none (f + 1) =
      [normalizeSegmentResult (segmentFromExpression e none f)] := by
  rw [segmentsFromArrayElement.eq_def]

/-- With an explicit default mode, both branches of the normalizer emit
exactly that match mode. -/
theorem normalizeQueryKey_matchMode (e : Expr) (m : MatchMode) (b : Bool)
    (r : Option QueryKeyResolver) :
    (normalizeQueryKey (some e) { defaultMode := some m, wildcardIfMissing := b }
      r).matchMode = m := by
  simp only [normalizeQueryKey]
  generalize ((resolveQueryKeyExpression e r MAX_RESOLVE_DEPTH).getD
    (unwrapExpression e)) = s
  cases s <;> rfl

/-- C9 counterexample: an options object that carries `exact: true` and a
`queryKey` property (the empty array) nevertheless produces match mode
`all`, not `exact` — the empty key degenerates to the all-cache wildcard. -/
theorem C9_counterexample :
    readBooleanProperty exPropsExactEmptyKey "exact" = some true ∧
    (findObjectPropertyValue exPropsExactEmptyKey "queryKey").isSome = true ∧
    resolveActionOptionsObject exOptsExactEmptyKey none MAX_RESOLVE_DEPTH =
      some exPropsExactEmptyKey ∧
    (inferActionQueryKey "invalidateQueries" [ArrayElem.elem exOptsExactEmptyKey]
      none).matchMode = MatchMode.all := by
  refine ⟨rfl, rfl, ?_, ?_⟩
  · simp [exOptsExactEmptyKey, MAX_RESOLVE_DEPTH, resolveActionOptionsObject_objectLit]
  · simp +decide [inferActionQueryKey, MAX_RESOLVE_DEPTH, exOptsExactEmptyKey,
      resolveActionOptionsObject_objectLit, exPropsExactEmptyKey,
      findObjectPropertyValue, readBooleanProperty, normalizeActionKeyOrWildcard,
      normalizeQueryKey, resolveQueryKeyExpression_arrayLit,
      isPassThroughQueryKeyReference, shouldTreatAsWildcardActionKey,
      buildAllQueryCacheKey, buildPassThroughActionKey, unwrapExpression,
      UNRESOLVED_SEGMENT, ALL_QUERY_CACHE_ID, ALL_QUERY_CACHE_SEGMENT]

/-- C9 (amended): for a mutation call whose first argument resolves to an
options object with a `queryKey` property, the key is normalized under
default mode `exact` exactly when the object carries `exact: true` and
under `prefix` otherwise; that default mode is the resulting match mode
unless the key degenerates to the all-cache wildcard (empty or unresolved
key), which forces mode `all`; and a key inferred from a `predicate`
function is narrowed to `exact` when the `exact` flag is true. -/
theorem C9_exact_flag_amended :
    (∀ method first props k, method ≠ "clear" → method ≠ "setQueryData" →
      resolveActionOptionsObject first none MAX_RESOLVE_DEPTH = some props →
      findObjectPropertyValue props "queryKey" = some k →
      inferActionQueryKey method [ArrayElem.elem first] none =
        normalizeActionKeyOrWildcard (some k)
          { defaultMode := some (if readBooleanProperty props "exact" = some true
              then MatchMode.exact else MatchMode.pfx) } none) ∧
    (∀ k m r,
      (normalizeActionKeyOrWildcard (some k) { defaultMode := some m } r).matchMode
          = m ∨
        normalizeActionKeyOrWildcard (some k) { defaultMode := some m } r =
          buildAllQueryCacheKey Resolution.dynamic
            ("ALL_QUERY_CACHE (unresolved key)")) ∧
    (∀ method first props p nk, method ≠ "clear" → method ≠ "setQueryData" →
      resolveActionOptionsObject first none MAX_RESOLVE_DEPTH = some props →
      findObjectPropertyValue props "queryKey" = none →
      findObjectPropertyValue props "predicate" = some p →
      inferActionQueryKeyFromPredicate p none = some nk →
      readBooleanProperty props "exact" = some true →
      inferActionQueryKey method [ArrayElem.elem first] none =
        { nk with matchMode := MatchMode.exact }) := by
  refine ⟨?_, ?_, ?_⟩
  · intro method first props k hm hs hr hk
    simp [inferActionQueryKey, hm, hs, hr, hk]
  · intro k m r
    simp only [normalizeActionKeyOrWildcard]
    split
    · exact Or.inl rfl
    · split
      · split
        · exact Or.inl rfl
        · exact Or.inr rfl
      · exact Or.inl (normalizeQueryKey_matchMode k m false r)
  · intro method first props p nk hm hs hr hk hp hi hx
    simp [inferActionQueryKey, hm, hs, hr, hk, hp, hi, hx]

/-- C9 witness: `{ queryKey: ["todos"], exact: true }` takes the
amended theorem's main branch with default mode `exact`. -/
theorem C9_witness :
    inferActionQueryKey "invalidateQueries" [ArrayElem.elem exOptsExactTrue]
        none =
      normalizeActionKeyOrWildcard
        (some (Expr.arrayLit [ArrayElem.elem (Expr.strLit "todos")]))
        { defaultMode := some (if readBooleanProperty exPropsExactTrue "exact"
            = some true then MatchMode.exact else MatchMode.pfx) } none :=
  C9_exact_flag_amended.1 ("invalidateQueries") exOptsExactTrue exPropsExactTrue
    (Expr.arrayLit [ArrayElem.elem (Expr.strLit "todos")])
    (by decide) (by decide)
    (by simp [exOptsExactTrue, MAX_RESOLVE_DEPTH, resolveActionOptionsObject_objectLit])
    rfl


/-- C1 counterexample: the declared key `[todos, UNRESOLVED]` begins with
`todos`, the mutation key `[todos, $id]` is concrete and in prefix mode,
yet it does not link: comparable-normalization drops the declared
`UNRESOLVED` suffix before matching, so the two-segment mutation key is
not a prefix of the one surviving declared segment, and in the assembled
graph the mutation produces no edge to any queryKey node at all. -/
theorem C1_counterexample :
    exDeclTodosUnresolved.queryKey.segments = ["todos", "UNRESOLVED"] ∧
    exMutTodosId.queryKey.segments = ["todos", "$id"] ∧
    exMutTodosId.queryKey.matchMode = MatchMode.pfx ∧
    isDynamicSegment ("$id") = true ∧
    actionAffectsDeclaredQueryKey exMutTodosId.queryKey
      exDeclTodosUnresolved.queryKey = false ∧
    ((buildGraph exEnv [exDeclTodosUnresolved, exMutTodosId] []).edges.filter
      (fun e => e.relation = Relation.invalidates ∧
        strStartsWith e.target ("qk:"))).map (fun e => e.target) = [] := by
  decide

/-- C1 (amended): for non-declaration records with a concrete key, both
match modes compare the comparable-normalized segment lists (empty and
`UNRESOLVED` segments are dropped from BOTH sides first): when no segment
is dropped, prefix mode links exactly the declared keys whose segments the
mutation's segments are a compatible prefix of (or whose id coincides),
exact mode additionally requires equal count, a dynamic segment is
compatible with anything, every pass-2 target of a non-wildcard mutation
is either a same-scope compatible declared node or the mutation key's own
node, and the spec's concrete examples hold: `[todos]` links to
`[todos, list]`, `[todos, detail]` does not, exact-mode `[todos]` does
not. -/
theorem C1_prefix_matching_amended :
    (∀ a d : NormalizedQueryKey, a.id ≠ "pass-through-query-key" →
      a.source ≠ KeySource.wildcard → a.matchMode = MatchMode.pfx →
      normalizeComparableSegments a = a.segments →
      normalizeComparableSegments d = d.segments →
      a.segments ≠ [] → d.segments ≠ [] →
      (actionAffectsDeclaredQueryKey a d = true ↔
        a.id = d.id ∨ hasPrefixSegments a.segments d.segments = true)) ∧
    (∀ a d : NormalizedQueryKey, a.id ≠ "pass-through-query-key" →
      a.source ≠ KeySource.wildcard → a.matchMode = MatchMode.exact →
      normalizeComparableSegments a = a.segments →
      normalizeComparableSegments d = d.segments →
      a.segments ≠ [] → d.segments ≠ [] →
      (actionAffectsDeclaredQueryKey a d = true ↔
        a.id = d.id ∨ (a.segments.length = d.segments.length ∧
          hasPrefixSegments a.segments d.segments = true))) ∧
    (∀ p v, isDynamicSegment p = true ∨ isDynamicSegment v = true →
      segmentsCompatible p v = true) ∧
    (∀ st p own t, p.relation ≠ Relation.declares → p.wildcard = false →
      p.queryKeyNodeId = some own → t ∈ pendingTargets st p →
      (t ∈ st.declaredQueryNodeIds ∧
        p.projectScope ∈ (mapGet st.declaredQueryProjectsByNodeId t).getD [] ∧
        ∃ d, mapGet st.declaredQueryKeyByNodeId t = some d ∧
          actionAffectsDeclaredQueryKey p.queryKey d = true) ∨ t = own) ∧
    (actionAffectsDeclaredQueryKey exMutTodos.queryKey
        exDeclTodosList.queryKey = true ∧
      actionAffectsDeclaredQueryKey exMutTodosDetail.queryKey
        exDeclTodosList.queryKey = false ∧
      actionAffectsDeclaredQueryKey exMutTodosExact.queryKey
        exDeclTodosList.queryKey = false ∧
      ((buildGraph exEnv [exDeclTodosList, exMutTodos] []).edges.filter
        (fun e => e.relation = Relation.invalidates ∧
          strStartsWith e.target ("qk:"))).map (fun e => e.target) =
        ["qk:todos|list"]) := by
  refine ⟨?_, ?_, ?_, ?_, by decide⟩
  · intro a d hpass hsrc hmode hca hcd hna hnd
    by_cases hid : a.id = d.id
    · have hpass2 : d.id ≠ "pass-through-query-key" := hid ▸ hpass
      simp [actionAffectsDeclaredQueryKey, hpass, hpass2, hsrc, hmode, hid]
    · simp [actionAffectsDeclaredQueryKey, hpass, hsrc, hmode, hid, hca, hcd,
        hna, hnd]
  · intro a d hpass hsrc hmode hca hcd hna hnd
    by_cases hid : a.id = d.id
    · have hpass2 : d.id ≠ "pass-through-query-key" := hid ▸ hpass
      simp [actionAffectsDeclaredQueryKey, hpass, hpass2, hsrc, hmode, hid]
    · simp [actionAffectsDeclaredQueryKey, hpass, hsrc, hmode, hid, hca, hcd,
        hna, hnd]
  · intro p v h
    cases h with
    | inl h => simp [segmentsCompatible, h]
    | inr h => simp [segmentsCompatible, h]
  · intro st p own t hrel hw hqk ht
    simp only [pendingTargets, if_neg hrel, hw, hqk] at ht
    split at ht
    · rename_i hcontra
      exact absurd hcontra (by simp)
    · split at ht
      · simp only [List.mem_filter] at ht
        refine Or.inl ⟨ht.1, ?_⟩
        have hp := ht.2
        split at hp
        · simp at hp
        · rename_i d hmg
          split at hp
          · rename_i hsc
            exact ⟨hsc, d, hmg, hp⟩
          · simp at hp
      · simp at ht
        exact Or.inr ht

/-- C1 witness: the amended prefix-mode characterization applied to the
concrete pair `[todos]` (prefix mutation) vs `[todos, list]` (declared). -/
theorem C1_witness :
    actionAffectsDeclaredQueryKey exMutTodos.queryKey
        exDeclTodosList.queryKey = true ↔
      exMutTodos.queryKey.id = exDeclTodosList.queryKey.id ∨
        hasPrefixSegments exMutTodos.queryKey.segments
          exDeclTodosList.queryKey.segments = true :=
  C1_prefix_matching_amended.1 exMutTodos.queryKey exDeclTodosList.queryKey
    (by decide) (by decide) (by decide) (by decide) (by decide) (by decide)
    (by decide)


/-- C2 helper fixtures: a declaration of `[other]` under scope "alpha"
only, and the pass-1 state / pending pair of the two-scope scenario. -/
def exDeclOtherB : QueryRecord :=
  exRecord Relation.declares ("useQuery") ("fb.ts") 2
    (exLitKey ["other"] MatchMode.exact)

def exStC2 : Pass1State :=
  { declaredQueryNodeIds := ["qk:items", "qk:other"],
    declaredQueryProjectsByNodeId := [("qk:items", ["beta", "alpha"]),
      ("qk:other", ["alpha"])] }

def exPendClearBeta : Pending :=
  { actionNodeId := "action:fa.ts:2:1:clear:2", operation := "clear",
    relation := Relation.clears, resolution := Resolution.static,
    file := "fa.ts", projectScope := "beta",
    queryKey := buildAllQueryCacheKey Resolution.static
      ("ALL_QUERY_CACHE (clear all)"),
    wildcard := true, queryKeyNodeId := none }

/-- C2 counterexample: scopes "beta" (fa.ts) and "alpha" (fb.ts) both
declare `[items]`; because query-key node ids are `"qk:" ++ id` with no
scope component, only ONE `[items]` node exists, it carries project scope
"alpha" (scope B), both declarations' edges land on it, and the wildcard
clear recorded under scope "beta" produces its edge to that same shared
node — the edge therefore does reach scope B's `[items]` node, refuting
strict scope isolation of nodes. -/
theorem C2_counterexample :
    exEnvC2.scopeOf ("fa.ts") = "beta" ∧ exEnvC2.scopeOf ("fb.ts") = "alpha" ∧
    ((buildGraph exEnvC2 exRecordsC2 []).nodes.filter
      (fun n => n.kind = NodeKind.queryKey)).map (fun n => n.id) =
        ["qk:items"] ∧
    ((buildGraph exEnvC2 exRecordsC2 []).nodes.filter
      (fun n => n.id = "qk:items")).map (fun n => n.metrics.projectScope) =
        [some ("alpha")] ∧
    ((buildGraph exEnvC2 exRecordsC2 []).edges.filter
      (fun e => e.source = "action:fb.ts:1:1:useQuery:1")).map
        (fun e => e.target) = ["qk:items"] ∧
    ((buildGraph exEnvC2 exRecordsC2 []).edges.filter
      (fun e => e.source = "action:fa.ts:2:1:clear:2" ∧
        strStartsWith e.target ("qk:"))).map (fun e => e.target) =
      ["qk:items"] := by
  decide

/-- C2 (amended): a wildcard (all / clear / predicate-without-constraint)
record links exactly to the declared query-key nodes whose recorded
project-scope list contains the record's own project scope; however nodes
are keyed by `"qk:" ++ key.id` with no scope component, so two scopes
declaring the same key share one node, and a wildcard under either scope
links to the shared node.  Concretely, a wildcard under "beta" links to
the shared `[items]` node but not to the `[other]` node declared only
under "alpha". -/
theorem C2_scope_isolation_amended :
    (∀ st p, p.relation ≠ Relation.declares → p.wildcard = true →
      pendingTargets st p = st.declaredQueryNodeIds.filter
        (fun queryKeyNodeId => p.projectScope ∈
          (mapGet st.declaredQueryProjectsByNodeId queryKeyNodeId).getD [])) ∧
    (∀ env r i, (pendingOf env r i).queryKeyNodeId =
      (if isWildcardQueryKey r then none
       else some (makeQueryKeyNodeId r.queryKey.id))) ∧
    ((buildGraph exEnvC2 [exDeclItemsA, exDeclOtherB, exClearA] []).edges.filter
      (fun e => e.source = "action:fa.ts:2:1:clear:2" ∧
        strStartsWith e.target ("qk:"))).map (fun e => e.target) =
      ["qk:items"] := by
  refine ⟨?_, fun env r i => rfl, by decide⟩
  intro st p hrel hw
  unfold pendingTargets
  rw [if_neg hrel, hw]
  rfl

/-- C2 witness: the wildcard-target rule applied to the two-scope state —
the "beta" wildcard selects exactly the shared `[items]` node and not the
"alpha"-only `[other]` node. -/
theorem C2_witness :
    pendingTargets exStC2 exPendClearBeta = ["qk:items"] :=
  (C2_scope_isolation_amended.1 exStC2 exPendClearBeta (by decide) rfl).trans
    (by decide)


/-- C4 counterexample: the concrete prefix-mode key `[orphan]` matches no
declared key, so pass 2 does link its `invalidateQueries` record to the
key's own node `qk:orphan` — but that node is NOT preserved: it is backed
by no `declares` record and no `sets` record, so pruning removes it and
its incident edge from the final graph, dropping the dangling observation
the claim promises to keep. -/
theorem C4_counterexample :
    pendingTargets (runPass1 exEnv [exDeclTodos, exMutOrphan])
      (pendingOf exEnv exMutOrphan 1) = ["qk:orphan"] ∧
    ((buildGraph exEnv [exDeclTodos, exMutOrphan] []).nodes.filter
      (fun n => n.id = "qk:orphan")).length = 0 ∧
    ((buildGraph exEnv [exDeclTodos, exMutOrphan] []).edges.filter
      (fun e => e.target = "qk:orphan")).length = 0 := by
  decide

/-- C4 (amended): a non-declaration, non-wildcard record whose key matches
no declared key (the pass-2 match filter over the declared nodes comes up
empty) is linked to the key's own node; that node survives into the final
graph only when some record anchors it — in particular a concrete
`setQueryData` key is preserved together with its edge, while a key seen
only by `invalidateQueries` is pruned with its edge (the counterexample
above). -/
theorem C4_dangling_amended :
    (∀ st p own, p.relation ≠ Relation.declares → p.wildcard = false →
      p.queryKeyNodeId = some own →
      st.declaredQueryNodeIds.filter (fun queryKeyNodeId =>
        match mapGet st.declaredQueryKeyByNodeId queryKeyNodeId with
        | none => false
        | some declaredQueryKey =>
          if p.projectScope ∈
              (mapGet st.declaredQueryProjectsByNodeId queryKeyNodeId).getD [] then
            actionAffectsDeclaredQueryKey p.queryKey declaredQueryKey
          else false) = [] →
      pendingTargets st p = [own]) ∧
    (((buildGraph exEnv [exSetOrphan] []).nodes.filter
      (fun n => n.id = "qk:orphan")).map (fun n => n.id) = ["qk:orphan"] ∧
    ((buildGraph exEnv [exSetOrphan] []).edges.filter
      (fun e => e.target = "qk:orphan")).length = 1) := by
  refine ⟨?_, by decide⟩
  intro st p own hrel hw hqk hfilter
  simp only [pendingTargets, if_neg hrel, hw, hqk, hfilter]
  rfl

/-- C4 witness: the no-match linking rule applied to the concrete
`[orphan]` mutation — its pass-2 target list is exactly its own node. -/
theorem C4_witness :
    pendingTargets (runPass1 exEnv [exDeclTodos, exMutOrphan])
      (pendingOf exEnv exMutOrphan 1) = ["qk:orphan"] :=
  C4_dangling_amended.1 (runPass1 exEnv [exDeclTodos, exMutOrphan])
    (pendingOf exEnv exMutOrphan 1) ("qk:orphan")
    (by decide) (by decide) (by decide) (by decide)


/-- The final metrics rewrite touches only metrics: node ids survive. -/
theorem finalNodesOf_ids (st1 : Pass1State) (st2 : Pass2State) :
    (finalNodesOf st1 st2).map (fun n => n.id) =
      (prunedNodesOf st1 st2).map (fun n => n.id) := by
  unfold finalNodesOf
  rw [List.map_map]
  apply List.map_congr_left
  intro n hn
  simp only [Function.comp]
  split
  · rfl
  · split
    · rfl
    · rfl

/-- C10: in every graph `buildGraph` returns, each edge's source and
target ids name nodes of the returned node set (pruning a node removes its
incident edges), and the summary counts equal the number of surviving
nodes of each kind and the length of the returned parse-error list. -/
theorem C10_graph_invariants (env : GraphEnv) (records : List QueryRecord)
    (parseErrors : List ParseError) :
    (∀ e ∈ (buildGraph env records parseErrors).edges,
      e.source ∈ (buildGraph env records parseErrors).nodes.map
        (fun n => n.id) ∧
      e.target ∈ (buildGraph env records parseErrors).nodes.map
        (fun n => n.id)) ∧
    (buildGraph env records parseErrors).summary.files =
      ((buildGraph env records parseErrors).nodes.filter
        (fun n => n.kind = NodeKind.file)).length ∧
    (buildGraph env records parseErrors).summary.actions =
      ((buildGraph env records parseErrors).nodes.filter
        (fun n => n.kind = NodeKind.action)).length ∧
    (buildGraph env records parseErrors).summary.queryKeys =
      ((buildGraph env records parseErrors).nodes.filter
        (fun n => n.kind = NodeKind.queryKey)).length ∧
    (buildGraph env records parseErrors).summary.parseErrors =
      (buildGraph env records parseErrors).parseErrors.length := by
  refine ⟨?_, rfl, rfl, rfl, rfl⟩
  intro e he
  have he2 : e ∈ keptEdgesOf (runPass1 env records)
      (runPass2 (runPass1 env records)) := he
  have hn : (buildGraph env records parseErrors).nodes =
      finalNodesOf (runPass1 env records) (runPass2 (runPass1 env records)) := rfl
  rw [hn, finalNodesOf_ids]
  simp only [keptEdgesOf, List.mem_filter, decide_eq_true_eq] at he2
  exact he2.2

/-- The `invalidates` edge of the two-record example graph. -/
def exEdgeC10 : GraphEdge :=
  { id := "action:a.ts:2:1:invalidateQueries:1->qk:todos|list:invalidates",
    source := "action:a.ts:2:1:invalidateQueries:1",
    target := "qk:todos|list",
    relation := Relation.invalidates,
    resolution := Resolution.static }

/-- C10 witness: the concrete `invalidates` edge of the example graph has
both endpoints among the returned node ids. -/
theorem C10_witness :
    exEdgeC10.source ∈ (buildGraph exEnv [exDeclTodosList, exMutTodos]
      []).nodes.map (fun n => n.id) ∧
    exEdgeC10.target ∈ (buildGraph exEnv [exDeclTodosList, exMutTodos]
      []).nodes.map (fun n => n.id) :=
  (C10_graph_invariants exEnv [exDeclTodosList, exMutTodos] []).1 exEdgeC10
    (by decide)


/-! ### Provenance lemmas for C3: which records back a surviving node. -/

theorem mapGet_cons {κ α : Type} [DecidableEq κ] (p : κ × α)
    (m : List (κ × α)) (k : κ) :
    mapGet (p :: m) k = if p.1 = k then some p.2 else mapGet m k := by
  by_cases h : p.1 = k
  · simp [mapGet, List.find?, h]
  · simp [mapGet, List.find?, h]

theorem mapGet_map_upd_ne {κ α : Type} [DecidableEq κ] (m : List (κ × α))
    (k k2 : κ) (v : α) (h : ¬ k = k2) :
    mapGet (m.map (fun p => if p.1 = k then (k, v) else p)) k2 = mapGet m k2 := by
  induction m with
  | nil => rfl
  | cons p m ih =>
    by_cases hp : p.1 = k
    · simp only [List.map_cons, if_pos hp]
      rw [mapGet_cons, mapGet_cons, if_neg h, if_neg (by rw [hp]; exact h)]
      exact ih
    · simp only [List.map_cons, if_neg hp]
      rw [mapGet_cons, mapGet_cons]
      by_cases h2 : p.1 = k2
      · rw [if_pos h2, if_pos h2]
      · rw [if_neg h2, if_neg h2]
        exact ih

theorem mapGet_mapSet {κ α : Type} [DecidableEq κ] (m : List (κ × α))
    (k k2 : κ) (v : α) :
    mapGet (mapSet m k v) k2 = if k2 = k then some v else mapGet m k2 := by
  induction m with
  | nil =>
    have hhas : ¬ mapHas ([] : List (κ × α)) k = true := by
      simp [mapHas, List.find?]
    rw [mapSet, if_neg hhas]
    simp only [List.nil_append]
    rw [mapGet_cons]
    by_cases h : k2 = k
    · rw [if_pos h, if_pos h.symm]
    · rw [if_neg h, if_neg (fun hh => h hh.symm)]
  | cons p m ih =>
    by_cases hp : p.1 = k
    · have hhas : mapHas (p :: m) k = true := by
        simp [mapHas, List.find?, hp]
      rw [mapSet, if_pos hhas]
      simp only [List.map_cons, if_pos hp]
      rw [mapGet_cons, mapGet_cons]
      by_cases h : k2 = k
      · simp [h]
      · have h2 : ¬ k = k2 := fun hh => h hh.symm
        rw [if_neg h2, if_neg h, if_neg (show ¬ p.1 = k2 from by rw [hp]; exact h2)]
        exact mapGet_map_upd_ne m k k2 v h2
    · by_cases hm : mapHas m k
      · have hhas : mapHas (p :: m) k = true := by
          simpa [mapHas, List.find?, hp] using hm
        rw [mapSet, if_pos hhas]
        simp only [List.map_cons, if_neg hp]
        rw [mapGet_cons, mapGet_cons]
        by_cases h2 : p.1 = k2
        · have hk2 : ¬ k2 = k := by
            intro hh
            exact hp (h2.trans hh)
          rw [if_pos h2, if_pos h2, if_neg hk2]
        · rw [if_neg h2, if_neg h2]
          have := ih
          rw [mapSet, if_pos hm] at this
          exact this
      · have hhas : ¬ mapHas (p :: m) k = true := by
          simpa [mapHas, List.find?, hp] using hm
        rw [mapSet, if_neg hhas, List.cons_append]
        rw [mapGet_cons, mapGet_cons]
        by_cases h2 : p.1 = k2
        · have hk2 : ¬ k2 = k := by
            intro hh
            exact hp (h2.trans hh)
          rw [if_pos h2, if_pos h2, if_neg hk2]
        · rw [if_neg h2, if_neg h2]
          have := ih
          rw [mapSet, if_neg hm] at this
          exact this

theorem mem_setAdd (s : List String) (x t : String) :
    t ∈ setAdd s x ↔ t ∈ s ∨ t = x := by
  unfold setAdd
  split
  · rename_i h
    constructor
    · exact Or.inl
    · intro h2
      rcases h2 with h2 | h2
      · exact h2
      · exact h2 ▸ h
  · simp [List.mem_append]

theorem ite_pending (c : Prop) [Decidable c] (a b : Pass1State) :
    (if c then a else b).pending = if c then a.pending else b.pending := by
  by_cases h : c
  · rw [if_pos h, if_pos h]
  · rw [if_neg h, if_neg h]

theorem ite_declared (c : Prop) [Decidable c] (a b : Pass1State) :
    (if c then a else b).declaredQueryNodeIds =
      if c then a.declaredQueryNodeIds else b.declaredQueryNodeIds := by
  by_cases h : c
  · rw [if_pos h, if_pos h]
  · rw [if_neg h, if_neg h]

theorem ite_callsites (c : Prop) [Decidable c] (a b : Pass2State) :
    (if c then a else b).queryKeyToDeclareCallsites =
      if c then a.queryKeyToDeclareCallsites else b.queryKeyToDeclareCallsites := by
  by_cases h : c
  · rw [if_pos h, if_pos h]
  · rw [if_neg h, if_neg h]

theorem ite_setAnchored (c : Prop) [Decidable c] (a b : Pass2State) :
    (if c then a else b).setAnchoredQueryNodeIds =
      if c then a.setAnchoredQueryNodeIds else b.setAnchoredQueryNodeIds := by
  by_cases h : c
  · rw [if_pos h, if_pos h]
  · rw [if_neg h, if_neg h]

theorem ite_nodeKind (c : Prop) [Decidable c] (a b : GraphNode) :
    (if c then a else b).kind = if c then a.kind else b.kind := by
  by_cases h : c
  · rw [if_pos h, if_pos h]
  · rw [if_neg h, if_neg h]

theorem ite_nodeId (c : Prop) [Decidable c] (a b : GraphNode) :
    (if c then a else b).id = if c then a.id else b.id := by
  by_cases h : c
  · rw [if_pos h, if_pos h]
  · rw [if_neg h, if_neg h]

theorem pass1Step_pending_eq (env : GraphEnv) (st : Pass1State)
    (r : QueryRecord) (i : Nat) :
    (pass1Step env st r i).pending = st.pending ++ [pendingOf env r i] := by
  simp only [pass1Step, ite_pending, ite_self]

theorem pass1Step_declared_eq (env : GraphEnv) (st : Pass1State)
    (r : QueryRecord) (i : Nat) :
    (pass1Step env st r i).declaredQueryNodeIds =
      if ¬ isWildcardQueryKey r ∧ isDeclarationAnchorRecord r.relation then
        setAdd st.declaredQueryNodeIds (makeQueryKeyNodeId r.queryKey.id)
      else st.declaredQueryNodeIds := by
  simp only [pass1Step, ite_declared, ite_self]
  split_ifs
  all_goals first | rfl | tauto

theorem mem_enumFrom_snd {α : Type} (l : List α) (n : Nat) (q : Nat × α) :
    q ∈ List.enumFrom n l → q.2 ∈ l := by
  induction l generalizing n with
  | nil => intro h; cases h
  | cons a rest ih =>
    intro h
    simp only [List.enumFrom] at h
    rcases List.mem_cons.mp h with h | h
    · rw [h]
      exact List.mem_cons_self a rest
    · exact List.mem_cons_of_mem a (ih (n + 1) h)

theorem foldPass1_pending (env : GraphEnv) (l : List (Nat × QueryRecord))
    (st : Pass1State) (p : Pending) :
    p ∈ (l.foldl (fun st q => pass1Step env st q.2 q.1) st).pending →
    p ∈ st.pending ∨ ∃ q, q ∈ l ∧ p = pendingOf env q.2 q.1 := by
  induction l generalizing st with
  | nil => exact fun h => Or.inl h
  | cons q rest ih =>
    intro h
    rcases ih _ h with h2 | h2
    · rw [pass1Step_pending_eq] at h2
      rcases List.mem_append.mp h2 with h3 | h3
      · exact Or.inl h3
      · exact Or.inr ⟨q, List.mem_cons_self q rest, by simpa using h3⟩
    · obtain ⟨q2, hq, he⟩ := h2
      exact Or.inr ⟨q2, List.mem_cons_of_mem q hq, he⟩

theorem foldPass1_declared (env : GraphEnv) (l : List (Nat × QueryRecord))
    (st : Pass1State) (t : String) :
    t ∈ (l.foldl (fun st q => pass1Step env st q.2 q.1) st).declaredQueryNodeIds →
    t ∈ st.declaredQueryNodeIds ∨ ∃ q, q ∈ l ∧
      isDeclarationAnchorRecord q.2.relation = true ∧
      isWildcardQueryKey q.2 = false ∧ t = makeQueryKeyNodeId q.2.queryKey.id := by
  induction l generalizing st with
  | nil => exact fun h => Or.inl h
  | cons q rest ih =>
    intro h
    rcases ih _ h with h2 | h2
    · rw [pass1Step_declared_eq] at h2
      split at h2
      · rename_i hc
        rcases (mem_setAdd _ _ _).mp h2 with h3 | h3
        · exact Or.inl h3
        · refine Or.inr ⟨q, List.mem_cons_self q rest, hc.2, ?_, h3⟩
          have := hc.1
          exact Bool.eq_false_iff.mpr this
      · exact Or.inl h2
    · obtain ⟨q2, hq, he⟩ := h2
      exact Or.inr ⟨q2, List.mem_cons_of_mem q hq, he⟩

theorem runPass1_pending_src (env : GraphEnv) (records : List QueryRecord)
    (p : Pending) :
    p ∈ (runPass1 env records).pending →
    ∃ r, r ∈ records ∧ ∃ i, p = pendingOf env r i := by
  intro h
  unfold runPass1 at h
  rcases foldPass1_pending env records.enum {} p h with h2 | h2
  · cases h2
  · obtain ⟨q, hq, he⟩ := h2
    exact ⟨q.2, mem_enumFrom_snd records 0 q (by simpa [List.enum] using hq),
      q.1, he⟩

theorem runPass1_declared_src (env : GraphEnv) (records : List QueryRecord)
    (t : String) :
    t ∈ (runPass1 env records).declaredQueryNodeIds →
    ∃ r, r ∈ records ∧ isDeclarationAnchorRecord r.relation = true ∧
      isWildcardQueryKey r = false ∧ t = makeQueryKeyNodeId r.queryKey.id := by
  intro h
  unfold runPass1 at h
  rcases foldPass1_declared env records.enum {} t h with h2 | h2
  · cases h2
  · obtain ⟨q, hq, he⟩ := h2
    exact ⟨q.2, mem_enumFrom_snd records 0 q (by simpa [List.enum] using hq), he⟩

theorem pass2TargetStep_callsites_eq (p : Pending) (st : Pass2State)
    (target : String) :
    (pass2TargetStep p st target).queryKeyToDeclareCallsites =
      if isDeclarationAnchorRecord p.relation then
        mapSet st.queryKeyToDeclareCallsites target
          (((mapGet st.queryKeyToDeclareCallsites target).getD 0) + 1)
      else st.queryKeyToDeclareCallsites := by
  simp only [pass2TargetStep, ite_callsites, ite_self]

theorem pass2TargetStep_setAnchored_eq (p : Pending) (st : Pass2State)
    (target : String) :
    (pass2TargetStep p st target).setAnchoredQueryNodeIds =
      if p.relation = Relation.sets ∧ strStartsWith target ("qk:") ∧
          isSetAnchoredConcreteKey p.queryKey then
        setAdd st.setAnchoredQueryNodeIds target
      else st.setAnchoredQueryNodeIds := by
  simp only [pass2TargetStep, ite_setAnchored, ite_self]

theorem foldTargets_callsites (_st1 : Pass1State) (p : Pending)
    (targets : List String) (st : Pass2State) (t : String) :
    (mapGet ((targets.foldl (pass2TargetStep p)
      st).queryKeyToDeclareCallsites) t).getD 0 > 0 →
    (mapGet st.queryKeyToDeclareCallsites t).getD 0 > 0 ∨
      (isDeclarationAnchorRecord p.relation = true ∧ t ∈ targets) := by
  induction targets generalizing st with
  | nil => exact fun h => Or.inl h
  | cons a rest ih =>
    intro h
    rcases ih (pass2TargetStep p st a) h with h2 | h2
    · rw [pass2TargetStep_callsites_eq] at h2
      by_cases hd : isDeclarationAnchorRecord p.relation = true
      · rw [if_pos hd, mapGet_mapSet] at h2
        by_cases hta : t = a
        · exact Or.inr ⟨hd, by rw [hta]; exact List.mem_cons_self a rest⟩
        · rw [if_neg hta] at h2
          exact Or.inl h2
      · rw [if_neg hd] at h2
        exact Or.inl h2
    · exact Or.inr ⟨h2.1, List.mem_cons_of_mem a h2.2⟩

theorem foldTargets_setAnchored (_st1 : Pass1State) (p : Pending)
    (targets : List String) (st : Pass2State) (t : String) :
    t ∈ ((targets.foldl (pass2TargetStep p) st).setAnchoredQueryNodeIds) →
    t ∈ st.setAnchoredQueryNodeIds ∨
      (p.relation = Relation.sets ∧ isSetAnchoredConcreteKey p.queryKey = true ∧
        t ∈ targets) := by
  induction targets generalizing st with
  | nil => exact fun h => Or.inl h
  | cons a rest ih =>
    intro h
    rcases ih (pass2TargetStep p st a) h with h2 | h2
    · rw [pass2TargetStep_setAnchored_eq] at h2
      split at h2
      · rename_i hc
        rcases (mem_setAdd _ _ _).mp h2 with h3 | h3
        · exact Or.inl h3
        · exact Or.inr ⟨hc.1, hc.2.2, by rw [h3]; exact List.mem_cons_self a rest⟩
      · exact Or.inl h2
    · exact Or.inr ⟨h2.1, h2.2.1, List.mem_cons_of_mem a h2.2.2⟩

theorem foldPendings_callsites (st1 : Pass1State) (pendings : List Pending)
    (st : Pass2State) (t : String) :
    (mapGet ((pendings.foldl (fun st p =>
      (pendingTargets st1 p).foldl (pass2TargetStep p) st)
      st).queryKeyToDeclareCallsites) t).getD 0 > 0 →
    (mapGet st.queryKeyToDeclareCallsites t).getD 0 > 0 ∨
      ∃ p, p ∈ pendings ∧ isDeclarationAnchorRecord p.relation = true ∧
        t ∈ pendingTargets st1 p := by
  induction pendings generalizing st with
  | nil => exact fun h => Or.inl h
  | cons q rest ih =>
    intro h
    rcases ih _ h with h2 | h2
    · rcases foldTargets_callsites st1 q (pendingTargets st1 q) st t h2 with h3 | h3
      · exact Or.inl h3
      · exact Or.inr ⟨q, List.mem_cons_self q rest, h3.1, h3.2⟩
    · obtain ⟨p, hp, h3⟩ := h2
      exact Or.inr ⟨p, List.mem_cons_of_mem q hp, h3⟩

theorem foldPendings_setAnchored (st1 : Pass1State) (pendings : List Pending)
    (st : Pass2State) (t : String) :
    t ∈ ((pendings.foldl (fun st p =>
      (pendingTargets st1 p).foldl (pass2TargetStep p) st)
      st).setAnchoredQueryNodeIds) →
    t ∈ st.setAnchoredQueryNodeIds ∨
      ∃ p, p ∈ pendings ∧ p.relation = Relation.sets ∧
        isSetAnchoredConcreteKey p.queryKey = true ∧ t ∈ pendingTargets st1 p := by
  induction pendings generalizing st with
  | nil => exact fun h => Or.inl h
  | cons q rest ih =>
    intro h
    rcases ih _ h with h2 | h2
    · rcases foldTargets_setAnchored st1 q (pendingTargets st1 q) st t h2 with h3 | h3
      · exact Or.inl h3
      · exact Or.inr ⟨q, List.mem_cons_self q rest, h3.1, h3.2.1, h3.2.2⟩
    · obtain ⟨p, hp, h3⟩ := h2
      exact Or.inr ⟨p, List.mem_cons_of_mem q hp, h3⟩

theorem runPass2_callsites_src (st1 : Pass1State) (t : String) :
    (mapGet (runPass2 st1).queryKeyToDeclareCallsites t).getD 0 > 0 →
    ∃ p, p ∈ st1.pending ∧ isDeclarationAnchorRecord p.relation = true ∧
      t ∈ pendingTargets st1 p := by
  intro h
  unfold runPass2 at h
  rcases foldPendings_callsites st1 st1.pending { edgeMap := st1.edgeMap } t h with
    h2 | h2
  · simp [mapGet] at h2
  · exact h2

theorem runPass2_setAnchored_src (st1 : Pass1State) (t : String) :
    t ∈ (runPass2 st1).setAnchoredQueryNodeIds →
    ∃ p, p ∈ st1.pending ∧ p.relation = Relation.sets ∧
      isSetAnchoredConcreteKey p.queryKey = true ∧ t ∈ pendingTargets st1 p := by
  intro h
  unfold runPass2 at h
  rcases foldPendings_setAnchored st1 st1.pending { edgeMap := st1.edgeMap } t h with
    h2 | h2
  · cases h2
  · exact h2

theorem pendingTargets_sub (st : Pass1State) (p : Pending) (t : String) :
    t ∈ pendingTargets st p →
    p.queryKeyNodeId = some t ∨ t ∈ st.declaredQueryNodeIds := by
  intro h
  unfold pendingTargets at h
  split at h
  · split at h
    · rename_i id heq
      simp at h
      exact Or.inl (by rw [heq, h])
    · cases h
  · split at h
    · exact Or.inr (List.mem_filter.mp h).1
    · split at h
      · rename_i own heq
        dsimp only at h
        split at h
        · exact Or.inr (List.mem_filter.mp h).1
        · simp at h
          exact Or.inl (by rw [heq, h])
      · cases h

theorem pendingOf_nodeId_some (env : GraphEnv) (r : QueryRecord) (i : Nat)
    (t : String) :
    (pendingOf env r i).queryKeyNodeId = some t →
    isWildcardQueryKey r = false ∧ makeQueryKeyNodeId r.queryKey.id = t := by
  intro h
  simp only [pendingOf] at h
  by_cases hw : isWildcardQueryKey r
  · rw [if_pos hw] at h
    cases h
  · rw [if_neg hw] at h
    exact ⟨Bool.eq_false_iff.mpr hw, Option.some.inj h⟩

theorem updateNodeMetricsA_kind (st1 : Pass1State) (st2 : Pass2State)
    (node : GraphNode) :
    (updateNodeMetricsA st1 st2 node).kind = node.kind := by
  simp only [updateNodeMetricsA, ite_nodeKind, ite_self]

theorem updateNodeMetricsA_id (st1 : Pass1State) (st2 : Pass2State)
    (node : GraphNode) :
    (updateNodeMetricsA st1 st2 node).id = node.id := by
  simp only [updateNodeMetricsA, ite_nodeId, ite_self]

/-- C3: in the final graph a queryKey node exists only when backed by a
`declares` record (non-wildcard, whose key id names the node) or by a
`sets` record with a concrete anchoring key; in particular a key
referenced only through an unresolved pass-through mutation yields no
node at all. -/
theorem C3_querykey_nodes_backed :
    (∀ env records parseErrors n,
      n ∈ (buildGraph env records parseErrors).nodes →
      n.kind = NodeKind.queryKey →
      ∃ r, r ∈ records ∧
        ((isDeclarationAnchorRecord r.relation = true ∧
          isWildcardQueryKey r = false ∧
          makeQueryKeyNodeId r.queryKey.id = n.id) ∨
         (r.relation = Relation.sets ∧
          isSetAnchoredConcreteKey r.queryKey = true ∧
          makeQueryKeyNodeId r.queryKey.id = n.id))) ∧
    ((buildGraph exEnv [exMutPassThrough] []).nodes.filter
      (fun n => n.kind = NodeKind.queryKey)).length = 0 := by
  refine ⟨?_, by decide⟩
  intro env records parseErrors n hn hk
  have hn2 : n ∈ finalNodesOf (runPass1 env records)
      (runPass2 (runPass1 env records)) := hn
  unfold finalNodesOf at hn2
  obtain ⟨m, hm, hmn⟩ := List.mem_map.mp hn2
  have hid : n.id = m.id := by
    rw [← hmn]
    split
    · rfl
    · split
      · rfl
      · rfl
  have hkind : n.kind = m.kind := by
    rw [← hmn]
    split
    · rfl
    · split
      · rfl
      · rfl
  simp only [prunedNodesOf, List.mem_filter, decide_eq_true_eq] at hm
  have hdef : m.id ∈ definedQueryKeyNodeIdsOf (runPass1 env records)
      (runPass2 (runPass1 env records)) := by
    rcases hm.2 with h | h
    · exact absurd (hkind ▸ hk) h
    · exact h
  unfold definedQueryKeyNodeIdsOf at hdef
  obtain ⟨u, hu, huid⟩ := List.mem_map.mp hdef
  simp only [List.mem_filter, decide_eq_true_eq] at hu
  have hukind : u.kind = NodeKind.queryKey := hu.1.2
  have hcond : (mapGet (runPass2 (runPass1 env records)).queryKeyToDeclareCallsites
      u.id).getD 0 > 0 ∨
      u.id ∈ (runPass2 (runPass1 env records)).setAnchoredQueryNodeIds := by
    have hpred := hu.2
    obtain ⟨w, hw, hwu⟩ := List.mem_map.mp hu.1.1
    have hwkind : w.2.kind = NodeKind.queryKey := by
      rw [← hwu] at hukind
      rw [← updateNodeMetricsA_kind (runPass1 env records)
        (runPass2 (runPass1 env records)) w.2]
      exact hukind
    have hwfile : ¬ w.2.kind = NodeKind.file := by
      rw [hwkind]
      intro hcon
      cases hcon
    have hcall : u.metrics.declaredCallsites =
        some ((mapGet (runPass2 (runPass1 env records)).queryKeyToDeclareCallsites
          w.2.id).getD 0) := by
      rw [← hwu]
      unfold updateNodeMetricsA
      rw [if_neg hwfile, if_pos hwkind]
    have huid2 : u.id = w.2.id := by
      rw [← hwu]
      exact updateNodeMetricsA_id _ _ _
    by_cases hc : u.metrics.declaredCallsites.getD 0 > 0
    · rw [hcall] at hc
      simp only [Option.getD_some] at hc
      exact Or.inl (by rw [huid2]; exact hc)
    · rw [if_neg hc] at hpred
      right
      rw [setHas] at hpred
      exact of_decide_eq_true hpred
  rw [← huid] at hid
  rcases hcond with hc | hc
  · obtain ⟨p, hp, hdecl, htar⟩ := runPass2_callsites_src _ _ hc
    obtain ⟨r, hr, i, hpe⟩ := runPass1_pending_src env records p hp
    rcases pendingTargets_sub _ _ _ htar with hown | hdecl2
    · rw [hpe] at hown
      obtain ⟨hwf, hmk⟩ := pendingOf_nodeId_some env r i u.id hown
      refine ⟨r, hr, Or.inl ⟨?_, hwf, by rw [hmk, ← hid]⟩⟩
      have : (pendingOf env r i).relation = r.relation := rfl
      rw [hpe, this] at hdecl
      exact hdecl
    · obtain ⟨r2, hr2, hd2, hw2, hmk2⟩ := runPass1_declared_src env records u.id hdecl2
      exact ⟨r2, hr2, Or.inl ⟨hd2, hw2, by rw [← hmk2, ← hid]⟩⟩
  · obtain ⟨p, hp, hsets, hconc, htar⟩ := runPass2_setAnchored_src _ _ hc
    obtain ⟨r, hr, i, hpe⟩ := runPass1_pending_src env records p hp
    rcases pendingTargets_sub _ _ _ htar with hown | hdecl2
    · rw [hpe] at hown
      obtain ⟨hwf, hmk⟩ := pendingOf_nodeId_some env r i u.id hown
      refine ⟨r, hr, Or.inr ⟨?_, ?_, by rw [hmk, ← hid]⟩⟩
      · have : (pendingOf env r i).relation = r.relation := rfl
        rw [hpe, this] at hsets
        exact hsets
      · have : (pendingOf env r i).queryKey = r.queryKey := rfl
        rw [hpe, this] at hconc
        exact hconc
    · obtain ⟨r2, hr2, hd2, hw2, hmk2⟩ := runPass1_declared_src env records u.id hdecl2
      exact ⟨r2, hr2, Or.inl ⟨hd2, hw2, by rw [← hmk2, ← hid]⟩⟩

/-- The `[todos, list]` queryKey node as the final graph of the single
declaration record carries it. -/
def exNodeC3Metrics : Metrics :=
  { relation := none, displayFile := none,
    projectScope := some ("ws:app"), declaresDirectly := none,
    matchMode := some MatchMode.exact, rootSegment := some ("todos"),
    affectedKeys := none, affectedFiles := some 1, declaredFiles := some 1,
    declaredCallsites := some 1 }

def exNodeC3 : GraphNode :=
  { id := "qk:todos|list", kind := NodeKind.queryKey, label := "[todos, list]",
    file := none, loc := none, resolution := Resolution.static,
    metrics := exNodeC3Metrics }

/-- C3 witness: the surviving `[todos, list]` node is backed by the
declaring record. -/
theorem C3_witness :
    ∃ r, r ∈ [exDeclTodosList] ∧
      ((isDeclarationAnchorRecord r.relation = true ∧
        isWildcardQueryKey r = false ∧
        makeQueryKeyNodeId r.queryKey.id = exNodeC3.id) ∨
       (r.relation = Relation.sets ∧
        isSetAnchoredConcreteKey r.queryKey = true ∧
        makeQueryKeyNodeId r.queryKey.id = exNodeC3.id)) :=
  C3_querykey_nodes_backed.1 exEnv [exDeclTodosList] [] exNodeC3 (by decide) rfl


/-! ### Order theory of the code-point comparator (for C5). -/

theorem charListLeB_refl (l : List Char) : charListLeB l l = true := by
  induction l with
  | nil => rfl
  | cons a as ih =>
    simp only [charListLeB, Nat.lt_irrefl, if_false]
    exact ih

theorem charListLeB_total (l1 l2 : List Char) :
    charListLeB l1 l2 = true ∨ charListLeB l2 l1 = true := by
  induction l1 generalizing l2 with
  | nil => exact Or.inl rfl
  | cons a as ih =>
    cases l2 with
    | nil => exact Or.inr rfl
    | cons b bs =>
      simp only [charListLeB]
      by_cases hab : a.toNat < b.toNat
      · exact Or.inl (by rw [if_pos hab])
      · by_cases hba : b.toNat < a.toNat
        · exact Or.inr (by rw [if_pos hba])
        · rw [if_neg hab, if_neg hba, if_neg hba, if_neg hab]
          exact ih bs

theorem charListLeB_trans (l1 : List Char) : ∀ l2 l3 : List Char,
    charListLeB l1 l2 = true → charListLeB l2 l3 = true →
    charListLeB l1 l3 = true := by
  induction l1 with
  | nil => intro l2 l3 _ _; rfl
  | cons a as ih =>
    intro l2 l3 h12 h23
    cases l2 with
    | nil => simp [charListLeB] at h12
    | cons b bs =>
      cases l3 with
      | nil => simp [charListLeB] at h23
      | cons c cs =>
        simp only [charListLeB] at h12 h23 ⊢
        by_cases hab : a.toNat < b.toNat
        · by_cases hbc : b.toNat < c.toNat
          · rw [if_pos (Nat.lt_trans hab hbc)]
          · by_cases hcb : c.toNat < b.toNat
            · rw [if_neg hbc, if_pos hcb] at h23
              cases h23
            · have hbceq : b.toNat = c.toNat := by omega
              rw [if_pos (hbceq ▸ hab)]
        · by_cases hba : b.toNat < a.toNat
          · rw [if_neg hab, if_pos hba] at h12
            cases h12
          · have habeq : a.toNat = b.toNat := by omega
            rw [if_neg hab, if_neg hba] at h12
            by_cases hbc : b.toNat < c.toNat
            · rw [if_pos (habeq ▸ hbc)]
            · by_cases hcb : c.toNat < b.toNat
              · rw [if_neg hbc, if_pos hcb] at h23
                cases h23
              · have hbceq : b.toNat = c.toNat := by omega
                rw [if_neg (by omega : ¬ a.toNat < c.toNat),
                  if_neg (by omega : ¬ c.toNat < a.toNat)]
                rw [if_neg hbc, if_neg hcb] at h23
                exact ih bs cs h12 h23

theorem char_toNat_inj {a b : Char} (h : a.toNat = b.toNat) : a = b := by
  cases a with
  | mk av ap =>
    cases b with
    | mk bv bp =>
      have : av = bv := UInt32.ext h
      subst this
      rfl

theorem charListLeB_antisymm (l1 : List Char) : ∀ l2 : List Char,
    charListLeB l1 l2 = true → charListLeB l2 l1 = true → l1 = l2 := by
  induction l1 with
  | nil =>
    intro l2 h12 h21
    cases l2 with
    | nil => rfl
    | cons b bs => simp [charListLeB] at h21
  | cons a as ih =>
    intro l2 h12 h21
    cases l2 with
    | nil => simp [charListLeB] at h12
    | cons b bs =>
      simp only [charListLeB] at h12 h21
      by_cases hab : a.toNat < b.toNat
      · rw [if_neg (by omega : ¬ b.toNat < a.toNat),
          if_pos hab] at h21
        cases h21
      · by_cases hba : b.toNat < a.toNat
        · rw [if_neg hab, if_pos hba] at h12
          cases h12
        · have habeq : a.toNat = b.toNat := by omega
          rw [if_neg hab, if_neg hba] at h12
          rw [if_neg hba, if_neg hab] at h21
          rw [char_toNat_inj habeq, ih bs h12 h21]

theorem strLE_refl (a : String) : strLE a a := charListLeB_refl a.data

theorem strLE_total (a b : String) : strLE a b ∨ strLE b a :=
  charListLeB_total a.data b.data

theorem strLE_trans {a b c : String} (h1 : strLE a b) (h2 : strLE b c) :
    strLE a c := charListLeB_trans a.data b.data c.data h1 h2

theorem strLE_antisymm {a b : String} (h1 : strLE a b) (h2 : strLE b a) :
    a = b := by
  have hd : a.data = b.data := charListLeB_antisymm a.data b.data h1 h2
  cases a
  cases b
  exact congrArg String.mk hd

/-- Sorted-by-key lists that are permutations with duplicate-free keys are
equal (key order is only antisymmetric modulo equal keys, which nodup
excludes). -/
theorem sorted_perm_eq_keys (l1 : List (String × SegmentResult)) :
    ∀ l2 : List (String × SegmentResult), l1.Perm l2 →
    l1.Sorted (fun a b => strLE a.1 b.1) →
    l2.Sorted (fun a b => strLE a.1 b.1) →
    (l1.map Prod.fst).Nodup → l1 = l2 := by
  induction l1 with
  | nil =>
    intro l2 h _ _ _
    exact List.Perm.nil_eq h
  | cons a t1 ih =>
    intro l2 h hs1 hs2 hnd
    cases l2 with
    | nil =>
      have := h.eq_nil
      cases this
    | cons b t2 =>
      have hb1 : b ∈ a :: t1 := h.mem_iff.mpr (List.mem_cons_self b t2)
      have hab : a = b := by
        rcases List.mem_cons.mp hb1 with h3 | h3
        · exact h3.symm
        · have ha2 : a ∈ b :: t2 := h.mem_iff.mp (List.mem_cons_self a t1)
          have hle1 : strLE a.1 b.1 := (List.sorted_cons.mp hs1).1 b h3
          have hle2 : strLE b.1 a.1 := by
            rcases List.mem_cons.mp ha2 with h4 | h4
            · rw [h4]
              exact strLE_refl b.1
            · exact (List.sorted_cons.mp hs2).1 a h4
          have hkey : a.1 = b.1 := strLE_antisymm hle1 hle2
          exfalso
          have : a.1 ∈ t1.map Prod.fst := by
            rw [hkey]
            exact List.mem_map_of_mem Prod.fst h3
          exact (List.nodup_cons.mp hnd).1 this
      subst hab
      have ht := h.cons_inv
      rw [ih t2 ht (List.sorted_cons.mp hs1).2 (List.sorted_cons.mp hs2).2
        (List.nodup_cons.mp hnd).2]

theorem mapDelete_not_mem {κ α : Type} [DecidableEq κ] (m : List (κ × α))
    (k : κ) (h : k ∉ m.map Prod.fst) : mapDelete m k = m := by
  unfold mapDelete
  induction m with
  | nil => rfl
  | cons p m ih =>
    have hmem : p.1 ∈ (p :: m).map Prod.fst :=
      List.mem_map_of_mem Prod.fst (List.mem_cons_self p m)
    have hp : ¬ p.1 = k := fun hh => h (hh ▸ hmem)
    have hrest : k ∉ m.map Prod.fst := fun hh => h (by
      rw [List.map_cons]
      exact List.mem_cons_of_mem _ hh)
    simp only [List.filter_cons]
    rw [if_pos (by simp [hp]), ih hrest]

theorem mapSet_not_mem {κ α : Type} [DecidableEq κ] (m : List (κ × α))
    (k : κ) (v : α) (h : k ∉ m.map Prod.fst) : mapSet m k v = m ++ [(k, v)] := by
  unfold mapSet
  have : ¬ mapHas m k = true := by
    unfold mapHas
    rw [List.find?_eq_none.mpr]
    · simp
    · intro p hp
      simp only [decide_eq_true_eq]
      intro hh
      exact h (by rw [← hh]; exact List.mem_map_of_mem Prod.fst hp)
  rw [if_neg this]

/-- The canonical-entry fold of `segmentFromObjectExpression`, restated:
with duplicate-free keys it is exactly the undefined-entry filter. -/
theorem canonFold_eq_filter (l : List (String × SegmentResult))
    (m : List (String × SegmentResult))
    (hdisj : ∀ e ∈ l, e.1 ∉ m.map Prod.fst)
    (hnd : (l.map Prod.fst).Nodup) :
    l.foldl (fun (m : List (String × SegmentResult)) entry =>
      if isUndefinedObjectValue entry.2 then mapDelete m entry.1
      else mapSet m entry.1 entry.2) m =
      m ++ (l.filter (fun e => ¬ isUndefinedObjectValue e.2)) := by
  induction l generalizing m with
  | nil => simp
  | cons e rest ih =>
    simp only [List.foldl_cons]
    have hnd2 : e.1 ∉ rest.map Prod.fst ∧ (rest.map Prod.fst).Nodup := by
      rw [List.map_cons] at hnd
      exact List.nodup_cons.mp hnd
    by_cases hu : isUndefinedObjectValue e.2 = true
    · rw [if_pos hu, mapDelete_not_mem m e.1 (hdisj e (List.mem_cons_self e rest))]
      rw [ih m (fun e2 he2 => hdisj e2 (List.mem_cons_of_mem e he2)) hnd2.2]
      simp only [List.filter_cons]
      rw [if_neg (by simp [hu])]
    · rw [if_neg hu, mapSet_not_mem m e.1 e.2 (hdisj e (List.mem_cons_self e rest))]
      rw [ih (m ++ [(e.1, e.2)]) ?_ hnd2.2]
      · simp only [List.filter_cons]
        rw [if_pos (by simp [hu])]
        simp
      · intro e2 he2
        simp only [List.map_append, List.mem_append]
        intro hcon
        rcases hcon with hcon | hcon
        · exact hdisj e2 (List.mem_cons_of_mem e he2) hcon
        · simp only [List.map_cons, List.map_nil, List.mem_singleton] at hcon
          exact hnd2.1 (hcon ▸ List.mem_map_of_mem Prod.fst he2)

theorem perm_all {α : Type} (l1 l2 : List α) (q : α → Bool) (h : l1.Perm l2) :
    l1.all q = l2.all q := by
  cases hb : l2.all q
  · cases hb1 : l1.all q
    · rfl
    · rw [List.all_eq_true] at hb1
      have : l2.all q = true := List.all_eq_true.mpr
        (fun x hx => hb1 x (h.mem_iff.mpr hx))
      rw [this] at hb
      cases hb
  · rw [List.all_eq_true] at hb
    exact List.all_eq_true.mpr (fun x hx => hb x (h.mem_iff.mp hx))


/-! ### C5: the plain-object entry characterization. -/

/-- The key name of a plain property (junk on other shapes). -/
def plainKeyOf : ObjProp → String
  | ObjProp.prop (Expr.ident n) _ _ => n
  | _ => ""

/-- The value expression of a plain property (junk on other shapes). -/
def plainValOf : ObjProp → Expr
  | ObjProp.prop _ _ v => v
  | _ => Expr.nullLit

/-- The value segment `goObjEntries` computes for a plain property. -/
def plainValSeg (r : Option QueryKeyResolver) (f : Nat) (pr : ObjProp) :
    SegmentResult :=
  normalizeSegmentResult (segmentFromExpression (plainValOf pr) r f)

/-- A single property is plain. -/
def isPlainProp : ObjProp → Prop
  | ObjProp.prop (Expr.ident _) false _ => True
  | _ => False

theorem plainProps_iff (props : List ObjProp) :
    plainProps props ↔ ∀ pr ∈ props, isPlainProp pr := by
  induction props with
  | nil => simp [plainProps]
  | cons pr rest ih =>
    cases pr with
    | prop key computed value =>
      cases key with
      | ident n =>
        cases computed with
        | false =>
          constructor
          · intro h pr2 hm
            rcases List.mem_cons.mp hm with hm | hm
            · rw [hm]
              trivial
            · exact (ih.mp h) pr2 hm
          · intro h
            exact ih.mpr (fun pr2 hm => h pr2 (List.mem_cons_of_mem _ hm))
        | true =>
          constructor
          · intro h
            exact h.elim
          · intro h
            exact (h _ (List.mem_cons_self _ _)).elim
      | strLit s =>
        constructor
        · intro h
          exact h.elim
        · intro h
          exact (h _ (List.mem_cons_self _ _)).elim
      | numLit v =>
        constructor
        · intro h
          exact h.elim
        · intro h
          exact (h _ (List.mem_cons_self _ _)).elim
      | boolLit v =>
        constructor
        · intro h
          exact h.elim
        · intro h
          exact (h _ (List.mem_cons_self _ _)).elim
      | nullLit =>
        constructor
        · intro h
          exact h.elim
        · intro h
          exact (h _ (List.mem_cons_self _ _)).elim
      | templateLit q e =>
        constructor
        · intro h
          exact h.elim
        · intro h
          exact (h _ (List.mem_cons_self _ _)).elim
      | arrayLit es =>
        constructor
        · intro h
          exact h.elim
        · intro h
          exact (h _ (List.mem_cons_self _ _)).elim
      | objectLit ps =>
        constructor
        · intro h
          exact h.elim
        · intro h
          exact (h _ (List.mem_cons_self _ _)).elim
      | member o p c =>
        constructor
        · intro h
          exact h.elim
        · intro h
          exact (h _ (List.mem_cons_self _ _)).elim
      | optMember o p c =>
        constructor
        · intro h
          exact h.elim
        · intro h
          exact (h _ (List.mem_cons_self _ _)).elim
      | call c a =>
        constructor
        · intro h
          exact h.elim
        · intro h
          exact (h _ (List.mem_cons_self _ _)).elim
      | optCall c a =>
        constructor
        · intro h
          exact h.elim
        · intro h
          exact (h _ (List.mem_cons_self _ _)).elim
      | arrowFn b =>
        constructor
        · intro h
          exact h.elim
        · intro h
          exact (h _ (List.mem_cons_self _ _)).elim
      | funcExpr b =>
        constructor
        · intro h
          exact h.elim
        · intro h
          exact (h _ (List.mem_cons_self _ _)).elim
      | unary o a =>
        constructor
        · intro h
          exact h.elim
        · intro h
          exact (h _ (List.mem_cons_self _ _)).elim
      | binary o l2 r2 =>
        constructor
        · intro h
          exact h.elim
        · intro h
          exact (h _ (List.mem_cons_self _ _)).elim
      | logical o l2 r2 =>
        constructor
        · intro h
          exact h.elim
        · intro h
          exact (h _ (List.mem_cons_self _ _)).elim
      | condExpr c2 a2 =>
        constructor
        · intro h
          exact h.elim
        · intro h
          exact (h _ (List.mem_cons_self _ _)).elim
      | tsAs e2 =>
        constructor
        · intro h
          exact h.elim
        · intro h
          exact (h _ (List.mem_cons_self _ _)).elim
      | tsSatisfies e2 =>
        constructor
        · intro h
          exact h.elim
        · intro h
          exact (h _ (List.mem_cons_self _ _)).elim
      | typeCast e2 =>
        constructor
        · intro h
          exact h.elim
        · intro h
          exact (h _ (List.mem_cons_self _ _)).elim
      | tsNonNull e2 =>
        constructor
        · intro h
          exact h.elim
        · intro h
          exact (h _ (List.mem_cons_self _ _)).elim
    | spread arg =>
      constructor
      · intro h
        exact h.elim
      · intro h
        exact (h _ (List.mem_cons_self _ _)).elim
    | method =>
      constructor
      · intro h
        exact h.elim
      · intro h
        exact (h _ (List.mem_cons_self _ _)).elim


theorem propKeyNames_eq_map (props : List ObjProp) (h : plainProps props) :
    propKeyNames props = props.map plainKeyOf := by
  induction props with
  | nil => rfl
  | cons pr rest ih =>
    have hall := (plainProps_iff _).mp h
    have hh := hall pr (List.mem_cons_self pr rest)
    have hrest : plainProps rest := (plainProps_iff _).mpr
      (fun pr2 hm => hall pr2 (List.mem_cons_of_mem _ hm))
    cases pr with
    | prop key computed value =>
      cases key with
      | ident n =>
        simp only [propKeyNames, List.map_cons, plainKeyOf]
        rw [ih hrest]
      | strLit s => exact hh.elim
      | numLit v => exact hh.elim
      | boolLit v => exact hh.elim
      | nullLit => exact hh.elim
      | templateLit q e => exact hh.elim
      | arrayLit es => exact hh.elim
      | objectLit ps => exact hh.elim
      | member o p c => exact hh.elim
      | optMember o p c => exact hh.elim
      | call c a => exact hh.elim
      | optCall c a => exact hh.elim
      | arrowFn b => exact hh.elim
      | funcExpr b => exact hh.elim
      | unary o a => exact hh.elim
      | binary o l2 r2 => exact hh.elim
      | logical o l2 r2 => exact hh.elim
      | condExpr c2 a2 => exact hh.elim
      | tsAs e2 => exact hh.elim
      | tsSatisfies e2 => exact hh.elim
      | typeCast e2 => exact hh.elim
      | tsNonNull e2 => exact hh.elim
    | spread arg => exact hh.elim
    | method => exact hh.elim

theorem objectPropertyKeySegment_ident (n : String)
    (r : Option QueryKeyResolver) (f : Nat) :
    objectPropertyKeySegment (Expr.ident n) false r (f + 1) =
      { text := n, isStatic := true } := by
  rw [objectPropertyKeySegment.eq_def]

theorem resolveQueryKeyExpression_objectLit_noqk (props : List ObjProp)
    (f : Nat) (h : findObjectPropertyValue props "queryKey" = none) :
    resolveQueryKeyExpression (Expr.objectLit props) none (f + 1) =
      some (Expr.objectLit props) := by
  rw [resolveQueryKeyExpression.eq_def]
  simp [unwrapExpression, h]

theorem segmentFromExpression_objectLit_noqk (props : List ObjProp)
    (f : Nat) (h : findObjectPropertyValue props "queryKey" = none) :
    segmentFromExpression (Expr.objectLit props) none (f + 1) =
      segmentFromObjectExpression props none f := by
  rw [segmentFromExpression.eq_def]
  simp [unwrapExpression, resolveWithResolver, h]

theorem segmentFromExpression_ident_undefined
    (r : Option QueryKeyResolver) (f : Nat) :
    segmentFromExpression (Expr.ident "undefined") r (f + 1) =
      { text := "undefined", isStatic := true } := by
  rw [segmentFromExpression.eq_def]
  rfl

/-- `goObjEntries` on plain properties (fuel at least 1): one entry and one
sortable pair per property, canonical ordering allowed. -/
theorem goObjEntries_plain (props : List ObjProp)
    (r : Option QueryKeyResolver) (g : Nat) (h : plainProps props) :
    goObjEntries props r (g + 1) =
      (props.map (fun pr =>
        objectEntryText (plainKeyOf pr) (plainValSeg r (g + 1) pr).text),
       props.map (fun pr => (plainKeyOf pr, plainValSeg r (g + 1) pr)),
       props.all (fun pr => (plainValSeg r (g + 1) pr).isStatic),
       true) := by
  induction props with
  | nil =>
    rw [goObjEntries.eq_def]
    rfl
  | cons pr rest ih =>
    have hall := (plainProps_iff _).mp h
    have hh := hall pr (List.mem_cons_self pr rest)
    have hrest : plainProps rest := (plainProps_iff _).mpr
      (fun pr2 hm => hall pr2 (List.mem_cons_of_mem _ hm))
    cases pr with
    | prop key computed value =>
      cases key with
      | ident n =>
        cases computed with
        | false =>
          rw [goObjEntries.eq_def]
          simp only [ih hrest, objectPropertyKeySegment_ident, List.map_cons,
            List.all_cons]
          simp [plainKeyOf, plainValOf, plainValSeg]
        | true => exact hh.elim
      | strLit s => exact hh.elim
      | numLit v => exact hh.elim
      | boolLit v => exact hh.elim
      | nullLit => exact hh.elim
      | templateLit q e => exact hh.elim
      | arrayLit es => exact hh.elim
      | objectLit ps => exact hh.elim
      | member o p c => exact hh.elim
      | optMember o p c => exact hh.elim
      | call c a => exact hh.elim
      | optCall c a => exact hh.elim
      | arrowFn b => exact hh.elim
      | funcExpr b => exact hh.elim
      | unary o a => exact hh.elim
      | binary o l2 r2 => exact hh.elim
      | logical o l2 r2 => exact hh.elim
      | condExpr c2 a2 => exact hh.elim
      | tsAs e2 => exact hh.elim
      | tsSatisfies e2 => exact hh.elim
      | typeCast e2 => exact hh.elim
      | tsNonNull e2 => exact hh.elim
    | spread arg => exact hh.elim
    | method => exact hh.elim


/-- The successor-fuel equation of `segmentFromObjectExpression`. -/
theorem segmentFromObjectExpression_succ (properties : List ObjProp)
    (resolver : Option QueryKeyResolver) (f : Nat) :
    segmentFromObjectExpression properties resolver (f + 1) =
      (let acc := goObjEntries properties resolver f
       let entries := acc.1
       let sortableEntries := acc.2.1
       let isStatic := acc.2.2.1
       let canCanonicalizeOrder := acc.2.2.2
       if entries.length = 0 then { text := lbrace ++ rbrace, isStatic := true }
       else if canCanonicalizeOrder then
         let canonicalEntries := sortableEntries.foldl
           (fun (m : List (String × SegmentResult)) entry =>
             if isUndefinedObjectValue entry.2 then mapDelete m entry.1
             else mapSet m entry.1 entry.2)
           []
         let sortedEntryText :=
           (List.insertionSort (fun a b : String × SegmentResult => strLE a.1 b.1)
             canonicalEntries).map (fun e => objectEntryText e.1 e.2.text)
         if sortedEntryText.length = 0 then
           { text := lbrace ++ rbrace, isStatic := isStatic }
         else
           { text := lbrace ++ String.intercalate ", " sortedEntryText ++ rbrace,
             isStatic := isStatic }
       else
         { text := lbrace ++ String.intercalate ", " entries ++ rbrace,
           isStatic := isStatic }) := by
  rw [segmentFromObjectExpression.eq_def]

/-- C5's general half: on plain, duplicate-free object properties the
object segment is invariant under reordering the properties. -/
theorem segmentFromObjectExpression_perm (props1 props2 : List ObjProp)
    (g : Nat) (hp : plainProps props1) (hperm : props1.Perm props2)
    (hnd : (propKeyNames props1).Nodup) :
    segmentFromObjectExpression props1 none (g + 1 + 1) =
      segmentFromObjectExpression props2 none (g + 1 + 1) := by
  have hp2 : plainProps props2 := (plainProps_iff _).mpr
    (fun pr hm => (plainProps_iff _).mp hp pr (hperm.mem_iff.mpr hm))
  have hnd1 : (props1.map plainKeyOf).Nodup := by
    rw [← propKeyNames_eq_map props1 hp]
    exact hnd
  haveI hto : IsTotal (String × SegmentResult) (fun a b => strLE a.1 b.1) :=
    ⟨fun a b => strLE_total a.1 b.1⟩
  haveI htr : IsTrans (String × SegmentResult) (fun a b => strLE a.1 b.1) :=
    ⟨fun a b c h1 h2 => strLE_trans h1 h2⟩
  rw [segmentFromObjectExpression_succ props1 none (g + 1),
    segmentFromObjectExpression_succ props2 none (g + 1)]
  rw [goObjEntries_plain props1 none g hp, goObjEntries_plain props2 none g hp2]
  dsimp only
  simp only [List.length_map, hperm.length_eq]
  by_cases hz : props2.length = 0
  · rw [if_pos hz, if_pos hz]
  · rw [if_neg hz, if_neg hz]
    have hstat : props1.all (fun pr => (plainValSeg none (g + 1) pr).isStatic) =
        props2.all (fun pr => (plainValSeg none (g + 1) pr).isStatic) :=
      perm_all _ _ _ hperm
    have hk1 : ((props1.map (fun pr =>
        (plainKeyOf pr, plainValSeg none (g + 1) pr))).map Prod.fst).Nodup := by
      rw [List.map_map]
      exact hnd1
    have hpermp : (props1.map (fun pr =>
        (plainKeyOf pr, plainValSeg none (g + 1) pr))).Perm
        (props2.map (fun pr => (plainKeyOf pr, plainValSeg none (g + 1) pr))) :=
      hperm.map _
    have hk2 : ((props2.map (fun pr =>
        (plainKeyOf pr, plainValSeg none (g + 1) pr))).map Prod.fst).Nodup :=
      ((hpermp.map Prod.fst).nodup_iff).mp hk1
    have hf1 := canonFold_eq_filter (props1.map (fun pr =>
      (plainKeyOf pr, plainValSeg none (g + 1) pr))) []
      (by intro e he; simp) hk1
    have hf2 := canonFold_eq_filter (props2.map (fun pr =>
      (plainKeyOf pr, plainValSeg none (g + 1) pr))) []
      (by intro e he; simp) hk2
    rw [List.nil_append] at hf1 hf2
    rw [hf1, hf2]
    have hsubk1 : ((List.filter (fun e => ¬ isUndefinedObjectValue e.2)
        (props1.map (fun pr =>
          (plainKeyOf pr, plainValSeg none (g + 1) pr)))).map Prod.fst).Nodup :=
      ((List.filter_sublist _).map Prod.fst).nodup hk1
    have hsort := sorted_perm_eq_keys
      (List.insertionSort (fun a b : String × SegmentResult => strLE a.1 b.1)
        (List.filter (fun e => ¬ isUndefinedObjectValue e.2)
          (props1.map (fun pr => (plainKeyOf pr, plainValSeg none (g + 1) pr)))))
      (List.insertionSort (fun a b : String × SegmentResult => strLE a.1 b.1)
        (List.filter (fun e => ¬ isUndefinedObjectValue e.2)
          (props2.map (fun pr => (plainKeyOf pr, plainValSeg none (g + 1) pr)))))
      ((List.perm_insertionSort _ _).trans
        ((hpermp.filter _).trans (List.perm_insertionSort _ _).symm))
      (List.sorted_insertionSort _ _)
      (List.sorted_insertionSort _ _)
      (((List.perm_insertionSort _ _).map Prod.fst).nodup_iff.mpr hsubk1)
    rw [if_pos trivial, if_pos trivial]
    rw [hstat]
    refine if_congr ?_ rfl ?_
    · rw [hsort]
    · rw [hsort]

/-- The non-array result record of `normalizeQueryKey`, as a function of
the already-computed segment. -/
def nqkOfSegment (segment : SegmentResult) (options : NormalizeOptions) :
    NormalizedQueryKey :=
  { id := if segment.text = "" then UNRESOLVED_SEGMENT else segment.text,
    display := if segment.text = "" then UNRESOLVED_SEGMENT else segment.text,
    segments := [if segment.text = "" then UNRESOLVED_SEGMENT else segment.text],
    matchMode := options.defaultMode.getD MatchMode.exact,
    resolution := if segment.isStatic then Resolution.static
      else Resolution.dynamic,
    source := if (if segment.isStatic then Resolution.static
        else Resolution.dynamic) = Resolution.static then KeySource.literal
      else KeySource.expression }

/-- `normalizeQueryKey` on a plain object literal (no `queryKey` property)
routes through `segmentFromObjectExpression` at fuel 24. -/
theorem normalizeQueryKey_objectLit (props : List ObjProp)
    (o : NormalizeOptions) (h : findObjectPropertyValue props "queryKey" = none) :
    normalizeQueryKey (some (Expr.objectLit props)) o none =
      nqkOfSegment (normalizeSegmentResult
        (segmentFromObjectExpression props none 24)) o := by
  simp only [normalizeQueryKey, MAX_RESOLVE_DEPTH,
    resolveQueryKeyExpression_objectLit_noqk, h, Option.getD_some,
    segmentFromExpression_objectLit_noqk]
  rfl

theorem goObjEntries_nil (r : Option QueryKeyResolver) (f : Nat) :
    goObjEntries [] r f = ([], [], true, true) := by
  rw [goObjEntries.eq_def]

theorem goObjEntries_cons_prop (key : Expr) (c : Bool) (v : Expr)
    (rest : List ObjProp) (r : Option QueryKeyResolver) (f : Nat) :
    goObjEntries (ObjProp.prop key c v :: rest) r f =
      (let keySegment := objectPropertyKeySegment key c r f
       let valueSegment := normalizeSegmentResult (segmentFromExpression v r f)
       let keyText := if c then "[" ++ keySegment.text ++ "]"
         else keySegment.text
       let tail := goObjEntries rest r f
       (objectEntryText keyText valueSegment.text :: tail.1,
        (keyText, valueSegment) :: tail.2.1,
        (keySegment.isStatic && valueSegment.isStatic) && tail.2.2.1,
        true && tail.2.2.2)) := by
  rw [goObjEntries.eq_def]
  rfl

theorem objectPropertyKeySegment_strLit (s : String)
    (r : Option QueryKeyResolver) (f : Nat) :
    objectPropertyKeySegment (Expr.strLit s) false r (f + 1) =
      normalizeSegmentResult (segmentFromExpression (Expr.strLit s) r f) := by
  rw [objectPropertyKeySegment.eq_def]

theorem sfoe_AB_eval : segmentFromObjectExpression exPropsAB none 24 =
    { text := "\x7ba: 1, b: 2\x7d", isStatic := true } := by
  rw [show (24 : Nat) = 23 + 1 from rfl, segmentFromObjectExpression_succ]
  simp +decide [goObjEntries_plain, exPropsAB, plainProps, plainKeyOf,
    plainValOf, plainValSeg, segmentFromExpression_numLit,
    normalizeSegmentResult, isDollarQueryKeyName, strToLower, charToLower,
    isUndefinedObjectValue, objectEntryText, mapSet, mapHas, mapGet, mapDelete,
    List.insertionSort, List.orderedInsert, strLE, strLeB, charListLeB,
    lbrace, rbrace, UNRESOLVED_SEGMENT,
    (show toString (1 : Int) = "1" from rfl),
    (show toString (2 : Int) = "2" from rfl)]

theorem sfoe_BA_eval : segmentFromObjectExpression exPropsBA none 24 =
    { text := "\x7ba: 1, b: 2\x7d", isStatic := true } := by
  rw [show (24 : Nat) = 23 + 1 from rfl, segmentFromObjectExpression_succ]
  simp +decide [goObjEntries_plain, exPropsBA, plainProps, plainKeyOf,
    plainValOf, plainValSeg, segmentFromExpression_numLit,
    normalizeSegmentResult, isDollarQueryKeyName, strToLower, charToLower,
    isUndefinedObjectValue, objectEntryText, mapSet, mapHas, mapGet, mapDelete,
    List.insertionSort, List.orderedInsert, strLE, strLeB, charListLeB,
    lbrace, rbrace, UNRESOLVED_SEGMENT,
    (show toString (1 : Int) = "1" from rfl),
    (show toString (2 : Int) = "2" from rfl)]

theorem sfoe_AUndef_eval : segmentFromObjectExpression exPropsAUndef none 24 =
    { text := "\x7ba: 1\x7d", isStatic := true } := by
  rw [show (24 : Nat) = 23 + 1 from rfl, segmentFromObjectExpression_succ]
  simp +decide [goObjEntries_plain, exPropsAUndef, plainProps, plainKeyOf,
    plainValOf, plainValSeg, segmentFromExpression_numLit,
    segmentFromExpression_ident_undefined,
    normalizeSegmentResult, isDollarQueryKeyName, strToLower, charToLower,
    isUndefinedObjectValue, objectEntryText, mapSet, mapHas, mapGet, mapDelete,
    List.insertionSort, List.orderedInsert, strLE, strLeB, charListLeB,
    lbrace, rbrace, UNRESOLVED_SEGMENT,
    (show toString (1 : Int) = "1" from rfl)]

theorem sfoe_A_eval : segmentFromObjectExpression exPropsA none 24 =
    { text := "\x7ba: 1\x7d", isStatic := true } := by
  rw [show (24 : Nat) = 23 + 1 from rfl, segmentFromObjectExpression_succ]
  simp +decide [goObjEntries_plain, exPropsA, plainProps, plainKeyOf,
    plainValOf, plainValSeg, segmentFromExpression_numLit,
    normalizeSegmentResult, isDollarQueryKeyName, strToLower, charToLower,
    isUndefinedObjectValue, objectEntryText, mapSet, mapHas, mapGet, mapDelete,
    List.insertionSort, List.orderedInsert, strLE, strLeB, charListLeB,
    lbrace, rbrace, UNRESOLVED_SEGMENT,
    (show toString (1 : Int) = "1" from rfl)]

theorem sfoe_dup12_eval : segmentFromObjectExpression exPropsDupA12 none 24 =
    { text := "\x7ba: 2\x7d", isStatic := true } := by
  rw [show (24 : Nat) = 23 + 1 from rfl, segmentFromObjectExpression_succ]
  simp +decide [goObjEntries_plain, exPropsDupA12, plainProps, plainKeyOf,
    plainValOf, plainValSeg, segmentFromExpression_numLit,
    normalizeSegmentResult, isDollarQueryKeyName, strToLower, charToLower,
    isUndefinedObjectValue, objectEntryText, mapSet, mapHas, mapGet, mapDelete,
    List.insertionSort, List.orderedInsert, strLE, strLeB, charListLeB,
    lbrace, rbrace, UNRESOLVED_SEGMENT,
    (show toString (1 : Int) = "1" from rfl),
    (show toString (2 : Int) = "2" from rfl)]

theorem sfoe_dup21_eval : segmentFromObjectExpression exPropsDupA21 none 24 =
    { text := "\x7ba: 1\x7d", isStatic := true } := by
  rw [show (24 : Nat) = 23 + 1 from rfl, segmentFromObjectExpression_succ]
  simp +decide [goObjEntries_plain, exPropsDupA21, plainProps, plainKeyOf,
    plainValOf, plainValSeg, segmentFromExpression_numLit,
    normalizeSegmentResult, isDollarQueryKeyName, strToLower, charToLower,
    isUndefinedObjectValue, objectEntryText, mapSet, mapHas, mapGet, mapDelete,
    List.insertionSort, List.orderedInsert, strLE, strLeB, charListLeB,
    lbrace, rbrace, UNRESOLVED_SEGMENT,
    (show toString (1 : Int) = "1" from rfl),
    (show toString (2 : Int) = "2" from rfl)]

theorem nqk_dup12_display :
    (normalizeQueryKey (some exObjDupA12) {} none).display = "\x7ba: 2\x7d" := by
  rw [show exObjDupA12 = Expr.objectLit exPropsDupA12 from rfl,
    normalizeQueryKey_objectLit exPropsDupA12 {} rfl, sfoe_dup12_eval]
  rfl

theorem nqk_dup21_display :
    (normalizeQueryKey (some exObjDupA21) {} none).display = "\x7ba: 1\x7d" := by
  rw [show exObjDupA21 = Expr.objectLit exPropsDupA21 from rfl,
    normalizeQueryKey_objectLit exPropsDupA21 {} rfl, sfoe_dup21_eval]
  rfl

theorem sfoe_S12_eval : segmentFromObjectExpression exPropsS12 none 24 =
    { text := "\x7bUNRESOLVED: 2\x7d", isStatic := false } := by
  rw [show (24 : Nat) = 23 + 1 from rfl, segmentFromObjectExpression_succ]
  simp +decide [exPropsS12, goObjEntries_cons_prop, goObjEntries_nil,
    objectPropertyKeySegment_strLit, segmentFromExpression_strLit,
    segmentFromExpression_numLit,
    normalizeSegmentResult, isDollarQueryKeyName, strToLower, charToLower,
    isUndefinedObjectValue, objectEntryText, mapSet, mapHas, mapGet, mapDelete,
    List.insertionSort, List.orderedInsert, strLE, strLeB, charListLeB,
    lbrace, rbrace, UNRESOLVED_SEGMENT,
    (show toString (1 : Int) = "1" from rfl),
    (show toString (2 : Int) = "2" from rfl)]

theorem sfoe_S21_eval : segmentFromObjectExpression exPropsS21 none 24 =
    { text := "\x7bUNRESOLVED: 1\x7d", isStatic := false } := by
  rw [show (24 : Nat) = 23 + 1 from rfl, segmentFromObjectExpression_succ]
  simp +decide [exPropsS21, goObjEntries_cons_prop, goObjEntries_nil,
    objectPropertyKeySegment_strLit, segmentFromExpression_strLit,
    segmentFromExpression_numLit,
    normalizeSegmentResult, isDollarQueryKeyName, strToLower, charToLower,
    isUndefinedObjectValue, objectEntryText, mapSet, mapHas, mapGet, mapDelete,
    List.insertionSort, List.orderedInsert, strLE, strLeB, charListLeB,
    lbrace, rbrace, UNRESOLVED_SEGMENT,
    (show toString (1 : Int) = "1" from rfl),
    (show toString (2 : Int) = "2" from rfl)]

theorem nqk_S12_display :
    (normalizeQueryKey (some exObjS12) {} none).display =
      "\x7bUNRESOLVED: 2\x7d" := by
  rw [show exObjS12 = Expr.objectLit exPropsS12 from rfl,
    normalizeQueryKey_objectLit exPropsS12 {} rfl, sfoe_S12_eval]
  rfl

theorem nqk_S21_display :
    (normalizeQueryKey (some exObjS21) {} none).display =
      "\x7bUNRESOLVED: 1\x7d" := by
  rw [show exObjS21 = Expr.objectLit exPropsS21 from rfl,
    normalizeQueryKey_objectLit exPropsS21 {} rfl, sfoe_S21_eval]
  rfl

/-- C5 counterexample, two failure modes of the original claim inside its
own region ("no spread and no computed property"). (1) Duplicate keys:
the two orderings of `\x7b a: 1, a: 2 \x7d` normalize to different
displays — the canonical map keeps the LAST occurrence of a repeated
key. (2) Distinct non-identifier keys: `\x7b "": 1, "expr": 2 \x7d` has
pairwise-distinct key names, no spread and no computed property, but both
string-literal keys are rendered through `normalizeSegmentResult`, which
replaces an empty text and the text `expr` by the `UNRESOLVED`
placeholder; the two entries then collide in the canonical map, so the
two orderings again display differently. -/
theorem C5_counterexample :
    (plainProps exPropsDupA12 ∧ plainProps exPropsDupA21 ∧
      exPropsDupA21 = exPropsDupA12.reverse ∧
      (normalizeQueryKey (some exObjDupA12) {} none).display = "\x7ba: 2\x7d" ∧
      (normalizeQueryKey (some exObjDupA21) {} none).display = "\x7ba: 1\x7d" ∧
      (normalizeQueryKey (some exObjDupA12) {} none).display ≠
        (normalizeQueryKey (some exObjDupA21) {} none).display) ∧
    (noSpreadNoComputed exPropsS12 = true ∧
      (exPropsS12.map syntacticKeyName).Nodup ∧
      exPropsS21 = exPropsS12.reverse ∧
      (normalizeQueryKey (some exObjS12) {} none).display =
        "\x7bUNRESOLVED: 2\x7d" ∧
      (normalizeQueryKey (some exObjS21) {} none).display =
        "\x7bUNRESOLVED: 1\x7d" ∧
      (normalizeQueryKey (some exObjS12) {} none).display ≠
        (normalizeQueryKey (some exObjS21) {} none).display) := by
  refine ⟨⟨trivial, trivial, rfl, nqk_dup12_display, nqk_dup21_display, ?_⟩,
    by decide, by decide, rfl, nqk_S12_display, nqk_S21_display, ?_⟩
  · rw [nqk_dup12_display, nqk_dup21_display]
    decide
  · rw [nqk_S12_display, nqk_S21_display]
    decide

/-- C5 (amended): for object literals whose properties all are ordinary
properties with non-computed IDENTIFIER keys and pairwise-distinct key
names, normalization is reorder invariant (entries are canonically sorted
by key name, code-point order), and entries whose value is a
statically-known `undefined` are dropped; the spec's concrete examples
hold. Both restrictions are necessary: duplicate key names break reorder
invariance, and so do distinct non-identifier keys, whose rendered key
texts can collide at the `UNRESOLVED` placeholder (see the
counterexample). -/
theorem C5_object_normalization_amended :
    (∀ props1 props2 g, plainProps props1 → props1.Perm props2 →
      (propKeyNames props1).Nodup →
      segmentFromObjectExpression props1 none (g + 1 + 1) =
        segmentFromObjectExpression props2 none (g + 1 + 1)) ∧
    (∀ props1 props2 o, plainProps props1 → props1.Perm props2 →
      (propKeyNames props1).Nodup →
      findObjectPropertyValue props1 "queryKey" = none →
      findObjectPropertyValue props2 "queryKey" = none →
      normalizeQueryKey (some (Expr.objectLit props1)) o none =
        normalizeQueryKey (some (Expr.objectLit props2)) o none) ∧
    ((normalizeQueryKey (some exObjAB) {} none).display =
        (normalizeQueryKey (some exObjBA) {} none).display ∧
      (normalizeQueryKey (some exObjBA) {} none).display =
        "\x7ba: 1, b: 2\x7d" ∧
      (normalizeQueryKey (some exObjAUndef) {} none).id =
        (normalizeQueryKey (some exObjA) {} none).id ∧
      (normalizeQueryKey (some exObjAUndef) {} none).display =
        (normalizeQueryKey (some exObjA) {} none).display) := by
  refine ⟨segmentFromObjectExpression_perm, ?_, ?_⟩
  · intro props1 props2 o hp hperm hnd h1 h2
    rw [normalizeQueryKey_objectLit _ _ h1, normalizeQueryKey_objectLit _ _ h2]
    have hseg := segmentFromObjectExpression_perm props1 props2 22 hp hperm hnd
    norm_num at hseg
    rw [hseg]
  · have eAB : (normalizeQueryKey (some exObjAB) {} none).display =
        "\x7ba: 1, b: 2\x7d" := by
      rw [show exObjAB = Expr.objectLit exPropsAB from rfl,
        normalizeQueryKey_objectLit exPropsAB {} rfl, sfoe_AB_eval]
      rfl
    have eBA : (normalizeQueryKey (some exObjBA) {} none).display =
        "\x7ba: 1, b: 2\x7d" := by
      rw [show exObjBA = Expr.objectLit exPropsBA from rfl,
        normalizeQueryKey_objectLit exPropsBA {} rfl, sfoe_BA_eval]
      rfl
    have eU : normalizeQueryKey (some exObjAUndef) {} none =
        normalizeQueryKey (some exObjA) {} none := by
      rw [show exObjAUndef = Expr.objectLit exPropsAUndef from rfl,
        show exObjA = Expr.objectLit exPropsA from rfl,
        normalizeQueryKey_objectLit exPropsAUndef {} rfl,
        normalizeQueryKey_objectLit exPropsA {} rfl,
        sfoe_AUndef_eval, sfoe_A_eval]
    exact ⟨eAB.trans eBA.symm, eBA, by rw [eU], by rw [eU]⟩

/-- C5 witness: the reorder-invariance applied to the concrete pair
`\x7b a: 1, b: 2 \x7d` / `\x7b b: 2, a: 1 \x7d`. -/
theorem C5_witness :
    segmentFromObjectExpression exPropsAB none (0 + 1 + 1) =
      segmentFromObjectExpression exPropsBA none (0 + 1 + 1) :=
  C5_object_normalization_amended.1 exPropsAB exPropsBA 0 trivial
    (List.Perm.swap _ _ _) (by decide)

end RQV


